import Mathlib

/-!
# CHIP-8 interpreter core: a shallow embedding of `chip8/opcode.go` and `chip8/emulator.go`

Bytes (`byte`) and 16-bit words (`uint16`) are natural numbers; every place where the Go
code can wrap is written with an explicit `% 256` or `% 65536`.  The fixed-size arrays
`memory [4096]byte`, `V [16]byte` and `keyboard [16]bool` are total functions on `Nat`
whose index is checked at every access: an index outside the array is the Go run-time
panic, modelled as `Fault.outOfBounds`.
-/

namespace Chip8

/-- Ways in which a handler fails to return a state. -/
inductive Fault where
  /-- Go "index out of range" panic on `memory`, `V` or `keyboard`. -/
  | outOfBounds
  /-- The iteration budget given to a `for` loop of the model was too small. -/
  | outOfFuel
  deriving DecidableEq

/-! ## opcode.go -/

/-- Decoded instruction word (`type OpCode struct`). -/
structure OpCode where
  B0 : Nat
  B00 : Nat
  B01 : Nat
  B1 : Nat
  B10 : Nat
  B11 : Nat
  deriving DecidableEq

/-- `func (op OpCode) Addr() uint16`: `uint16(op.B01)<<8 | uint16(op.B1)`. -/
def OpCode.Addr (op : OpCode) : Nat :=
  ((op.B01 <<< 8) % 65536) ||| op.B1

/-- `func NewOpCode(op [2]byte) OpCode`, the two bytes passed separately. -/
def NewOpCode (b0 b1 : Nat) : OpCode :=
  { B0 := b0
    B00 := b0 >>> 4
    B01 := b0 &&& 0x0f
    B1 := b1
    B10 := b1 >>> 4
    B11 := b1 &&& 0x0f }

/-! ## emulator.go: machine state -/

/-- `const screenAddress = 0xf00`. -/
def screenAddress : Nat := 0xf00

/-- The data fields of `type State struct`.  The tickers, the key channel and the host
`machine` are not data of the interpreter; what they deliver is passed in through `Env`. -/
structure State where
  memory : Nat → Nat
  V : Nat → Nat
  I : Nat
  SP : Nat
  PC : Nat
  delayTimer : Nat
  soundTimer : Nat
  keyboard : Nat → Bool
  halt : Bool

/-- What the outside world hands to one instruction: the raw draw behind
`rand.Intn(0xff)` and the byte returned by `machine.WaitForKeyPress()`. -/
structure Env where
  draw : Nat
  key : Nat

/-- The library contract of `rand.Intn(n)`: a value in `[0, n)`, here chosen by the raw
draw. -/
def randIntn (n draw : Nat) : Nat := draw % n

/-- Array update `a[i] = v`. -/
def upd {α : Type} (f : Nat → α) (i : Nat) (v : α) : Nat → α :=
  fun k => if k = i then v else f k

/-- Read `c.memory[a]`. -/
def State.readMem (c : State) (a : Nat) : Except Fault Nat :=
  if a < 4096 then .ok (c.memory a) else .error .outOfBounds

/-- Write `c.memory[a] = v`. -/
def State.writeMem (c : State) (a v : Nat) : Except Fault State :=
  if a < 4096 then .ok { c with memory := upd c.memory a v } else .error .outOfBounds

/-- Read `c.V[x]`. -/
def State.getV (c : State) (x : Nat) : Except Fault Nat :=
  if x < 16 then .ok (c.V x) else .error .outOfBounds

/-- Write `c.V[x] = v`. -/
def State.setV (c : State) (x v : Nat) : Except Fault State :=
  if x < 16 then .ok { c with V := upd c.V x v } else .error .outOfBounds

/-- Write `c.V[0x0f] = v`: the index is a constant, the access cannot fail. -/
def State.setVF (c : State) (v : Nat) : State :=
  { c with V := upd c.V 0x0f v }

/-- Read `c.keyboard[k]`. -/
def State.getKey (c : State) (k : Nat) : Except Fault Bool :=
  if k < 16 then .ok (c.keyboard k) else .error .outOfBounds

/-- `func (c *State) next()`: `c.PC += 2` on a `uint16`. -/
def State.next (c : State) : State :=
  { c with PC := (c.PC + 2) % 65536 }

/-- `func (c *State) notImplemented(op OpCode)`: prints and sets `halt`. -/
def State.notImplemented (c : State) (_op : OpCode) : State :=
  { c with halt := true }

/-- The values a real machine state can hold: bytes below 256, words below 65536. -/
structure State.WF (c : State) : Prop where
  memory_lt : ∀ a, a < 4096 → c.memory a < 256
  V_lt : ∀ i, i < 16 → c.V i < 256
  I_lt : c.I < 65536
  SP_lt : c.SP < 65536
  PC_lt : c.PC < 65536
  delayTimer_lt : c.delayTimer < 256
  soundTimer_lt : c.soundTimer < 256

/-! ## emulator.go: opcode handlers -/

/-- `func (c *State) op0(op OpCode)`. -/
def State.op0 (c : State) (op : OpCode) : Except Fault State :=
  if op.B01 ≠ 0x0 then
    .ok { c with halt := true }
  else do
    let c ←
      if op.B1 = 0xe0 then
        -- copy(c.memory[0xF00:], make([]byte, 256)); c.next()
        pure ({ c with memory := fun a => if 0xF00 ≤ a ∧ a < 0xF00 + 256 then 0 else c.memory a }).next
      else if op.B1 = 0xee then do
        let hi ← c.readMem c.SP
        let lo ← c.readMem ((c.SP + 1) % 65536)
        pure { c with PC := ((hi <<< 8) % 65536) ||| lo, SP := (c.SP + 2) % 65536 }
      else
        pure (c.notImplemented op)
    pure c.next

/-- `func (c *State) op1(op OpCode)`. -/
def State.op1 (c : State) (op : OpCode) : Except Fault State :=
  let c := if op.Addr = c.PC then { c with halt := true } else c
  .ok { c with PC := op.Addr }

/-- `func (c *State) op2(op OpCode)`. -/
def State.op2 (c : State) (op : OpCode) : Except Fault State := do
  let c := { c with SP := (c.SP + 65536 - 2) % 65536 }
  let c ← c.writeMem c.SP (((c.PC &&& 0xff00) >>> 8) % 256)
  let c ← c.writeMem ((c.SP + 1) % 65536) ((c.PC &&& 0xff) % 256)
  pure { c with PC := op.Addr }

/-- `func (c *State) op3(op OpCode)`. -/
def State.op3 (c : State) (op : OpCode) : Except Fault State := do
  let vx ← c.getV op.B01
  let c := if vx = op.B1 then c.next else c
  pure c.next

/-- `func (c *State) op4(op OpCode)`. -/
def State.op4 (c : State) (op : OpCode) : Except Fault State := do
  let vx ← c.getV op.B01
  let c := if vx ≠ op.B1 then c.next else c
  pure c.next

/-- `func (c *State) op5(op OpCode)`. -/
def State.op5 (c : State) (op : OpCode) : Except Fault State := do
  let vx ← c.getV op.B01
  let vy ← c.getV op.B10
  let c := if vx = vy then c.next else c
  pure c.next

/-- `func (c *State) op6(op OpCode)`. -/
def State.op6 (c : State) (op : OpCode) : Except Fault State := do
  let c ← c.setV op.B01 op.B1
  pure c.next

/-- `func (c *State) op7(op OpCode)`. -/
def State.op7 (c : State) (op : OpCode) : Except Fault State := do
  let vx ← c.getV op.B01
  let c ← c.setV op.B01 ((vx + op.B1) % 256)
  pure c.next

/-- `func (c *State) op8(op OpCode)`. -/
def State.op8 (c : State) (op : OpCode) : Except Fault State := do
  let x := op.B01
  let y := op.B10
  let c ←
    if op.B11 = 0x00 then do
      let vy ← c.getV y
      c.setV x vy
    else if op.B11 = 0x01 then do
      let vx ← c.getV x
      let vy ← c.getV y
      c.setV x (vx ||| vy)
    else if op.B11 = 0x02 then do
      let vx ← c.getV x
      let vy ← c.getV y
      c.setV x (vx &&& vy)
    else if op.B11 = 0x03 then do
      let vx ← c.getV x
      let vy ← c.getV y
      c.setV x (vx ^^^ vy)
    else if op.B11 = 0x04 then do
      let vx ← c.getV x
      let vy ← c.getV y
      let res := (vx + vy) % 65536
      let carry : Bool := decide (res &&& 0xff00 > 0)
      let c := if carry then c.setVF 1 else c.setVF 0
      c.setV x ((res &&& 0xff) % 256)
    else if op.B11 = 0x05 then do
      let vx ← c.getV x
      let vy ← c.getV y
      let borrow : Bool := decide (vx < vy)
      let c := if borrow then c.setVF 0 else c.setVF 1
      -- c.V[x] -= c.V[y] reads both registers again, after the flag was written
      let vx ← c.getV x
      let vy ← c.getV y
      c.setV x ((vx + 256 - vy) % 256)
    else if op.B11 = 0x06 then do
      let vx ← c.getV x
      let c := c.setVF (vx &&& 0x01)
      let vx ← c.getV x
      c.setV x (vx >>> 1)
    else if op.B11 = 0x07 then do
      let vx ← c.getV x
      let vy ← c.getV y
      let borrow : Bool := decide (vx > vy)
      let c := if borrow then c.setVF 0 else c.setVF 1
      -- c.V[x] = c.V[y] - c.V[x] reads both registers again, after the flag was written
      let vy ← c.getV y
      let vx ← c.getV x
      c.setV x ((vy + 256 - vx) % 256)
    else if op.B11 = 0x0e then do
      let vx ← c.getV x
      let c := c.setVF (vx >>> 7)
      let vx ← c.getV x
      c.setV x ((vx <<< 1) % 256)
    else
      pure (c.notImplemented op)
  pure c.next

/-- `func (c *State) op9(op OpCode)`. -/
def State.op9 (c : State) (op : OpCode) : Except Fault State := do
  let vx ← c.getV op.B01
  let vy ← c.getV op.B10
  let c := if vx ≠ vy then c.next else c
  pure c.next

/-- `func (c *State) opA(op OpCode)`. -/
def State.opA (c : State) (op : OpCode) : Except Fault State :=
  .ok ({ c with I := op.Addr }).next

/-- `func (c *State) opB(op OpCode)`: `uint16(c.V[0x00]) + op.Addr()`. -/
def State.opB (c : State) (op : OpCode) : Except Fault State :=
  .ok { c with PC := (c.V 0x00 + op.Addr) % 65536 }

/-- `func (c *State) opC(op OpCode)`: `byte(rand.Intn(0xff)) & op.B1`. -/
def State.opC (c : State) (env : Env) (op : OpCode) : Except Fault State := do
  let c ← c.setV op.B01 ((randIntn 0xff env.draw % 256) &&& op.B1)
  pure c.next

/-- The inner loop of `opD`, `for j := x; j < (x+8) && j < 64; j++`, entered at `j` with
the sprite row `sprite` and the screen row `row = i + y`.  Each unit of fuel pays for one
evaluation of the loop condition. -/
def State.opD_cols (sprite x row : Nat) : Nat → Nat → State → Except Fault State
  | 0, _, _ => .error .outOfFuel
  | fuel + 1, j, c =>
    if j < x + 8 ∧ j < 64 then
      let spritePixel := (sprite >>> (x + 7 - j)) &&& 0x01
      if spritePixel = 0 then
        State.opD_cols sprite x row fuel (j + 1) c
      else do
        let pixelAddr := screenAddress + (row * 8 + j / 8)
        let pixelByte ← c.readMem pixelAddr
        let pixel := pixelByte &&& (0x80 >>> (j % 8))
        let sp := (spritePixel <<< (7 - j % 8)) % 256
        -- Collision
        let c := if pixel &&& sp > 0 then c.setVF 1 else c
        let pixelByte := pixelByte ^^^ sp
        let c ← c.writeMem pixelAddr pixelByte
        State.opD_cols sprite x row fuel (j + 1) c
    else
      .ok c

/-- The outer loop of `opD`, `for i := 0; i < n && (i+y) < 32; i++`, entered at `i`.
The inner loop runs at most 8 times, so it is given 9 units of fuel. -/
def State.opD_rows (x y n : Nat) : Nat → Nat → State → Except Fault State
  | 0, _, _ => .error .outOfFuel
  | fuel + 1, i, c =>
    if i < n ∧ i + y < 32 then do
      let spriteAddr := c.I + i
      let sprite ← c.readMem spriteAddr
      let c ← State.opD_cols sprite x (i + y) 9 x c
      State.opD_rows x y n fuel (i + 1) c
    else
      .ok c

/-- `func (c *State) opD(op OpCode)`.  The wait `<-c.timer.C` at its head only delays the
handler; it reads and writes no field of the state.  The outer loop runs at most `n`
times, so it is given `n + 1` units of fuel. -/
def State.opD (c : State) (op : OpCode) : Except Fault State := do
  let x ← c.getV op.B01
  let y ← c.getV op.B10
  let n := op.B11
  -- Set collision to 0
  let c := c.setVF 0
  let c ← State.opD_rows x y n (n + 1) 0 c
  pure c.next

/-- `func (c *State) opE(op OpCode)`. -/
def State.opE (c : State) (op : OpCode) : Except Fault State := do
  let c ←
    if op.B1 = 0x9e then do
      let vx ← c.getV op.B01
      let k ← c.getKey vx
      pure (if k then c.next else c)
    else if op.B1 = 0xa1 then do
      let vx ← c.getV op.B01
      let k ← c.getKey vx
      pure (if !k then c.next else c)
    else
      pure (c.notImplemented op)
  pure c.next

/-- Body of `for i, v := range c.V[0 : op.B01+1] { c.memory[c.I+uint16(i)] = v }`,
with `k` iterations left and the index at `i`. -/
def State.opF_store : Nat → Nat → State → Except Fault State
  | 0, _, c => .ok c
  | k + 1, i, c => do
    let c ← c.writeMem ((c.I + i) % 65536) (c.V i)
    State.opF_store k (i + 1) c

/-- Body of `for i := range c.V[0 : op.B01+1] { c.V[i] = c.memory[c.I+uint16(i)] }`,
with `k` iterations left and the index at `i`. -/
def State.opF_load : Nat → Nat → State → Except Fault State
  | 0, _, c => .ok c
  | k + 1, i, c => do
    let v ← c.readMem ((c.I + i) % 65536)
    State.opF_load k (i + 1) { c with V := upd c.V i v }

/-- `func (c *State) opF(op OpCode)`.  For `0x0a` the receive `<-c.keyChannel` only
blocks; the event it takes is dropped and the register gets the byte returned by
`machine.WaitForKeyPress()`. -/
def State.opF (c : State) (env : Env) (op : OpCode) : Except Fault State := do
  let c ←
    if op.B1 = 0x07 then
      c.setV op.B01 c.delayTimer
    else if op.B1 = 0x0a then
      c.setV op.B01 (env.key % 256)
    else if op.B1 = 0x15 then do
      let vx ← c.getV op.B01
      pure { c with delayTimer := vx }
    else if op.B1 = 0x18 then do
      let vx ← c.getV op.B01
      pure { c with soundTimer := vx }
    else if op.B1 = 0x1e then do
      let vx ← c.getV op.B01
      let sum := (c.I + vx) % 65536
      -- Check for range overflow
      let c := if sum > 0xfff then c.setVF 1 else c.setVF 0
      pure { c with I := sum &&& 0x0fff }
    else if op.B1 = 0x29 then do
      let vx ← c.getV op.B01
      pure { c with I := (vx * 5) % 65536 }
    else if op.B1 = 0x33 then do
      let value ← c.getV op.B01
      let ones := value % 10
      let value := value / 10
      let tens := value % 10
      let hundreds := value / 10
      let c ← c.writeMem c.I hundreds
      let c ← c.writeMem ((c.I + 1) % 65536) tens
      c.writeMem ((c.I + 2) % 65536) ones
    else if op.B1 = 0x55 then
      -- the slice c.V[0 : op.B01+1] needs op.B01+1 (a byte) to be at most 16
      if (op.B01 + 1) % 256 ≤ 16 then State.opF_store ((op.B01 + 1) % 256) 0 c
      else .error .outOfBounds
    else if op.B1 = 0x65 then
      if (op.B01 + 1) % 256 ≤ 16 then State.opF_load ((op.B01 + 1) % 256) 0 c
      else .error .outOfBounds
    else
      pure (c.notImplemented op)
  pure c.next

/-- `func (c *State) RunOp(op OpCode)`: a `switch` on `op.B00` without a default. -/
def State.RunOp (c : State) (env : Env) (op : OpCode) : Except Fault State :=
  if op.B00 = 0x00 then c.op0 op
  else if op.B00 = 0x01 then c.op1 op
  else if op.B00 = 0x02 then c.op2 op
  else if op.B00 = 0x03 then c.op3 op
  else if op.B00 = 0x04 then c.op4 op
  else if op.B00 = 0x05 then c.op5 op
  else if op.B00 = 0x06 then c.op6 op
  else if op.B00 = 0x07 then c.op7 op
  else if op.B00 = 0x08 then c.op8 op
  else if op.B00 = 0x09 then c.op9 op
  else if op.B00 = 0x0a then c.opA op
  else if op.B00 = 0x0b then c.opB op
  else if op.B00 = 0x0c then c.opC env op
  else if op.B00 = 0x0d then c.opD op
  else if op.B00 = 0x0e then c.opE op
  else if op.B00 = 0x0f then c.opF env op
  else .ok c

/-! ## emulator.go: the event branches of `RunProgram` -/

/-- `type keyEvent struct`. -/
structure keyEvent where
  key : Nat
  pressed : Bool

/-- The branch `case <-c.timer.C` of the `select` in `RunProgram`: each timer is
decremented (a `byte` decrement) when it is above zero. -/
def State.timerTick (c : State) : State :=
  let c := if c.delayTimer > 0 then { c with delayTimer := (c.delayTimer + 256 - 1) % 256 } else c
  if c.soundTimer > 0 then { c with soundTimer := (c.soundTimer + 256 - 1) % 256 } else c

/-- The branch `case e := <-c.keyChannel` of the `select` in `RunProgram`:
`c.keyboard[e.key] = e.pressed`. -/
def State.recvKey (c : State) (e : keyEvent) : Except Fault State :=
  if e.key < 16 then .ok { c with keyboard := upd c.keyboard e.key e.pressed }
  else .error .outOfBounds

/-- `func (c *State) LoadProgram(program []byte)`:
`copy(c.memory[0x200:0x200+len(program)], program)`.  The slice expression panics when
`0x200 + len(program)` is beyond the array. -/
def State.LoadProgram (c : State) (program : List Nat) : Except Fault State :=
  if 0x200 + program.length ≤ 4096 then
    .ok { c with
      memory := fun a =>
        if 0x200 ≤ a ∧ a < 0x200 + program.length then program.getD (a - 0x200) 0
        else c.memory a }
  else .error .outOfBounds

/-- The three sources served by the `select` of `RunProgram`.  A clock tick carries what
the outside world hands to the instruction it runs. -/
inductive Event where
  | clock (env : Env)
  | timer
  | key (e : keyEvent)

/-- One pass through the `select` of `RunProgram`: the new state, and whether the branch
executed `return`. -/
def State.serve (c : State) : Event → Except Fault (State × Bool)
  | .clock env =>
    if c.PC ≥ 0xFFF ∨ c.halt = true then
      -- c.halt = true; c.timer.Stop(); c.clock.Stop(); return
      .ok ({ c with halt := true }, true)
    else do
      let b0 ← c.readMem c.PC
      let b1 ← c.readMem ((c.PC + 1) % 65536)
      let c ← c.RunOp env (NewOpCode b0 b1)
      pure (c, false)
  | .timer => .ok (c.timerTick, false)
  | .key e => do
    let c ← c.recvKey e
    pure (c, false)

/-- The `for { select { ... } }` of `RunProgram` over the events that arrive, in their
order of arrival; events after the `return` are not served. -/
def State.runEvents : List Event → State → Except Fault State
  | [], c => .ok c
  | e :: es, c => do
    let r ← c.serve e
    if r.2 then pure r.1 else State.runEvents es r.1

/-- `func (c *State) RunProgram(program []byte)` over the events that arrive. -/
def State.RunProgram (c : State) (program : List Nat) (events : List Event) :
    Except Fault State := do
  let c ← c.LoadProgram program
  c.runEvents events

/-! ## Vocabulary of the specification -/

/-- Pixel `(col, row)` of the 64x32 grid: bit `7 - (col mod 8)` of
`memory[0xF00 + 8*row + col div 8]`. -/
def pixel (m : Nat → Nat) (col row : Nat) : Bool :=
  (m (0xF00 + 8 * row + col / 8)).testBit (7 - col % 8)

/-- The sprite bit that a draw at `(x, y)` of `n` rows puts on pixel `(col, row)`: bit
`7 - (col - x)` of `memory[I + (row - y)]` inside the rectangle `x ≤ col < x + 8`,
`y ≤ row < y + n`, and nothing outside it. -/
def spriteBit (c : State) (x y n col row : Nat) : Bool :=
  decide (x ≤ col ∧ col < x + 8 ∧ y ≤ row ∧ row < y + n) &&
    (c.memory (c.I + (row - y))).testBit (7 - (col - x))

/-- What the loops of `opD` leave alone: every field but `memory` and `V`, every register
but `VF`, every byte outside the framebuffer; and bytes stay bytes. -/
structure DrawFrame (c c' : State) : Prop where
  I_eq : c'.I = c.I
  SP_eq : c'.SP = c.SP
  PC_eq : c'.PC = c.PC
  delayTimer_eq : c'.delayTimer = c.delayTimer
  soundTimer_eq : c'.soundTimer = c.soundTimer
  keyboard_eq : c'.keyboard = c.keyboard
  halt_eq : c'.halt = c.halt
  V_eq : ∀ i, i ≠ 0xF → c'.V i = c.V i
  memory_eq : ∀ a, ¬ (0xF00 ≤ a ∧ a < 0x1000) → c'.memory a = c.memory a
  memory_lt : (∀ a, a < 4096 → c.memory a < 256) → ∀ a, a < 4096 → c'.memory a < 256

/-- A machine state used to instantiate the theorems: `SP = 0xEFE` and `PC = 0x200` as
`Init` sets them, `V0 = 8`, `V1 = 200`, `V2 = 100`, `I = 0x300` and the sprite row `0xFF`
stored there; every other byte is 0. -/
def demoState : State :=
  { memory := fun a => if a = 0x300 then 0xFF else 0
    V := fun i => if i = 0 then 8 else if i = 1 then 200 else if i = 2 then 100 else 0
    I := 0x300
    SP := 0xefe
    PC := 0x200
    delayTimer := 0
    soundTimer := 0
    keyboard := fun _ => false
    halt := false }

/-- A machine state whose program counter is the last even 16-bit value. -/
def stateAtTop : State :=
  { memory := fun _ => 0
    V := fun _ => 0
    I := 0
    SP := 0xefe
    PC := 0xFFFE
    delayTimer := 0
    soundTimer := 0
    keyboard := fun _ => false
    halt := false }

/-- Every field but `memory` and `V` is the same in both states. -/
structure Kept (c c' : State) : Prop where
  I_eq : c'.I = c.I
  SP_eq : c'.SP = c.SP
  PC_eq : c'.PC = c.PC
  delayTimer_eq : c'.delayTimer = c.delayTimer
  soundTimer_eq : c'.soundTimer = c.soundTimer
  keyboard_eq : c'.keyboard = c.keyboard
  halt_eq : c'.halt = c.halt

/-- The three ways a handler other than a jump, call or return moves the program counter:
not at all, by one `next`, or by two. -/
def PCStep (c c' : State) : Prop :=
  c'.PC = c.PC ∨ c'.PC = (c.PC + 2) % 65536 ∨ c'.PC = ((c.PC + 2) % 65536 + 2) % 65536

/-- A machine state whose address register points at the last byte of memory. -/
def stateIAtEnd : State :=
  { memory := fun _ => 0
    V := fun _ => 0
    I := 0xFFF
    SP := 0xefe
    PC := 0x200
    delayTimer := 0
    soundTimer := 0
    keyboard := fun _ => false
    halt := false }

/-- A machine state whose address register points into the font: `I = 0`, `V1 = 200`. -/
def stateIAtFont : State :=
  { memory := fun _ => 0
    V := fun i => if i = 1 then 200 else 0
    I := 0
    SP := 0xefe
    PC := 0x200
    delayTimer := 0
    soundTimer := 0
    keyboard := fun _ => false
    halt := false }

/-- A halted machine whose delay timer still runs: `halt = true`, `delayTimer = 5`. -/
def stateHalted : State :=
  { memory := fun _ => 0
    V := fun _ => 0
    I := 0
    SP := 0xefe
    PC := 0x200
    delayTimer := 5
    soundTimer := 0
    keyboard := fun _ => false
    halt := true }

/-- A machine state with the flag register as an operand: `V1 = 5`, `VF = 3`. -/
def stateFlagOperand : State :=
  { memory := fun _ => 0
    V := fun i => if i = 1 then 5 else if i = 0xF then 3 else 0
    I := 0
    SP := 0xefe
    PC := 0x200
    delayTimer := 0
    soundTimer := 0
    keyboard := fun _ => false
    halt := false }

/-- A machine state whose sprite row `0xFF` at `I = 0x300` is already on the screen at
`(8, 8)`: framebuffer byte `0xF00 + 8*8 + 1` is `0xFF`, and `V0 = 8`. -/
def stateSpriteOnScreen : State :=
  { memory := fun a => if a = 0x300 then 0xFF else if a = 0xF41 then 0xFF else 0
    V := fun i => if i = 0 then 8 else 0
    I := 0x300
    SP := 0xefe
    PC := 0x200
    delayTimer := 0
    soundTimer := 0
    keyboard := fun _ => false
    halt := false }

/-! ## Bit-level facts used by the handlers -/

theorem shiftRight_four (b : Nat) : b >>> 4 = b / 16 := by
  rw [Nat.shiftRight_eq_div_pow]

theorem and_0x0f (b : Nat) : b &&& 0x0f = b % 16 :=
  Nat.and_pow_two_sub_one_eq_mod b 4

theorem and_0xff (b : Nat) : b &&& 0xff = b % 256 :=
  Nat.and_pow_two_sub_one_eq_mod b 8

theorem and_div_two_pow (a b n : Nat) : (a &&& b) / 2 ^ n = a / 2 ^ n &&& b / 2 ^ n := by
  induction n with
  | zero => simp
  | succ n ih => rw [Nat.pow_succ, ← Nat.div_div_eq_div_mul, ih, Nat.and_div_two,
      Nat.div_div_eq_div_mul, Nat.div_div_eq_div_mul]

/-- High byte of a 16-bit word, as `op2` computes it. -/
theorem hi_byte (pc : Nat) (h : pc < 65536) : ((pc &&& 0xff00) >>> 8) % 256 = pc / 256 := by
  rw [Nat.shiftRight_eq_div_pow, and_div_two_pow, show (0xff00 : Nat) / 2 ^ 8 = 0xff from rfl,
    and_0xff]
  omega

/-- Low byte of a 16-bit word, as `op2` computes it. -/
theorem lo_byte (pc : Nat) : (pc &&& 0xff) % 256 = pc % 256 := by
  rw [and_0xff]; omega

/-- Big-endian recombination of two bytes, as `Addr` and the stack pop compute it. -/
theorem shl8_or (hi lo : Nat) (hhi : hi < 256) (hlo : lo < 256) :
    ((hi <<< 8) % 65536) ||| lo = 256 * hi + lo := by
  rw [Nat.shiftLeft_eq, Nat.mod_eq_of_lt (by omega), Nat.mul_comm,
    ← Nat.mul_add_lt_is_or (by simpa using hlo)]

set_option maxRecDepth 20000 in
/-- The carry test of `8XY4` on a sum of two bytes. -/
theorem and_0xff00_pos (n : Nat) (hn : n < 512) : (n &&& 0xff00 > 0) ↔ 256 ≤ n := by
  revert n; decide

/-- Decoding the word whose nibbles are `k X Y N`. -/
theorem NewOpCode_nibbles (b0 b1 k X Y N : Nat) (hX : X < 16) (hN : N < 16)
    (h0 : b0 = 16 * k + X) (h1 : b1 = 16 * Y + N) :
    NewOpCode b0 b1 = { B0 := b0, B00 := k, B01 := X, B1 := b1, B10 := Y, B11 := N } := by
  simp only [NewOpCode, shiftRight_four, and_0x0f, OpCode.mk.injEq, true_and]
  omega

/-- The address field of the word `kNNN`. -/
theorem Addr_nibbles (b0 b1 k X Y N : Nat) (hX : X < 16) (hb : b1 < 256) :
    OpCode.Addr { B0 := b0, B00 := k, B01 := X, B1 := b1, B10 := Y, B11 := N }
      = 256 * X + b1 := by
  simp only [OpCode.Addr]
  exact shl8_or X b1 (by omega) hb

theorem getV_ok (c : State) (x : Nat) (hx : x < 16) : c.getV x = .ok (c.V x) := by
  simp [State.getV, hx]

theorem setV_ok (c : State) (x v : Nat) (hx : x < 16) :
    c.setV x v = .ok { c with V := upd c.V x v } := by
  simp [State.setV, hx]

theorem readMem_ok (c : State) (a : Nat) (ha : a < 4096) : c.readMem a = .ok (c.memory a) := by
  simp [State.readMem, ha]

theorem writeMem_ok (c : State) (a v : Nat) (ha : a < 4096) :
    c.writeMem a v = .ok { c with memory := upd c.memory a v } := by
  simp [State.writeMem, ha]

theorem RunOp_op0 (c : State) (env : Env) (op : OpCode) (h : op.B00 = 0x0) :
    c.RunOp env op = c.op0 op := by
  simp [State.RunOp, h]

theorem RunOp_op2 (c : State) (env : Env) (op : OpCode) (h : op.B00 = 0x2) :
    c.RunOp env op = c.op2 op := by
  simp [State.RunOp, h]

/-- The state left by the call `2NNN` when the two stack bytes are inside memory. -/
theorem RunOp_call (c : State) (env : Env) (NNN : Nat) (hN : NNN < 4096)
    (hpc : c.PC < 65536) (hSP : 2 ≤ c.SP) (hSP' : c.SP ≤ 0x1000) :
    c.RunOp env (NewOpCode (0x20 + NNN / 256) (NNN % 256))
      = .ok { c with
          SP := c.SP - 2
          PC := NNN
          memory := upd (upd c.memory (c.SP - 2) (c.PC / 256)) (c.SP - 2 + 1) (c.PC % 256) } := by
  have hA := Addr_nibbles (0x20 + NNN / 256) (NNN % 256) 2 (NNN / 256) (NNN % 256 / 16)
    (NNN % 256 % 16) (by omega) (by omega)
  rw [show 256 * (NNN / 256) + NNN % 256 = NNN by omega] at hA
  rw [NewOpCode_nibbles (0x20 + NNN / 256) (NNN % 256) 2 (NNN / 256) (NNN % 256 / 16)
    (NNN % 256 % 16) (by omega) (by omega) (by omega) (by omega)]
  have h1 : (c.SP + 65536 - 2) % 65536 = c.SP - 2 := by omega
  have h2 : (c.SP - 2 + 1) % 65536 = c.SP - 2 + 1 := by omega
  have h3 : c.SP - 2 < 4096 := by omega
  have h4 : c.SP - 2 + 1 < 4096 := by omega
  rw [RunOp_op2 _ _ _ rfl]
  unfold State.op2
  simp only [bind, Except.bind, pure, Except.pure]
  rw [h1, writeMem_ok _ _ _ h3]
  simp only [h2]
  rw [writeMem_ok _ _ _ h4]
  simp only [hi_byte _ hpc, lo_byte, hA]

/-- The state left by the return `00EE` when the two stack bytes are inside memory. -/
theorem RunOp_return (c : State) (env : Env) (h1 : c.SP + 1 < 4096)
    (hhi : c.memory c.SP < 256) (hlo : c.memory (c.SP + 1) < 256) :
    c.RunOp env (NewOpCode 0x00 0xEE)
      = .ok { c with
          PC := (256 * c.memory c.SP + c.memory (c.SP + 1) + 2) % 65536
          SP := c.SP + 2 } := by
  rw [NewOpCode_nibbles 0x00 0xEE 0 0 0xE 0xE (by decide) (by decide) rfl rfl,
    RunOp_op0 _ _ _ rfl]
  have h2 : (c.SP + 1) % 65536 = c.SP + 1 := by omega
  have h3 : (c.SP + 2) % 65536 = c.SP + 2 := by omega
  simp [State.op0, bind, Except.bind, pure, Except.pure, h2, h3, readMem_ok _ _ h1,
    readMem_ok c c.SP (by omega), shl8_or _ _ hhi hlo, State.next]

/-! ## The sprite draw loops -/

theorem and_two_pow_eq (b m : Nat) : b &&& 2 ^ m = if b.testBit m then 2 ^ m else 0 := by
  apply Nat.eq_of_testBit_eq
  intro i
  rw [Nat.testBit_and, Nat.testBit_two_pow]
  by_cases h : m = i
  · subst h
    cases hb : b.testBit m <;> simp
  · cases hb : b.testBit m <;> simp [h, Nat.testBit_two_pow]

theorem and_two_pow_pos (b m : Nat) : 0 < b &&& 2 ^ m ↔ b.testBit m = true := by
  rw [and_two_pow_eq]
  cases hb : b.testBit m <;> simp

theorem shiftRight_and_one (s k : Nat) : (s >>> k) &&& 0x01 = if s.testBit k then 1 else 0 := by
  rw [show (0x01 : Nat) = 2 ^ 0 from rfl, and_two_pow_eq, Nat.testBit_shiftRight]
  simp

theorem mask_0x80 (k : Nat) (hk : k < 8) : 0x80 >>> k = 2 ^ (7 - k) := by
  interval_cases k <;> rfl

theorem one_shl (k : Nat) (hk : k < 8) : ((1 : Nat) <<< (7 - k)) % 256 = 2 ^ (7 - k) := by
  interval_cases k <;> rfl

theorem DrawFrame.refl (c : State) : DrawFrame c c :=
  ⟨rfl, rfl, rfl, rfl, rfl, rfl, rfl, fun _ _ => rfl, fun _ _ => rfl, fun h => h⟩

theorem DrawFrame.trans {a b c : State} (h1 : DrawFrame a b) (h2 : DrawFrame b c) :
    DrawFrame a c :=
  ⟨h2.I_eq.trans h1.I_eq, h2.SP_eq.trans h1.SP_eq, h2.PC_eq.trans h1.PC_eq,
    h2.delayTimer_eq.trans h1.delayTimer_eq, h2.soundTimer_eq.trans h1.soundTimer_eq,
    h2.keyboard_eq.trans h1.keyboard_eq, h2.halt_eq.trans h1.halt_eq,
    fun i hi => (h2.V_eq i hi).trans (h1.V_eq i hi),
    fun a ha => (h2.memory_eq a ha).trans (h1.memory_eq a ha),
    fun h => h2.memory_lt (h1.memory_lt h)⟩

/-- One executed iteration of the inner loop of `opD` whose sprite bit is set. -/
theorem opD_cols_step (sprite x row fuel j : Nat) (c : State) (hrow : row < 32)
    (hj : j < x + 8 ∧ j < 64) (hb : sprite.testBit (x + 7 - j) = true) :
    ∃ c1, State.opD_cols sprite x row (fuel + 1) j c = State.opD_cols sprite x row fuel (j + 1) c1 ∧
      DrawFrame c c1 ∧
      (∀ col r, col < 64 → r < 32 →
        pixel c1.memory col r = (pixel c.memory col r ^^ decide (r = row ∧ col = j))) ∧
      c1.V 0xF = (if pixel c.memory j row then 1 else c.V 0xF) := by
  have hk : j % 8 < 8 := Nat.mod_lt _ (by decide)
  have haddr : screenAddress + (row * 8 + j / 8) = 0xF00 + 8 * row + j / 8 := by
    simp only [screenAddress]; omega
  have ha : 0xF00 + 8 * row + j / 8 < 4096 := by omega
  have hcol : (0 < c.memory (0xF00 + 8 * row + j / 8) &&& 2 ^ (7 - j % 8) &&& 2 ^ (7 - j % 8))
      ↔ pixel c.memory j row = true := by
    rw [Nat.and_assoc, Nat.and_self, and_two_pow_pos]; rfl
  rw [State.opD_cols]
  simp only [hj, and_self, if_true, shiftRight_and_one, hb, one_ne_zero, if_false, haddr,
    readMem_ok _ _ ha, bind, Except.bind, mask_0x80 _ hk, one_shl _ hk, gt_iff_lt, hcol]
  rw [writeMem_ok _ _ _ ha]
  refine ⟨_, rfl, ?_, ?_, ?_⟩
  · refine ⟨?_, ?_, ?_, ?_, ?_, ?_, ?_, ?_, ?_, ?_⟩ <;>
      first
        | (split_ifs <;> rfl)
        | skip
    · intro i hi
      show (if pixel c.memory j row = true then c.setVF 1 else c).V i = c.V i
      split_ifs
      · simp [State.setVF, upd, hi]
      · rfl
    · intro a hna
      show upd (if pixel c.memory j row = true then c.setVF 1 else c).memory _ _ a = _
      have : a ≠ 0xF00 + 8 * row + j / 8 := by omega
      simp only [upd, if_neg this]
      split_ifs <;> rfl
    · intro hlt a ha'
      show upd (if pixel c.memory j row = true then c.setVF 1 else c).memory _ _ a < 256
      have hm : (if pixel c.memory j row = true then c.setVF 1 else c).memory = c.memory := by
        split_ifs <;> rfl
      simp only [upd, hm]
      split_ifs
      · exact Nat.xor_lt_two_pow (n := 8) (hlt _ ha)
          (Nat.pow_lt_pow_right (by decide) (by omega))
      · exact hlt a ha'
  · intro col r hcol hr
    show pixel (upd (if pixel c.memory j row = true then c.setVF 1 else c).memory _ _) col r = _
    have hm : (if pixel c.memory j row = true then c.setVF 1 else c).memory = c.memory := by
      split_ifs <;> rfl
    rw [hm]
    simp only [pixel, upd]
    by_cases hsame : 0xF00 + 8 * r + col / 8 = 0xF00 + 8 * row + j / 8
    · rw [if_pos hsame, Nat.testBit_xor, Nat.testBit_two_pow, hsame]
      congr 1
      simp only [decide_eq_decide]
      omega
    · rw [if_neg hsame]
      have : ¬ (r = row ∧ col = j) := by
        rintro ⟨rfl, rfl⟩; exact hsame rfl
      simp [this]
  · show (if pixel c.memory j row = true then c.setVF 1 else c).V 0xF = _
    split_ifs <;> simp [State.setVF, upd]

/-- The inner loop of `opD`, run from column `j` with enough fuel: it terminates, XORs the
sprite bits of the columns `j ≤ col < min (x+8) 64` into row `row`, and raises the flag
exactly when one of those pixels was set. -/
theorem opD_cols_spec (sprite x row : Nat) (hrow : row < 32) :
    ∀ (fuel j : Nat) (c : State), x ≤ j → x + 8 - j < fuel →
      ∃ c', State.opD_cols sprite x row fuel j c = .ok c' ∧ DrawFrame c c' ∧
        (∀ col r, col < 64 → r < 32 →
          pixel c'.memory col r
            = (pixel c.memory col r ^^
                (decide (r = row ∧ j ≤ col ∧ col < x + 8) && sprite.testBit (x + 7 - col)))) ∧
        (c'.V 0xF = 1 ↔ c.V 0xF = 1 ∨ ∃ col, j ≤ col ∧ col < x + 8 ∧ col < 64 ∧
          sprite.testBit (x + 7 - col) = true ∧ pixel c.memory col row = true) ∧
        (c'.V 0xF = c.V 0xF ∨ c'.V 0xF = 1) := by
  intro fuel
  induction fuel with
  | zero => intro j c _ h; omega
  | succ fuel ih =>
    intro j c hxj hfuel
    by_cases hj : j < x + 8 ∧ j < 64
    · by_cases hb : sprite.testBit (x + 7 - j) = true
      · obtain ⟨c1, hstep, hfr1, hpix1, hflag1⟩ := opD_cols_step sprite x row fuel j c hrow hj hb
        obtain ⟨c', hrun, hfr, hpix, hflag, hmono⟩ := ih (j + 1) c1 (by omega) (by omega)
        refine ⟨c', hstep.trans hrun, hfr1.trans hfr, ?_, ?_, ?_⟩
        · intro col r hc hr
          rw [hpix col r hc hr, hpix1 col r hc hr]
          by_cases h1 : r = row <;> by_cases h2 : col = j
          · subst h2; simp [h1, hb, hj.1]
          · have : (j + 1 ≤ col) ↔ (j ≤ col) := by omega
            simp [h1, h2, this]
          · simp [h1]
          · simp [h1]
        · rw [hflag, hflag1]
          constructor
          · rintro (h | ⟨col, h1, h2, h3, h4, h5⟩)
            · by_cases hp : pixel c.memory j row = true
              · exact Or.inr ⟨j, le_refl _, hj.1, hj.2, hb, hp⟩
              · rw [if_neg hp] at h; exact Or.inl h
            · refine Or.inr ⟨col, by omega, h2, h3, h4, ?_⟩
              rw [hpix1 col row h3 hrow] at h5
              have hne : ¬ (col = j) := by omega
              simpa [hne] using h5
          · rintro (h | ⟨col, h1, h2, h3, h4, h5⟩)
            · left; split_ifs <;> simp [h]
            · by_cases hcj : col = j
              · subst hcj; left; rw [if_pos h5]
              · right
                refine ⟨col, by omega, h2, h3, h4, ?_⟩
                rw [hpix1 col row h3 hrow]
                simpa [hcj] using h5
        · rcases hmono with h | h
          · rw [h, hflag1]
            by_cases hp : pixel c.memory j row = true
            · right; rw [if_pos hp]
            · left; rw [if_neg hp]
          · exact Or.inr h
      · have hstep : State.opD_cols sprite x row (fuel + 1) j c
            = State.opD_cols sprite x row fuel (j + 1) c := by
          rw [State.opD_cols]
          simp only [hj, and_self, if_true, shiftRight_and_one, hb]
          simp
        obtain ⟨c', hrun, hfr, hpix, hflag, hmono⟩ := ih (j + 1) c (by omega) (by omega)
        refine ⟨c', hstep.trans hrun, hfr, ?_, ?_, hmono⟩
        · intro col r hc hr
          rw [hpix col r hc hr]
          by_cases h2 : col = j
          · subst h2; simp [hb]
          · have : (j + 1 ≤ col) ↔ (j ≤ col) := by omega
            simp [this]
        · rw [hflag]
          constructor
          · rintro (h | ⟨col, h1, h2, h3, h4, h5⟩)
            · exact Or.inl h
            · exact Or.inr ⟨col, by omega, h2, h3, h4, h5⟩
          · rintro (h | ⟨col, h1, h2, h3, h4, h5⟩)
            · exact Or.inl h
            · have : col ≠ j := by rintro rfl; exact hb h4
              exact Or.inr ⟨col, by omega, h2, h3, h4, h5⟩
    · have hexit : State.opD_cols sprite x row (fuel + 1) j c = .ok c := by
        rw [State.opD_cols]; simp only [hj, if_false]
      refine ⟨c, hexit, DrawFrame.refl c, ?_, ?_, Or.inl rfl⟩
      · intro col r hc hr
        have : ¬ (r = row ∧ j ≤ col ∧ col < x + 8) := by omega
        simp [this]
      · constructor
        · exact Or.inl
        · rintro (h | ⟨col, h1, h2, h3, h4, h5⟩)
          · exact h
          · omega

/-- The outer loop of `opD`, run from sprite row `i` with enough fuel and with the sprite
stored below the framebuffer: it terminates, XORs the clipped sprite rows `i ≤ row - y < n`
into the framebuffer, and raises the flag exactly when one of those pixels was set. -/
theorem opD_rows_spec (x y n : Nat) :
    ∀ (fuel i : Nat) (c : State), n - i < fuel → c.I + n ≤ 0xF00 →
      ∃ c', State.opD_rows x y n fuel i c = .ok c' ∧ DrawFrame c c' ∧
        (∀ col r, col < 64 → r < 32 →
          pixel c'.memory col r
            = (pixel c.memory col r ^^
                (decide (i + y ≤ r ∧ r < n + y ∧ x ≤ col ∧ col < x + 8) &&
                  (c.memory (c.I + (r - y))).testBit (x + 7 - col)))) ∧
        (c'.V 0xF = 1 ↔ c.V 0xF = 1 ∨ ∃ col r, i + y ≤ r ∧ r < n + y ∧ r < 32 ∧
          x ≤ col ∧ col < x + 8 ∧ col < 64 ∧
          (c.memory (c.I + (r - y))).testBit (x + 7 - col) = true ∧
          pixel c.memory col r = true) ∧
        (c'.V 0xF = c.V 0xF ∨ c'.V 0xF = 1) := by
  intro fuel
  induction fuel with
  | zero => intro i c h; omega
  | succ fuel ih =>
    intro i c hfuel hI
    by_cases hi : i < n ∧ i + y < 32
    · have hf : n - (i + 1) < fuel := by omega
      obtain ⟨c1, hrun1, hfr1, hpix1, hflag1, hmono1⟩ :=
        opD_cols_spec (c.memory (c.I + i)) x (i + y) hi.2 9 x c (le_refl _) (by omega)
      obtain ⟨c', hrun, hfr, hpix, hflag, hmono⟩ :=
        ih (i + 1) c1 hf (by rw [hfr1.I_eq]; exact hI)
      have hstep : State.opD_rows x y n (fuel + 1) i c = State.opD_rows x y n fuel (i + 1) c1 := by
        rw [State.opD_rows]
        simp only [hi, and_self, if_true, readMem_ok c (c.I + i) (by omega), bind, Except.bind,
          hrun1]
      have hsprite : ∀ r, r < n + y → c1.memory (c1.I + (r - y)) = c.memory (c.I + (r - y)) := by
        intro r hr
        rw [hfr1.I_eq]
        exact hfr1.memory_eq _ (by omega)
      refine ⟨c', hstep.trans hrun, hfr1.trans hfr, ?_, ?_, ?_⟩
      · intro col r hc hr
        rw [hpix col r hc hr, hpix1 col r hc hr]
        by_cases hr1 : r = i + y
        · subst hr1
          have e1 : ¬ (i + 1 + y ≤ i + y) := by omega
          have e2 : i + y - y = i := by omega
          simp [e1, e2, hi.1]
        · by_cases hr2 : r < n + y
          · rw [hsprite r hr2]
            have : (i + 1 + y ≤ r) ↔ (i + y ≤ r) := by omega
            simp [hr1, this]
          · simp [hr1, hr2]
      · rw [hflag, hflag1]
        constructor
        · rintro ((h | ⟨col, h1, h2, h3, h4, h5⟩) | ⟨col, r, h1, h2, h3, h4, h5, h6, h7, h8⟩)
          · exact Or.inl h
          · refine Or.inr ⟨col, i + y, le_refl _, by omega, hi.2, h1, h2, h3, ?_, h5⟩
            rw [show i + y - y = i by omega]; exact h4
          · refine Or.inr ⟨col, r, by omega, h2, h3, h4, h5, h6, ?_, ?_⟩
            · rw [← hsprite r h2]; exact h7
            · rw [hpix1 col r h6 h3] at h8
              have hne : ¬ (r = i + y) := by omega
              simpa [hne] using h8
        · rintro (h | ⟨col, r, h1, h2, h3, h4, h5, h6, h7, h8⟩)
          · exact Or.inl (Or.inl h)
          · by_cases hr1 : r = i + y
            · subst hr1
              rw [show i + y - y = i by omega] at h7
              exact Or.inl (Or.inr ⟨col, h4, h5, h6, h7, h8⟩)
            · refine Or.inr ⟨col, r, by omega, h2, h3, h4, h5, h6, ?_, ?_⟩
              · rw [hsprite r h2]; exact h7
              · rw [hpix1 col r h6 h3]
                simpa [hr1] using h8
      · rcases hmono with h | h
        · rw [h]
          rcases hmono1 with h' | h'
          · exact Or.inl h'
          · exact Or.inr h'
        · exact Or.inr h
    · have hexit : State.opD_rows x y n (fuel + 1) i c = .ok c := by
        rw [State.opD_rows]; simp only [hi, if_false]
      refine ⟨c, hexit, DrawFrame.refl c, ?_, ?_, Or.inl rfl⟩
      · intro col r hc hr
        have : ¬ (i + y ≤ r ∧ r < n + y ∧ x ≤ col ∧ col < x + 8) := by omega
        simp [this]
      · constructor
        · exact Or.inl
        · rintro (h | ⟨col, r, h1, h2, h3, h4, h5, h6, h7, h8⟩)
          · exact h
          · omega

theorem RunOp_opD (c : State) (env : Env) (op : OpCode) (h : op.B00 = 0xD) :
    c.RunOp env op = c.opD op := by
  simp [State.RunOp, h]

/-- What `DXYN` does when the sprite is stored below the framebuffer. -/
theorem RunOp_draw (c : State) (env : Env) (X Y N : Nat)
    (hX : X < 16) (hY : Y < 16) (hN : N < 16) (hI : c.I + N ≤ 0xF00) :
    ∃ c', c.RunOp env (NewOpCode (0xD0 + X) (16 * Y + N)) = .ok c' ∧
      c'.PC = (c.PC + 2) % 65536 ∧
      (∀ a, ¬ (0xF00 ≤ a ∧ a < 0x1000) → c'.memory a = c.memory a) ∧
      ((∀ a, a < 4096 → c.memory a < 256) → ∀ a, a < 4096 → c'.memory a < 256) ∧
      (∀ col row, col < 64 → row < 32 →
        pixel c'.memory col row
          = (pixel c.memory col row ^^ spriteBit c (c.V X) (c.V Y) N col row)) ∧
      (c'.V 0xF = 1 ↔ ∃ col row, c.V X ≤ col ∧ col < c.V X + 8 ∧ col < 64 ∧
        c.V Y ≤ row ∧ row < c.V Y + N ∧ row < 32 ∧
        spriteBit c (c.V X) (c.V Y) N col row = true ∧ pixel c.memory col row = true) ∧
      (c'.V 0xF = 0 ∨ c'.V 0xF = 1) := by
  rw [NewOpCode_nibbles (0xD0 + X) (16 * Y + N) 0xD X Y N hX hN (by omega) rfl,
    RunOp_opD _ _ _ rfl]
  obtain ⟨c', hrun, hfr, hpix, hflag, hmono⟩ :=
    opD_rows_spec (c.V X) (c.V Y) N (N + 1) 0 (c.setVF 0) (by omega) hI
  have hexp : ∀ col, c.V X ≤ col → col < c.V X + 8 →
      c.V X + 7 - col = 7 - (col - c.V X) := by
    intro col h1 h2; omega
  refine ⟨c'.next, ?_, ?_, hfr.memory_eq, hfr.memory_lt, ?_, ?_, ?_⟩
  · simp only [State.opD, getV_ok _ _ hX, getV_ok _ _ hY, bind, Except.bind, hrun, pure,
      Except.pure]
  · show (c'.PC + 2) % 65536 = _
    rw [hfr.PC_eq]; rfl
  · intro col row hc hr
    show pixel c'.memory col row = _
    rw [hpix col row hc hr]
    show xor (pixel c.memory col row) _ = _
    congr 1
    simp only [spriteBit]
    by_cases h : c.V X ≤ col ∧ col < c.V X + 8
    · have e : (0 + c.V Y ≤ row ∧ row < N + c.V Y ∧ c.V X ≤ col ∧ col < c.V X + 8)
          ↔ (c.V X ≤ col ∧ col < c.V X + 8 ∧ c.V Y ≤ row ∧ row < c.V Y + N) := by omega
      rw [hexp col h.1 h.2, decide_eq_decide.mpr e]
      rfl
    · have e1 : ¬ (0 + c.V Y ≤ row ∧ row < N + c.V Y ∧ c.V X ≤ col ∧ col < c.V X + 8) := by
        omega
      have e2 : ¬ (c.V X ≤ col ∧ col < c.V X + 8 ∧ c.V Y ≤ row ∧ row < c.V Y + N) := by omega
      rw [decide_eq_false e1, decide_eq_false e2]
      rfl
  · show c'.V 0xF = 1 ↔ _
    rw [hflag]
    have h0 : ¬ ((c.setVF 0).V 0xF = 1) := by simp [State.setVF, upd]
    constructor
    · rintro (h | ⟨col, r, h1, h2, h3, h4, h5, h6, h7, h8⟩)
      · exact absurd h h0
      · refine ⟨col, r, h4, h5, h6, by omega, by omega, h3, ?_, h8⟩
        have e : c.V X ≤ col ∧ col < c.V X + 8 ∧ c.V Y ≤ r ∧ r < c.V Y + N := by omega
        simp only [spriteBit, e, and_self, decide_True, Bool.true_and]
        rw [← hexp col h4 h5]; exact h7
    · rintro ⟨col, r, h1, h2, h3, h4, h5, h6, h7, h8⟩
      refine Or.inr ⟨col, r, by omega, by omega, h6, h1, h2, h3, ?_, h8⟩
      have e : c.V X ≤ col ∧ col < c.V X + 8 ∧ c.V Y ≤ r ∧ r < c.V Y + N := by omega
      simp only [spriteBit, e, and_self, decide_True, Bool.true_and] at h7
      rw [hexp col h1 h2]; exact h7
  · show c'.V 0xF = 0 ∨ c'.V 0xF = 1
    rcases hmono with h | h
    · left; rw [h]; simp [State.setVF, upd]
    · exact Or.inr h

/-! ## Instances used to exercise the theorems -/

theorem demoState_WF : demoState.WF := by
  refine ⟨fun a _ => ?_, fun i _ => ?_, ?_, ?_, ?_, ?_, ?_⟩ <;>
    first
      | decide
      | (simp only [demoState]; split_ifs <;> decide)

theorem stateAtTop_WF : stateAtTop.WF :=
  ⟨fun _ _ => Nat.zero_lt_succ _, fun _ _ => Nat.zero_lt_succ _, by decide, by decide,
    by decide, by decide, by decide⟩

/-- Two bytes with the same eight low bits are equal. -/
theorem byte_ext (a b : Nat) (ha : a < 256) (hb : b < 256)
    (h : ∀ i, i < 8 → a.testBit i = b.testBit i) : a = b := by
  apply Nat.eq_of_testBit_eq
  intro i
  by_cases hi : i < 8
  · exact h i hi
  · have h8 : (256 : Nat) ≤ 2 ^ i := by
      calc (256 : Nat) = 2 ^ 8 := rfl
        _ ≤ 2 ^ i := Nat.pow_le_pow_right (by decide) (by omega)
    rw [Nat.testBit_lt_two_pow (by omega), Nat.testBit_lt_two_pow (by omega)]

/-! ## Sprite draw (DXYN) -/

/-- Claim C1. Sprite draw `DXYN` is a clipped XOR blit: when the `N` sprite bytes lie
outside the framebuffer (`I + N ≤ 0xF00`), `RunOp` returns a state in which every pixel
`(col, row)` of the 64x32 grid is its old value XOR the sprite bit `spriteBit` placed at
`x = V[X]`, `y = V[Y]` (both read before the instruction); sprite bits that would land at
`col ≥ 64` or `row ≥ 32` reach no pixel.  In particular, on a blank framebuffer and with
`x` a multiple of 8, byte `x / 8` of each row `y ≤ row < y + N` holds exactly the sprite
byte of that row and every other framebuffer byte is still 0. -/
theorem draw_clipped_xor_blit (c : State) (env : Env) (hwf : c.WF) (X Y N : Nat)
    (hX : X < 16) (hY : Y < 16) (hN : N < 16) (hI : c.I + N ≤ 0xF00) :
    ∃ c', c.RunOp env (NewOpCode (0xD0 + X) (16 * Y + N)) = .ok c' ∧
      (∀ col row, col < 64 → row < 32 →
        pixel c'.memory col row
          = xor (pixel c.memory col row) (spriteBit c (c.V X) (c.V Y) N col row)) ∧
      ((∀ a, 0xF00 ≤ a → a < 0x1000 → c.memory a = 0) → c.V X % 8 = 0 →
        ∀ row k, row < 32 → k < 8 →
          c'.memory (0xF00 + 8 * row + k)
            = if k = c.V X / 8 ∧ c.V Y ≤ row ∧ row < c.V Y + N
              then c.memory (c.I + (row - c.V Y)) else 0) := by
  obtain ⟨c', hrun, -, -, hlt, hpix, -, -⟩ := RunOp_draw c env X Y N hX hY hN hI
  refine ⟨c', hrun, hpix, ?_⟩
  intro hblank hx row k hrow hk
  have hbyte : c'.memory (0xF00 + 8 * row + k) < 256 := hlt hwf.memory_lt _ (by omega)
  apply byte_ext _ _ hbyte
  · split_ifs with h
    · exact hwf.memory_lt _ (by omega)
    · decide
  · intro i hi
    have hp := hpix (8 * k + (7 - i)) row (by omega) hrow
    have e1 : (8 * k + (7 - i)) / 8 = k := by omega
    have e2 : 7 - (8 * k + (7 - i)) % 8 = i := by omega
    simp only [pixel, e1, e2, hblank _ (show 0xF00 ≤ 0xF00 + 8 * row + k by omega)
      (show 0xF00 + 8 * row + k < 0x1000 by omega), Nat.zero_testBit, Bool.false_xor] at hp
    rw [hp]
    simp only [spriteBit]
    by_cases h : k = c.V X / 8 ∧ c.V Y ≤ row ∧ row < c.V Y + N
    · have e3 : c.V X ≤ 8 * k + (7 - i) ∧ 8 * k + (7 - i) < c.V X + 8 ∧ c.V Y ≤ row ∧
          row < c.V Y + N := by omega
      have e4 : 7 - (8 * k + (7 - i) - c.V X) = i := by omega
      rw [if_pos h, decide_eq_true e3, e4]
      rfl
    · have e3 : ¬ (c.V X ≤ 8 * k + (7 - i) ∧ 8 * k + (7 - i) < c.V X + 8 ∧ c.V Y ≤ row ∧
          row < c.V Y + N) := by omega
      rw [if_neg h, decide_eq_false e3]
      simp

/-- The draw `D001` on `demoState` (one row `0xFF` at `(8, 8)`) is a clipped XOR blit. -/
theorem draw_clipped_xor_blit_witness :
    demoState.WF ∧ (0 : Nat) < 16 ∧ (1 : Nat) < 16 ∧ demoState.I + 1 ≤ 0xF00 ∧
    ∃ c', demoState.RunOp ⟨0, 0⟩ (NewOpCode (0xD0 + 0) (16 * 0 + 1)) = .ok c' ∧
      ∀ col row, col < 64 → row < 32 →
        pixel c'.memory col row
          = xor (pixel demoState.memory col row)
              (spriteBit demoState (demoState.V 0) (demoState.V 0) 1 col row) :=
  ⟨demoState_WF, by decide, by decide, by decide,
    (draw_clipped_xor_blit demoState ⟨0, 0⟩ demoState_WF 0 0 1 (by decide) (by decide)
      (by decide) (by decide)).imp fun _ h => ⟨h.1, h.2.1⟩⟩

/-- Claim C2. Sprite collision flag: when `I + N ≤ 0xF00`, whatever `VF` held before,
after `DXYN` the flag `VF` is 1 if and only if some pixel `(col, row)` of the clipped
sprite rectangle (`V[X] ≤ col < min (V[X]+8) 64`, `V[Y] ≤ row < min (V[Y]+N) 32`) had both
its sprite bit and its framebuffer bit set before the draw; otherwise `VF` is 0. -/
theorem draw_collision_flag (c : State) (env : Env) (X Y N : Nat)
    (hX : X < 16) (hY : Y < 16) (hN : N < 16) (hI : c.I + N ≤ 0xF00) :
    ∃ c', c.RunOp env (NewOpCode (0xD0 + X) (16 * Y + N)) = .ok c' ∧
      (c'.V 0xF = 1 ↔ ∃ col row,
        c.V X ≤ col ∧ col < min (c.V X + 8) 64 ∧ c.V Y ≤ row ∧ row < min (c.V Y + N) 32 ∧
        spriteBit c (c.V X) (c.V Y) N col row = true ∧ pixel c.memory col row = true) ∧
      ((¬ ∃ col row,
        c.V X ≤ col ∧ col < min (c.V X + 8) 64 ∧ c.V Y ≤ row ∧ row < min (c.V Y + N) 32 ∧
        spriteBit c (c.V X) (c.V Y) N col row = true ∧ pixel c.memory col row = true) →
        c'.V 0xF = 0) := by
  obtain ⟨c', hrun, -, -, -, -, hflag, h01⟩ := RunOp_draw c env X Y N hX hY hN hI
  have hiff : c'.V 0xF = 1 ↔ ∃ col row,
      c.V X ≤ col ∧ col < min (c.V X + 8) 64 ∧ c.V Y ≤ row ∧ row < min (c.V Y + N) 32 ∧
      spriteBit c (c.V X) (c.V Y) N col row = true ∧ pixel c.memory col row = true := by
    rw [hflag]
    constructor
    · rintro ⟨col, row, h1, h2, h3, h4, h5, h6, h7, h8⟩
      exact ⟨col, row, h1, by omega, h4, by omega, h7, h8⟩
    · rintro ⟨col, row, h1, h2, h3, h4, h5, h6⟩
      exact ⟨col, row, h1, by omega, by omega, h3, by omega, by omega, h5, h6⟩
  refine ⟨c', hrun, hiff, fun hno => ?_⟩
  rcases h01 with h | h
  · exact h
  · exact absurd (hiff.mp h) hno

/-- The draw `D001` on `demoState` sets `VF` exactly when a set sprite bit meets a set
pixel. -/
theorem draw_collision_flag_witness :
    (0 : Nat) < 16 ∧ (1 : Nat) < 16 ∧ demoState.I + 1 ≤ 0xF00 ∧
    ∃ c', demoState.RunOp ⟨0, 0⟩ (NewOpCode (0xD0 + 0) (16 * 0 + 1)) = .ok c' ∧
      (c'.V 0xF = 1 ↔ ∃ col row,
        demoState.V 0 ≤ col ∧ col < min (demoState.V 0 + 8) 64 ∧
        demoState.V 0 ≤ row ∧ row < min (demoState.V 0 + 1) 32 ∧
        spriteBit demoState (demoState.V 0) (demoState.V 0) 1 col row = true ∧
        pixel demoState.memory col row = true) :=
  ⟨by decide, by decide, by decide,
    (draw_collision_flag demoState ⟨0, 0⟩ 0 0 1 (by decide) (by decide) (by decide)
      (by decide)).imp fun _ h => ⟨h.1, h.2.1⟩⟩

/-! ## Register arithmetic (8XY4, 8XY5, 8XY7, 8XY6, 8XYE) -/

/-- Claim C3. Add-with-carry `8XY4`: for every destination index `X ≠ 0xF` and every source
index `Y` (also `Y = X` and `Y = 0xF`), with `a`, `b` the values of `V[X]`, `V[Y]` before
the instruction, `RunOp` leaves `V[X] = (a + b) mod 256` and `VF = 1` if `a + b ≥ 256`,
else `VF = 0`. -/
theorem add_with_carry_8XY4 (c : State) (env : Env) (hwf : c.WF) (X Y : Nat)
    (hX : X < 16) (hXF : X ≠ 0xF) (hY : Y < 16) :
    ∃ c', c.RunOp env (NewOpCode (0x80 + X) (16 * Y + 0x4)) = .ok c' ∧
      c'.V X = (c.V X + c.V Y) % 256 ∧
      c'.V 0xF = (if 256 ≤ c.V X + c.V Y then 1 else 0) := by
  have ha := hwf.V_lt X hX
  have hb := hwf.V_lt Y hY
  rw [NewOpCode_nibbles (0x80 + X) (16 * Y + 0x4) 8 X Y 4 hX (by decide) (by omega) rfl]
  have hs : (c.V X + c.V Y) % 65536 = c.V X + c.V Y := by omega
  simp [State.RunOp, State.op8, getV_ok, setV_ok, hX, hY, bind, Except.bind, pure, Except.pure,
    hs, and_0xff, and_0xff00_pos _ (show c.V X + c.V Y < 512 by omega)]
  constructor
  · simp [State.next, upd]
  · simp only [State.next, upd, if_neg (Ne.symm hXF)]
    split_ifs <;> simp [State.setVF, upd]

/-- On `demoState`, `8124` adds `V1 = 200` and `V2 = 100`. -/
theorem add_with_carry_8XY4_witness :
    demoState.WF ∧ (1 : Nat) < 16 ∧ (1 : Nat) ≠ 0xF ∧ (2 : Nat) < 16 ∧
    ∃ c', demoState.RunOp ⟨0, 0⟩ (NewOpCode (0x80 + 1) (16 * 2 + 0x4)) = .ok c' ∧
      c'.V 1 = (demoState.V 1 + demoState.V 2) % 256 ∧
      c'.V 0xF = (if 256 ≤ demoState.V 1 + demoState.V 2 then 1 else 0) :=
  ⟨demoState_WF, by decide, by decide, by decide,
    add_with_carry_8XY4 demoState ⟨0, 0⟩ demoState_WF 1 2 (by decide) (by decide) (by decide)⟩

/-- Claim C4. Subtract-with-borrow in both directions: for register indices `X`, `Y` both
different from `0xF`, with `a`, `b` the values of `V[X]`, `V[Y]` before the instruction,
`8XY5` leaves `V[X] = (a - b) mod 256` and `VF = 0` if `a < b`, else `VF = 1`; and `8XY7`
leaves `V[X] = (b - a) mod 256` and `VF = 0` if `b < a`, else `VF = 1`. -/
theorem subtract_with_borrow_8XY5_8XY7 (c : State) (env : Env) (hwf : c.WF) (X Y : Nat)
    (hX : X < 16) (hXF : X ≠ 0xF) (hY : Y < 16) (hYF : Y ≠ 0xF) :
    (∃ c', c.RunOp env (NewOpCode (0x80 + X) (16 * Y + 0x5)) = .ok c' ∧
      (c'.V X : Int) = ((c.V X : Int) - (c.V Y : Int)) % 256 ∧
      c'.V 0xF = (if c.V X < c.V Y then 0 else 1)) ∧
    (∃ c', c.RunOp env (NewOpCode (0x80 + X) (16 * Y + 0x7)) = .ok c' ∧
      (c'.V X : Int) = ((c.V Y : Int) - (c.V X : Int)) % 256 ∧
      c'.V 0xF = (if c.V Y < c.V X then 0 else 1)) := by
  have ha := hwf.V_lt X hX
  have hb := hwf.V_lt Y hY
  have hF : ¬ (15 = X) := fun h => hXF h.symm
  constructor
  · rw [NewOpCode_nibbles (0x80 + X) (16 * Y + 0x5) 8 X Y 5 hX (by decide) (by omega) rfl]
    by_cases h : c.V X < c.V Y <;>
      simp [State.RunOp, State.op8, State.getV, State.setV, hX, hY, bind, Except.bind, pure,
        Except.pure, h, State.setVF, upd, State.next, hXF, hYF, hF] <;> omega
  · rw [NewOpCode_nibbles (0x80 + X) (16 * Y + 0x7) 8 X Y 7 hX (by decide) (by omega) rfl]
    by_cases h : c.V Y < c.V X <;>
      simp [State.RunOp, State.op8, State.getV, State.setV, hX, hY, bind, Except.bind, pure,
        Except.pure, h, State.setVF, upd, State.next, hXF, hYF, hF] <;> omega

/-- On `demoState`, `8215` and `8217` subtract `V2 = 100` and `V1 = 200` both ways. -/
theorem subtract_with_borrow_8XY5_8XY7_witness :
    demoState.WF ∧ (2 : Nat) < 16 ∧ (2 : Nat) ≠ 0xF ∧ (1 : Nat) < 16 ∧ (1 : Nat) ≠ 0xF ∧
    (∃ c', demoState.RunOp ⟨0, 0⟩ (NewOpCode (0x80 + 2) (16 * 1 + 0x5)) = .ok c' ∧
      (c'.V 2 : Int) = ((demoState.V 2 : Int) - (demoState.V 1 : Int)) % 256 ∧
      c'.V 0xF = (if demoState.V 2 < demoState.V 1 then 0 else 1)) ∧
    (∃ c', demoState.RunOp ⟨0, 0⟩ (NewOpCode (0x80 + 2) (16 * 1 + 0x7)) = .ok c' ∧
      (c'.V 2 : Int) = ((demoState.V 1 : Int) - (demoState.V 2 : Int)) % 256 ∧
      c'.V 0xF = (if demoState.V 1 < demoState.V 2 then 0 else 1)) :=
  ⟨demoState_WF, by decide, by decide, by decide, by decide,
    subtract_with_borrow_8XY5_8XY7 demoState ⟨0, 0⟩ demoState_WF 2 1 (by decide) (by decide)
      (by decide) (by decide)⟩

/-- Claim C5. Shifts: for every register index `X ≠ 0xF`, with `a` the value of `V[X]`
before the instruction, `8XY6` leaves `VF = a mod 2` and `V[X] = a div 2`, and `8XYE` leaves
`VF = a div 128` and `V[X] = (2*a) mod 256`; `V[Y]` plays no part in either: the outcome is
the same for every `Y`. -/
theorem shifts_8XY6_8XYE (c : State) (env : Env) (hwf : c.WF) (X Y : Nat)
    (hX : X < 16) (hXF : X ≠ 0xF) (hY : Y < 16) :
    (∃ c', c.RunOp env (NewOpCode (0x80 + X) (16 * Y + 0x6)) = .ok c' ∧
      c'.V 0xF = c.V X % 2 ∧ c'.V X = c.V X / 2) ∧
    (∃ c', c.RunOp env (NewOpCode (0x80 + X) (16 * Y + 0xE)) = .ok c' ∧
      c'.V 0xF = c.V X / 128 ∧ c'.V X = (2 * c.V X) % 256) ∧
    (∀ Y', Y' < 16 →
      c.RunOp env (NewOpCode (0x80 + X) (16 * Y' + 0x6))
        = c.RunOp env (NewOpCode (0x80 + X) (16 * Y + 0x6)) ∧
      c.RunOp env (NewOpCode (0x80 + X) (16 * Y' + 0xE))
        = c.RunOp env (NewOpCode (0x80 + X) (16 * Y + 0xE))) := by
  have ha := hwf.V_lt X hX
  have hY' := hY
  have hF : ¬ (15 = X) := fun h => hXF h.symm
  have d6 : ∀ Z, NewOpCode (0x80 + X) (16 * Z + 0x6) = _ := fun Z =>
    NewOpCode_nibbles (0x80 + X) (16 * Z + 0x6) 8 X Z 6 hX (by decide) (by omega) rfl
  have dE : ∀ Z, NewOpCode (0x80 + X) (16 * Z + 0xE) = _ := fun Z =>
    NewOpCode_nibbles (0x80 + X) (16 * Z + 0xE) 8 X Z 0xE hX (by decide) (by omega) rfl
  refine ⟨?_, ?_, fun Y' _ => ⟨?_, ?_⟩⟩
  · rw [d6]
    simp [State.RunOp, State.op8, State.getV, State.setV, hX, bind, Except.bind, pure,
        Except.pure, State.setVF, upd, State.next, hXF, hF, Nat.and_one_is_mod,
        Nat.shiftRight_eq_div_pow]
  · rw [dE]
    simp [State.RunOp, State.op8, State.getV, State.setV, hX, bind, Except.bind, pure,
        Except.pure, State.setVF, upd, State.next, hXF, hF, Nat.shiftLeft_eq,
        Nat.shiftRight_eq_div_pow]
    omega
  · rw [d6, d6]
    simp [State.RunOp, State.op8, State.getV, State.setV, hX, bind, Except.bind, pure,
        Except.pure]
  · rw [dE, dE]
    simp [State.RunOp, State.op8, State.getV, State.setV, hX, bind, Except.bind, pure,
        Except.pure]

/-- On `demoState`, `8126` and `812E` shift `V1 = 200`. -/
theorem shifts_8XY6_8XYE_witness :
    demoState.WF ∧ (1 : Nat) < 16 ∧ (1 : Nat) ≠ 0xF ∧ (2 : Nat) < 16 ∧
    (∃ c', demoState.RunOp ⟨0, 0⟩ (NewOpCode (0x80 + 1) (16 * 2 + 0x6)) = .ok c' ∧
      c'.V 0xF = demoState.V 1 % 2 ∧ c'.V 1 = demoState.V 1 / 2) ∧
    (∃ c', demoState.RunOp ⟨0, 0⟩ (NewOpCode (0x80 + 1) (16 * 2 + 0xE)) = .ok c' ∧
      c'.V 0xF = demoState.V 1 / 128 ∧ c'.V 1 = (2 * demoState.V 1) % 256) :=
  ⟨demoState_WF, by decide, by decide, by decide,
    (shifts_8XY6_8XYE demoState ⟨0, 0⟩ demoState_WF 1 2 (by decide) (by decide) (by decide)).1,
    (shifts_8XY6_8XYE demoState ⟨0, 0⟩ demoState_WF 1 2 (by decide) (by decide)
      (by decide)).2.1⟩

/-! ## Skips (3XNN, 4XNN, 5XY0, 9XY0, EX9E, EXA1) -/

/-- Claim C6. Register/immediate skips: for every state with `PC < 0xFFF` and all operands,
`RunOp` of `3XNN`, `4XNN`, `5XY0` and `9XY0` leaves `PC = old PC + 4` exactly when the
condition holds (`V[X] = NN`, `V[X] ≠ NN`, `V[X] = V[Y]`, `V[X] ≠ V[Y]` respectively) and
`PC = old PC + 2` otherwise, and changes no register, no memory byte, no timer and not the
halt flag: the result is the old state with only `PC` replaced. -/
theorem register_immediate_skips (c : State) (env : Env) (X Y NN : Nat)
    (hX : X < 16) (hY : Y < 16) (hNN : NN < 256) (hPC : c.PC < 0xFFF) :
    c.RunOp env (NewOpCode (0x30 + X) NN)
        = .ok { c with PC := if c.V X = NN then c.PC + 4 else c.PC + 2 } ∧
    c.RunOp env (NewOpCode (0x40 + X) NN)
        = .ok { c with PC := if c.V X ≠ NN then c.PC + 4 else c.PC + 2 } ∧
    c.RunOp env (NewOpCode (0x50 + X) (16 * Y + 0x0))
        = .ok { c with PC := if c.V X = c.V Y then c.PC + 4 else c.PC + 2 } ∧
    c.RunOp env (NewOpCode (0x90 + X) (16 * Y + 0x0))
        = .ok { c with PC := if c.V X ≠ c.V Y then c.PC + 4 else c.PC + 2 } := by
  have h2 : (c.PC + 2) % 65536 = c.PC + 2 := by omega
  have h4 : (c.PC + 2 + 2) % 65536 = c.PC + 4 := by omega
  have hNN' := hNN
  have hn : NN % 16 < 16 := by omega
  refine ⟨?_, ?_, ?_, ?_⟩
  · rw [NewOpCode_nibbles (0x30 + X) NN 3 X (NN / 16) (NN % 16) hX hn (by omega) (by omega)]
    by_cases h : c.V X = NN <;>
      simp [State.RunOp, State.op3, State.getV, hX, bind, Except.bind, pure, Except.pure, h,
        State.next, h2, h4]
  · rw [NewOpCode_nibbles (0x40 + X) NN 4 X (NN / 16) (NN % 16) hX hn (by omega) (by omega)]
    by_cases h : c.V X = NN <;>
      simp [State.RunOp, State.op4, State.getV, hX, bind, Except.bind, pure, Except.pure, h,
        State.next, h2, h4]
  · rw [NewOpCode_nibbles (0x50 + X) (16 * Y + 0x0) 5 X Y 0 hX (by decide) (by omega) rfl]
    by_cases h : c.V X = c.V Y <;>
      simp [State.RunOp, State.op5, State.getV, hX, hY, bind, Except.bind, pure, Except.pure, h,
        State.next, h2, h4]
  · rw [NewOpCode_nibbles (0x90 + X) (16 * Y + 0x0) 9 X Y 0 hX (by decide) (by omega) rfl]
    by_cases h : c.V X = c.V Y <;>
      simp [State.RunOp, State.op9, State.getV, hX, hY, bind, Except.bind, pure, Except.pure, h,
        State.next, h2, h4]

/-- On `demoState` (`V1 = 200`, `V2 = 100`, `PC = 0x200`) the four skips with `X = 1`,
`Y = 2`, `NN = 200`. -/
theorem register_immediate_skips_witness :
    (1 : Nat) < 16 ∧ (2 : Nat) < 16 ∧ (200 : Nat) < 256 ∧ demoState.PC < 0xFFF ∧
    demoState.RunOp ⟨0, 0⟩ (NewOpCode (0x30 + 1) 200)
        = .ok { demoState with
            PC := if demoState.V 1 = 200 then demoState.PC + 4 else demoState.PC + 2 } ∧
    demoState.RunOp ⟨0, 0⟩ (NewOpCode (0x40 + 1) 200)
        = .ok { demoState with
            PC := if demoState.V 1 ≠ 200 then demoState.PC + 4 else demoState.PC + 2 } ∧
    demoState.RunOp ⟨0, 0⟩ (NewOpCode (0x50 + 1) (16 * 2 + 0x0))
        = .ok { demoState with
            PC := if demoState.V 1 = demoState.V 2 then demoState.PC + 4
                  else demoState.PC + 2 } ∧
    demoState.RunOp ⟨0, 0⟩ (NewOpCode (0x90 + 1) (16 * 2 + 0x0))
        = .ok { demoState with
            PC := if demoState.V 1 ≠ demoState.V 2 then demoState.PC + 4
                  else demoState.PC + 2 } :=
  ⟨by decide, by decide, by decide, by decide,
    register_immediate_skips demoState ⟨0, 0⟩ 1 2 200 (by decide) (by decide) (by decide)
      (by decide)⟩

/-- Claim C7, as the code has it. Key skips: for every state in which `V[X]` is a valid key
index (`V[X] ≤ 15`), `EX9E` leaves `PC = (old PC + 4) mod 65536` if the keyboard latch for
key `V[X]` is pressed and `(old PC + 2) mod 65536` otherwise, and `EXA1` leaves
`PC = (old PC + 4) mod 65536` if that latch is not pressed and `(old PC + 2) mod 65536`
otherwise; the sums are exact whenever `old PC ≤ 0xFFFB`.  Nothing but `PC` changes, so the
keyboard latch is as before. -/
theorem key_skips_EX9E_EXA1 (c : State) (env : Env) (X : Nat) (hX : X < 16)
    (hK : c.V X ≤ 15) :
    c.RunOp env (NewOpCode (0xE0 + X) 0x9E)
        = .ok { c with PC := (c.PC + if c.keyboard (c.V X) = true then 4 else 2) % 65536 } ∧
    c.RunOp env (NewOpCode (0xE0 + X) 0xA1)
        = .ok { c with PC := (c.PC + if c.keyboard (c.V X) = true then 2 else 4) % 65536 } ∧
    (c.PC ≤ 0xFFFB →
      c.RunOp env (NewOpCode (0xE0 + X) 0x9E)
          = .ok { c with PC := c.PC + if c.keyboard (c.V X) = true then 4 else 2 } ∧
      c.RunOp env (NewOpCode (0xE0 + X) 0xA1)
          = .ok { c with PC := c.PC + if c.keyboard (c.V X) = true then 2 else 4 }) := by
  have hk : c.V X < 16 := by omega
  have h4 : ((c.PC + 2) % 65536 + 2) % 65536 = (c.PC + 4) % 65536 := by omega
  have h9 : c.RunOp env (NewOpCode (0xE0 + X) 0x9E)
      = .ok { c with PC := (c.PC + if c.keyboard (c.V X) = true then 4 else 2) % 65536 } := by
    rw [NewOpCode_nibbles (0xE0 + X) 0x9E 0xE X 9 0xE hX (by decide) (by omega) rfl]
    cases h : c.keyboard (c.V X) <;>
      simp [State.RunOp, State.opE, State.getV, State.getKey, hX, hk, bind, Except.bind, pure,
        Except.pure, h, State.next, h4]
  have hA : c.RunOp env (NewOpCode (0xE0 + X) 0xA1)
      = .ok { c with PC := (c.PC + if c.keyboard (c.V X) = true then 2 else 4) % 65536 } := by
    rw [NewOpCode_nibbles (0xE0 + X) 0xA1 0xE X 0xA 1 hX (by decide) (by omega) rfl]
    cases h : c.keyboard (c.V X) <;>
      simp [State.RunOp, State.opE, State.getV, State.getKey, hX, hk, bind, Except.bind, pure,
        Except.pure, h, State.next, h4]
  refine ⟨h9, hA, fun hPC => ?_⟩
  rw [h9, hA]
  have e1 : (c.PC + if c.keyboard (c.V X) = true then 4 else 2) % 65536
      = c.PC + if c.keyboard (c.V X) = true then 4 else 2 := by
    split_ifs <;> omega
  have e2 : (c.PC + if c.keyboard (c.V X) = true then 2 else 4) % 65536
      = c.PC + if c.keyboard (c.V X) = true then 2 else 4 := by
    split_ifs <;> omega
  rw [e1, e2]
  exact ⟨rfl, rfl⟩

/-- On `demoState` (`V0 = 8`, no key pressed, `PC = 0x200`) the two key skips with
`X = 0`. -/
theorem key_skips_EX9E_EXA1_witness :
    (0 : Nat) < 16 ∧ demoState.V 0 ≤ 15 ∧
    demoState.RunOp ⟨0, 0⟩ (NewOpCode (0xE0 + 0) 0x9E)
        = .ok { demoState with
            PC := (demoState.PC + if demoState.keyboard (demoState.V 0) = true then 4 else 2)
                    % 65536 } ∧
    demoState.RunOp ⟨0, 0⟩ (NewOpCode (0xE0 + 0) 0xA1)
        = .ok { demoState with
            PC := (demoState.PC + if demoState.keyboard (demoState.V 0) = true then 2 else 4)
                    % 65536 } :=
  ⟨by decide, by decide,
    (key_skips_EX9E_EXA1 demoState ⟨0, 0⟩ 0 (by decide) (by decide)).1,
    (key_skips_EX9E_EXA1 demoState ⟨0, 0⟩ 0 (by decide) (by decide)).2.1⟩

/-- Claim C7 as stated fails: in `stateAtTop` (`PC = 0xFFFE`, `V0 = 0` a valid key index,
key 0 not pressed) `E0A1` skips, and the 16-bit program counter wraps to 2 instead of
reaching `old PC + 4`. -/
theorem key_skip_wraps_at_top :
    stateAtTop.V 0 ≤ 15 ∧ stateAtTop.keyboard (stateAtTop.V 0) = false ∧
    ∃ c', stateAtTop.RunOp ⟨0, 0⟩ (NewOpCode 0xE0 0xA1) = .ok c' ∧
      c'.PC = 2 ∧ c'.PC ≠ stateAtTop.PC + 4 :=
  ⟨by decide, rfl, _, rfl, by decide, by decide⟩

/-! ## Control flow (1NNN, 2NNN, 00EE) -/

/-- Claim C8. Call `2NNN`: for every state with `2 ≤ SP ≤ 0x1000`, `RunOp` decreases `SP`
by exactly 2, stores the pre-call `PC` big-endian below the old stack pointer
(`memory[SP_new]` = high byte of old `PC`, `memory[SP_new + 1]` = low byte of old `PC`),
sets `PC = NNN`, and changes no other memory byte and no register. -/
theorem call_2NNN (c : State) (env : Env) (hwf : c.WF) (NNN : Nat) (hN : NNN < 4096)
    (hSP : 2 ≤ c.SP) (hSP' : c.SP ≤ 0x1000) :
    ∃ c', c.RunOp env (NewOpCode (0x20 + NNN / 256) (NNN % 256)) = .ok c' ∧
      c'.SP + 2 = c.SP ∧
      c'.memory c'.SP = c.PC / 256 ∧
      c'.memory (c'.SP + 1) = c.PC % 256 ∧
      c'.PC = NNN ∧
      (∀ a, a ≠ c'.SP → a ≠ c'.SP + 1 → c'.memory a = c.memory a) ∧
      c'.V = c.V ∧ c'.I = c.I := by
  refine ⟨_, RunOp_call c env NNN hN hwf.PC_lt hSP hSP', ?_, ?_, ?_, rfl, ?_, rfl, rfl⟩
  · show c.SP - 2 + 2 = c.SP
    omega
  · show upd _ _ _ _ = _
    simp [upd]
  · show upd _ _ _ _ = _
    simp [upd]
  · intro a h1 h2
    show upd _ _ _ _ = _
    simp only [upd]
    rw [if_neg h2, if_neg h1]

/-- On `demoState` (`SP = 0xEFE`, `PC = 0x200`) the call `2300`. -/
theorem call_2NNN_witness :
    demoState.WF ∧ (0x300 : Nat) < 4096 ∧ 2 ≤ demoState.SP ∧ demoState.SP ≤ 0x1000 ∧
    ∃ c', demoState.RunOp ⟨0, 0⟩ (NewOpCode (0x20 + 0x300 / 256) (0x300 % 256)) = .ok c' ∧
      c'.SP + 2 = demoState.SP ∧
      c'.memory c'.SP = demoState.PC / 256 ∧
      c'.memory (c'.SP + 1) = demoState.PC % 256 ∧
      c'.PC = 0x300 ∧
      (∀ a, a ≠ c'.SP → a ≠ c'.SP + 1 → c'.memory a = demoState.memory a) ∧
      c'.V = demoState.V ∧ c'.I = demoState.I :=
  ⟨demoState_WF, by decide, by decide, by decide,
    call_2NNN demoState ⟨0, 0⟩ demoState_WF 0x300 (by decide) (by decide) (by decide)⟩

/-- Claim C9, as the code has it. Call/return round trip: for every state with
`2 ≤ SP ≤ 0x1000` and `PC = p`, executing the call `2NNN` and then immediately the return
`00EE` leaves `PC = (p + 2) mod 65536`, which is `p + 2` (the address immediately after the
call instruction) whenever `p ≤ 0xFFFD`, and `SP` equal to its value before the call. -/
theorem call_return_round_trip (c : State) (env : Env) (hwf : c.WF) (NNN : Nat)
    (hN : NNN < 4096) (hSP : 2 ≤ c.SP) (hSP' : c.SP ≤ 0x1000) :
    ∃ c1 c2, c.RunOp env (NewOpCode (0x20 + NNN / 256) (NNN % 256)) = .ok c1 ∧
      c1.RunOp env (NewOpCode 0x00 0xEE) = .ok c2 ∧
      c2.PC = (c.PC + 2) % 65536 ∧
      (c.PC ≤ 0xFFFD → c2.PC = c.PC + 2) ∧
      c2.SP = c.SP := by
  have hpc := hwf.PC_lt
  refine ⟨_, _, RunOp_call c env NNN hN hpc hSP hSP', RunOp_return _ env ?_ ?_ ?_, ?_, ?_, ?_⟩
  · show c.SP - 2 + 1 < 4096
    omega
  · show upd _ _ _ _ < 256
    simp only [upd]; split_ifs <;> omega
  · show upd _ _ _ _ < 256
    simp only [upd]; split_ifs <;> omega
  · show (256 * upd _ _ _ _ + upd _ _ _ _ + 2) % 65536 = _
    simp [upd]
    omega
  · intro h
    show (256 * upd _ _ _ _ + upd _ _ _ _ + 2) % 65536 = _
    simp [upd]
    omega
  · show c.SP - 2 + 2 = c.SP
    omega

/-- On `demoState` (`SP = 0xEFE`, `PC = 0x200`) the call `2300` followed by `00EE`. -/
theorem call_return_round_trip_witness :
    demoState.WF ∧ (0x300 : Nat) < 4096 ∧ 2 ≤ demoState.SP ∧ demoState.SP ≤ 0x1000 ∧
    ∃ c1 c2,
      demoState.RunOp ⟨0, 0⟩ (NewOpCode (0x20 + 0x300 / 256) (0x300 % 256)) = .ok c1 ∧
      c1.RunOp ⟨0, 0⟩ (NewOpCode 0x00 0xEE) = .ok c2 ∧
      c2.PC = (demoState.PC + 2) % 65536 ∧
      (demoState.PC ≤ 0xFFFD → c2.PC = demoState.PC + 2) ∧
      c2.SP = demoState.SP :=
  ⟨demoState_WF, by decide, by decide, by decide,
    call_return_round_trip demoState ⟨0, 0⟩ demoState_WF 0x300 (by decide) (by decide)
      (by decide)⟩

/-- Claim C9 as stated fails: from `stateAtTop` (`SP = 0xEFE`, `PC = 0xFFFE`) the call
`2300` followed by `00EE` leaves `PC = 0`, not `old PC + 2`: the `next` after the pop wraps
the 16-bit program counter. -/
theorem call_return_wraps_at_top :
    stateAtTop.WF ∧ 2 ≤ stateAtTop.SP ∧ stateAtTop.SP ≤ 0x1000 ∧
    ∃ c1 c2, stateAtTop.RunOp ⟨0, 0⟩ (NewOpCode 0x23 0x00) = .ok c1 ∧
      c1.RunOp ⟨0, 0⟩ (NewOpCode 0x00 0xEE) = .ok c2 ∧
      c2.PC = 0 ∧ c2.PC ≠ stateAtTop.PC + 2 ∧ c2.SP = stateAtTop.SP :=
  ⟨stateAtTop_WF, by decide, by decide, _, _, rfl, rfl, by decide, by decide, by decide⟩

/-- Claim C10. Jump `1NNN`: for every state, `RunOp` sets `PC = NNN`, sets the halt flag
when `NNN` equals the `PC` before the instruction (a self-jump) and leaves the halt flag as
it was when `NNN` differs from it, and changes nothing else in the state. -/
theorem jump_1NNN (c : State) (env : Env) (NNN : Nat) (hN : NNN < 4096) :
    c.RunOp env (NewOpCode (0x10 + NNN / 256) (NNN % 256))
      = .ok { c with PC := NNN, halt := if NNN = c.PC then true else c.halt } := by
  have hA := Addr_nibbles (0x10 + NNN / 256) (NNN % 256) 1 (NNN / 256) (NNN % 256 / 16)
    (NNN % 256 % 16) (by omega) (by omega)
  rw [show 256 * (NNN / 256) + NNN % 256 = NNN by omega] at hA
  rw [NewOpCode_nibbles (0x10 + NNN / 256) (NNN % 256) 1 (NNN / 256) (NNN % 256 / 16)
    (NNN % 256 % 16) (by omega) (by omega) (by omega) (by omega)]
  simp only [State.RunOp, State.op1, hA]
  by_cases h : NNN = c.PC <;> simp [h]

/-- On `demoState` (`PC = 0x200`) the self-jump `1200`. -/
theorem jump_1NNN_witness :
    (0x200 : Nat) < 4096 ∧
    demoState.RunOp ⟨0, 0⟩ (NewOpCode (0x10 + 0x200 / 256) (0x200 % 256))
      = .ok { demoState with
          PC := 0x200, halt := if 0x200 = demoState.PC then true else demoState.halt } :=
  ⟨by decide, jump_1NNN demoState ⟨0, 0⟩ 0x200 (by decide)⟩

/-! ## Helpers for the later instruction families -/

theorem and_0x0fff (b : Nat) : b &&& 0x0fff = b % 4096 :=
  Nat.and_pow_two_sub_one_eq_mod b 12

theorem RunOp_opF (c : State) (env : Env) (op : OpCode) (h : op.B00 = 0xF) :
    c.RunOp env op = c.opF env op := by
  simp [State.RunOp, h]

/-- The store loop of `FX55` with all its addresses inside memory. -/
theorem opF_store_spec : ∀ (k i : Nat) (c : State), c.I + i + k ≤ 0x1000 →
    ∃ c', State.opF_store k i c = .ok c' ∧ c'.V = c.V ∧ c'.I = c.I ∧ c'.SP = c.SP ∧
      c'.PC = c.PC ∧
      (∀ a, c'.memory a
        = if c.I + i ≤ a ∧ a < c.I + i + k then c.V (a - c.I) else c.memory a) := by
  intro k
  induction k with
  | zero =>
    intro i c _
    refine ⟨c, rfl, rfl, rfl, rfl, rfl, fun a => ?_⟩
    rw [if_neg (by omega)]
  | succ k ih =>
    intro i c h
    have hm : (c.I + i) % 65536 = c.I + i := by omega
    obtain ⟨c', hrun, hV, hI, hSP, hPC, hmem⟩ :=
      ih (i + 1) { c with memory := upd c.memory (c.I + i) (c.V i) } (by show c.I + (i + 1) + k ≤ _; omega)
    refine ⟨c', ?_, hV, hI, hSP, hPC, fun a => ?_⟩
    · rw [State.opF_store]
      simp only [bind, Except.bind, hm, writeMem_ok c _ _ (show c.I + i < 4096 by omega)]
      exact hrun
    · rw [hmem a]
      show (if c.I + (i + 1) ≤ a ∧ a < c.I + (i + 1) + k then c.V (a - c.I)
        else upd c.memory (c.I + i) (c.V i) a) = _
      by_cases h1 : a = c.I + i
      · subst h1
        rw [if_neg (by omega), if_pos (by omega)]
        simp [upd]
      · simp only [upd, if_neg h1]
        by_cases h2 : c.I + (i + 1) ≤ a ∧ a < c.I + (i + 1) + k
        · rw [if_pos h2, if_pos (by omega)]
        · rw [if_neg h2, if_neg (by omega)]

/-- The load loop of `FX65` with all its addresses inside memory. -/
theorem opF_load_spec : ∀ (k i : Nat) (c : State), c.I + i + k ≤ 0x1000 →
    ∃ c', State.opF_load k i c = .ok c' ∧ c'.memory = c.memory ∧ c'.I = c.I ∧
      c'.SP = c.SP ∧ c'.PC = c.PC ∧
      (∀ j, c'.V j = if i ≤ j ∧ j < i + k then c.memory (c.I + j) else c.V j) := by
  intro k
  induction k with
  | zero =>
    intro i c _
    refine ⟨c, rfl, rfl, rfl, rfl, rfl, fun a => ?_⟩
    rw [if_neg (by omega)]
  | succ k ih =>
    intro i c h
    have hm : (c.I + i) % 65536 = c.I + i := by omega
    obtain ⟨c', hrun, hM, hI, hSP, hPC, hV⟩ :=
      ih (i + 1) { c with V := upd c.V i (c.memory (c.I + i)) } (by show c.I + (i + 1) + k ≤ _; omega)
    refine ⟨c', ?_, hM, hI, hSP, hPC, fun j => ?_⟩
    · rw [State.opF_load]
      simp only [bind, Except.bind, hm, readMem_ok c _ (show c.I + i < 4096 by omega)]
      exact hrun
    · rw [hV j]
      show (if i + 1 ≤ j ∧ j < i + 1 + k then c.memory (c.I + j)
        else upd c.V i (c.memory (c.I + i)) j) = _
      by_cases h1 : j = i
      · subst h1
        rw [if_neg (by omega), if_pos (by omega)]
        simp [upd]
      · simp only [upd, if_neg h1]
        by_cases h2 : i + 1 ≤ j ∧ j < i + 1 + k
        · rw [if_pos h2, if_pos (by omega)]
        · rw [if_neg h2, if_neg (by omega)]

/-- `FX55` with `I + X ≤ 0xFFF`. -/
theorem RunOp_store (c : State) (env : Env) (X : Nat) (hX : X < 16) (hI : c.I + X ≤ 0xFFF) :
    ∃ c', c.RunOp env (NewOpCode (0xF0 + X) 0x55) = .ok c' ∧ c'.V = c.V ∧ c'.I = c.I ∧
      c'.SP = c.SP ∧ c'.PC = (c.PC + 2) % 65536 ∧
      (∀ a, c'.memory a = if c.I ≤ a ∧ a ≤ c.I + X then c.V (a - c.I) else c.memory a) := by
  obtain ⟨c', hrun, hV, hI', hSP, hPC, hmem⟩ := opF_store_spec (X + 1) 0 c (by omega)
  have hk : (X + 1) % 256 = X + 1 := by omega
  refine ⟨c'.next, ?_, hV, hI', hSP, ?_, fun a => ?_⟩
  · rw [NewOpCode_nibbles (0xF0 + X) 0x55 0xF X 5 5 hX (by decide) (by omega) rfl,
      RunOp_opF _ _ _ rfl]
    simp [State.opF, bind, Except.bind, pure, Except.pure, hk, show X + 1 ≤ 16 by omega, hrun]
  · show (c'.PC + 2) % 65536 = _
    rw [hPC]
  · show c'.memory a = _
    rw [hmem a]
    by_cases h : c.I ≤ a ∧ a ≤ c.I + X
    · rw [if_pos h, if_pos (by omega)]
    · rw [if_neg h, if_neg (by omega)]

/-- `FX65` with `I + X ≤ 0xFFF`. -/
theorem RunOp_load (c : State) (env : Env) (X : Nat) (hX : X < 16) (hI : c.I + X ≤ 0xFFF) :
    ∃ c', c.RunOp env (NewOpCode (0xF0 + X) 0x65) = .ok c' ∧ c'.memory = c.memory ∧
      c'.I = c.I ∧ c'.SP = c.SP ∧ c'.PC = (c.PC + 2) % 65536 ∧
      (∀ j, c'.V j = if j ≤ X then c.memory (c.I + j) else c.V j) := by
  obtain ⟨c', hrun, hM, hI', hSP, hPC, hV⟩ := opF_load_spec (X + 1) 0 c (by omega)
  have hk : (X + 1) % 256 = X + 1 := by omega
  refine ⟨c'.next, ?_, hM, hI', hSP, ?_, fun j => ?_⟩
  · rw [NewOpCode_nibbles (0xF0 + X) 0x65 0xF X 6 5 hX (by decide) (by omega) rfl,
      RunOp_opF _ _ _ rfl]
    simp [State.opF, bind, Except.bind, pure, Except.pure, hk, show X + 1 ≤ 16 by omega, hrun]
  · show (c'.PC + 2) % 65536 = _
    rw [hPC]
  · show c'.V j = _
    rw [hV j]
    by_cases h : j ≤ X
    · rw [if_pos h, if_pos (by omega)]
    · rw [if_neg h, if_neg (by omega)]

/-! ## What every instruction keeps, whenever it returns -/

theorem Kept.same (c : State) : Kept c c := ⟨rfl, rfl, rfl, rfl, rfl, rfl, rfl⟩

theorem Kept.chain {a b c : State} (h1 : Kept a b) (h2 : Kept b c) : Kept a c :=
  ⟨h2.I_eq.trans h1.I_eq, h2.SP_eq.trans h1.SP_eq, h2.PC_eq.trans h1.PC_eq,
    h2.delayTimer_eq.trans h1.delayTimer_eq, h2.soundTimer_eq.trans h1.soundTimer_eq,
    h2.keyboard_eq.trans h1.keyboard_eq, h2.halt_eq.trans h1.halt_eq⟩

theorem readMem_eq_ok (c : State) (a v : Nat) (h : c.readMem a = .ok v) :
    a < 4096 ∧ v = c.memory a := by
  unfold State.readMem at h
  split_ifs at h with ha
  exact ⟨ha, (Except.ok.inj h).symm⟩

theorem writeMem_eq_ok (c c' : State) (a v : Nat) (h : c.writeMem a v = .ok c') :
    a < 4096 ∧ c' = { c with memory := upd c.memory a v } := by
  unfold State.writeMem at h
  split_ifs at h with ha
  exact ⟨ha, (Except.ok.inj h).symm⟩

theorem bind_eq_ok {α β : Type} (m : Except Fault α) (f : α → Except Fault β) (b : β)
    (h : (m >>= f) = .ok b) : ∃ a, m = .ok a ∧ f a = .ok b := by
  cases m with
  | error e => simp [bind, Except.bind] at h
  | ok a => exact ⟨a, rfl, h⟩

/-- Whenever the inner loop of `opD` returns, it has kept every field but `memory`, `V`. -/
theorem opD_cols_kept (sprite x row : Nat) :
    ∀ (fuel j : Nat) (c c' : State), State.opD_cols sprite x row fuel j c = .ok c' →
      Kept c c' := by
  intro fuel
  induction fuel with
  | zero => intro j c c' h; simp [State.opD_cols] at h
  | succ fuel ih =>
    intro j c c' h
    rw [State.opD_cols] at h
    dsimp only at h
    by_cases h1 : j < x + 8 ∧ j < 64
    · rw [if_pos h1] at h
      by_cases h2 : sprite >>> (x + 7 - j) &&& 1 = 0
      · rw [if_pos h2] at h
        exact ih _ _ _ h
      · rw [if_neg h2] at h
        obtain ⟨b, -, h⟩ := bind_eq_ok _ _ _ h
        obtain ⟨c1, hc1, h⟩ := bind_eq_ok _ _ _ h
        obtain ⟨-, rfl⟩ := writeMem_eq_ok _ _ _ _ hc1
        have h3 := ih _ _ _ h
        refine Kept.chain ?_ h3
        refine ⟨?_, ?_, ?_, ?_, ?_, ?_, ?_⟩ <;> (simp only []; split_ifs <;> rfl)
    · rw [if_neg h1] at h
      exact (Except.ok.inj h) ▸ Kept.same c

theorem opD_rows_kept (x y n : Nat) :
    ∀ (fuel i : Nat) (c c' : State), State.opD_rows x y n fuel i c = .ok c' → Kept c c' := by
  intro fuel
  induction fuel with
  | zero => intro j c c' h; simp [State.opD_rows] at h
  | succ fuel ih =>
    intro i c c' h
    rw [State.opD_rows] at h
    split_ifs at h with h1
    · obtain ⟨b, hb, h⟩ := bind_eq_ok _ _ _ h
      obtain ⟨c1, hc1, h⟩ := bind_eq_ok _ _ _ h
      exact Kept.chain (opD_cols_kept _ _ _ _ _ _ _ hc1) (ih _ _ _ h)
    · exact (Except.ok.inj h) ▸ Kept.same c

theorem opF_store_kept : ∀ (k i : Nat) (c c' : State), State.opF_store k i c = .ok c' →
    Kept c c' := by
  intro k
  induction k with
  | zero => intro i c c' h; exact (Except.ok.inj h) ▸ Kept.same c
  | succ k ih =>
    intro i c c' h
    rw [State.opF_store] at h
    obtain ⟨c1, hc1, h⟩ := bind_eq_ok _ _ _ h
    obtain ⟨-, rfl⟩ := writeMem_eq_ok _ _ _ _ hc1
    have h3 := ih _ _ _ h
    refine Kept.chain ?_ h3
    exact ⟨rfl, rfl, rfl, rfl, rfl, rfl, rfl⟩

theorem opF_load_kept : ∀ (k i : Nat) (c c' : State), State.opF_load k i c = .ok c' →
    Kept c c' := by
  intro k
  induction k with
  | zero => intro i c c' h; exact (Except.ok.inj h) ▸ Kept.same c
  | succ k ih =>
    intro i c c' h
    rw [State.opF_load] at h
    obtain ⟨v, hv, h⟩ := bind_eq_ok _ _ _ h
    have h3 := ih _ _ _ h
    refine Kept.chain ?_ h3
    exact ⟨rfl, rfl, rfl, rfl, rfl, rfl, rfl⟩

theorem getKey_eq_ok (c : State) (k : Nat) (b : Bool) (h : c.getKey k = .ok b) :
    k < 16 ∧ b = c.keyboard k := by
  unfold State.getKey at h
  split_ifs at h with ha
  exact ⟨ha, (Except.ok.inj h).symm⟩

theorem op0_effect (c c' : State) (op : OpCode) (h : c.op0 op = .ok c') :
    c'.delayTimer = c.delayTimer ∧ c'.soundTimer = c.soundTimer ∧
    (op.B01 ≠ 0 → c'.PC = c.PC) ∧
    (op.B01 = 0 → op.B1 = 0xE0 → c'.PC = ((c.PC + 2) % 65536 + 2) % 65536) ∧
    (op.B01 = 0 → op.B1 ≠ 0xE0 → op.B1 ≠ 0xEE → c'.PC = (c.PC + 2) % 65536) := by
  unfold State.op0 at h
  by_cases h1 : op.B01 ≠ 0x0
  · rw [if_pos h1] at h
    obtain rfl := Except.ok.inj h
    exact ⟨rfl, rfl, fun _ => rfl, fun h0 => absurd h0 h1, fun h0 => absurd h0 h1⟩
  · rw [if_neg h1] at h
    dsimp only at h
    by_cases h2 : op.B1 = 0xe0
    · rw [if_pos h2] at h
      obtain rfl := Except.ok.inj h
      exact ⟨rfl, rfl, fun h0 => absurd h0 h1, fun _ _ => rfl, fun _ h3 => absurd h2 h3⟩
    · rw [if_neg h2] at h
      by_cases h3 : op.B1 = 0xee
      · rw [if_pos h3] at h
        obtain ⟨hi, -, h⟩ := bind_eq_ok _ _ _ h
        obtain ⟨lo, -, h⟩ := bind_eq_ok _ _ _ h
        obtain rfl := Except.ok.inj h
        exact ⟨rfl, rfl, fun h0 => absurd h0 h1, fun _ h4 => absurd h4 h2,
          fun _ _ h4 => absurd h3 h4⟩
      · rw [if_neg h3] at h
        obtain rfl := Except.ok.inj h
        exact ⟨rfl, rfl, fun h0 => absurd h0 h1, fun _ h4 => absurd h4 h2, fun _ _ _ => rfl⟩

theorem op1_effect (c c' : State) (op : OpCode) (h : c.op1 op = .ok c') :
    c'.delayTimer = c.delayTimer ∧ c'.soundTimer = c.soundTimer := by
  unfold State.op1 at h
  obtain rfl := Except.ok.inj h
  constructor <;> (dsimp only; split_ifs <;> rfl)

theorem op2_effect (c c' : State) (op : OpCode) (h : c.op2 op = .ok c') :
    c'.delayTimer = c.delayTimer ∧ c'.soundTimer = c.soundTimer := by
  unfold State.op2 at h
  obtain ⟨c1, hc1, h⟩ := bind_eq_ok _ _ _ h
  obtain ⟨c2, hc2, h⟩ := bind_eq_ok _ _ _ h
  obtain ⟨-, rfl⟩ := writeMem_eq_ok _ _ _ _ hc1
  obtain ⟨-, rfl⟩ := writeMem_eq_ok _ _ _ _ hc2
  obtain rfl := Except.ok.inj h
  exact ⟨rfl, rfl⟩

theorem skip_effect (c : State) (b : Prop) [Decidable b] :
    ((if b then c.next else c).next).delayTimer = c.delayTimer ∧
    ((if b then c.next else c).next).soundTimer = c.soundTimer ∧
    PCStep c ((if b then c.next else c).next) := by
  by_cases hb : b
  · rw [if_pos hb]; exact ⟨rfl, rfl, Or.inr (Or.inr rfl)⟩
  · rw [if_neg hb]; exact ⟨rfl, rfl, Or.inr (Or.inl rfl)⟩

theorem op3_effect (c c' : State) (op : OpCode) (hX : op.B01 < 16)
    (h : c.op3 op = .ok c') :
    c'.delayTimer = c.delayTimer ∧ c'.soundTimer = c.soundTimer ∧ PCStep c c' := by
  simp only [State.op3, getV_ok _ _ hX, bind, Except.bind, pure, Except.pure] at h
  obtain rfl := Except.ok.inj h
  exact skip_effect c _

theorem op4_effect (c c' : State) (op : OpCode) (hX : op.B01 < 16)
    (h : c.op4 op = .ok c') :
    c'.delayTimer = c.delayTimer ∧ c'.soundTimer = c.soundTimer ∧ PCStep c c' := by
  simp only [State.op4, getV_ok _ _ hX, bind, Except.bind, pure, Except.pure] at h
  obtain rfl := Except.ok.inj h
  exact skip_effect c _

theorem op5_effect (c c' : State) (op : OpCode) (hX : op.B01 < 16) (hY : op.B10 < 16)
    (h : c.op5 op = .ok c') :
    c'.delayTimer = c.delayTimer ∧ c'.soundTimer = c.soundTimer ∧ PCStep c c' := by
  simp only [State.op5, getV_ok _ _ hX, getV_ok _ _ hY, bind, Except.bind, pure,
    Except.pure] at h
  obtain rfl := Except.ok.inj h
  exact skip_effect c _

theorem op9_effect (c c' : State) (op : OpCode) (hX : op.B01 < 16) (hY : op.B10 < 16)
    (h : c.op9 op = .ok c') :
    c'.delayTimer = c.delayTimer ∧ c'.soundTimer = c.soundTimer ∧ PCStep c c' := by
  simp only [State.op9, getV_ok _ _ hX, getV_ok _ _ hY, bind, Except.bind, pure,
    Except.pure] at h
  obtain rfl := Except.ok.inj h
  exact skip_effect c _

theorem op6_effect (c c' : State) (op : OpCode) (hX : op.B01 < 16)
    (h : c.op6 op = .ok c') :
    c'.delayTimer = c.delayTimer ∧ c'.soundTimer = c.soundTimer ∧
      c'.PC = (c.PC + 2) % 65536 := by
  simp only [State.op6, setV_ok _ _ _ hX, bind, Except.bind, pure, Except.pure] at h
  obtain rfl := Except.ok.inj h
  exact ⟨rfl, rfl, rfl⟩

theorem op7_effect (c c' : State) (op : OpCode) (hX : op.B01 < 16)
    (h : c.op7 op = .ok c') :
    c'.delayTimer = c.delayTimer ∧ c'.soundTimer = c.soundTimer ∧
      c'.PC = (c.PC + 2) % 65536 := by
  simp only [State.op7, getV_ok _ _ hX, setV_ok _ _ _ hX, bind, Except.bind, pure,
    Except.pure] at h
  obtain rfl := Except.ok.inj h
  exact ⟨rfl, rfl, rfl⟩

theorem opA_effect (c c' : State) (op : OpCode) (h : c.opA op = .ok c') :
    c'.delayTimer = c.delayTimer ∧ c'.soundTimer = c.soundTimer ∧
      c'.PC = (c.PC + 2) % 65536 := by
  unfold State.opA at h
  obtain rfl := Except.ok.inj h
  exact ⟨rfl, rfl, rfl⟩

theorem opB_effect (c c' : State) (op : OpCode) (h : c.opB op = .ok c') :
    c'.delayTimer = c.delayTimer ∧ c'.soundTimer = c.soundTimer := by
  unfold State.opB at h
  obtain rfl := Except.ok.inj h
  exact ⟨rfl, rfl⟩

theorem opC_effect (c c' : State) (env : Env) (op : OpCode) (hX : op.B01 < 16)
    (h : c.opC env op = .ok c') :
    c'.delayTimer = c.delayTimer ∧ c'.soundTimer = c.soundTimer ∧
      c'.PC = (c.PC + 2) % 65536 := by
  simp only [State.opC, setV_ok _ _ _ hX, bind, Except.bind, pure, Except.pure] at h
  obtain rfl := Except.ok.inj h
  exact ⟨rfl, rfl, rfl⟩

theorem opD_effect (c c' : State) (op : OpCode) (hX : op.B01 < 16) (hY : op.B10 < 16)
    (h : c.opD op = .ok c') :
    c'.delayTimer = c.delayTimer ∧ c'.soundTimer = c.soundTimer ∧
      c'.PC = (c.PC + 2) % 65536 := by
  simp only [State.opD, getV_ok _ _ hX, getV_ok _ _ hY, bind, Except.bind, pure,
    Except.pure] at h
  split at h
  · cases h
  · rename_i c1 hc1
    obtain rfl := Except.ok.inj h
    have hk := opD_rows_kept _ _ _ _ _ _ _ hc1
    exact ⟨hk.delayTimer_eq, hk.soundTimer_eq, by show (c1.PC + 2) % 65536 = _; rw [hk.PC_eq]; rfl⟩

theorem op8_effect (c c' : State) (op : OpCode) (hX : op.B01 < 16) (hY : op.B10 < 16)
    (hN : op.B11 < 16) (h : c.op8 op = .ok c') :
    c'.delayTimer = c.delayTimer ∧ c'.soundTimer = c.soundTimer ∧
      c'.PC = (c.PC + 2) % 65536 := by
  obtain ⟨B0, B00, B01, B1, B10, B11⟩ := op
  dsimp only at hX hY hN
  interval_cases B11 <;>
    simp [State.op8, State.getV, State.setV, hX, hY, bind, Except.bind, pure, Except.pure] at h <;>
    subst h <;>
    refine ⟨?_, ?_, ?_⟩ <;>
    (try dsimp only [State.next, State.notImplemented]) <;>
    (try split_ifs) <;> rfl

theorem opE_effect (c c' : State) (op : OpCode) (h : c.opE op = .ok c') :
    c'.delayTimer = c.delayTimer ∧ c'.soundTimer = c.soundTimer ∧ PCStep c c' := by
  unfold State.opE at h
  dsimp only at h
  by_cases h1 : op.B1 = 0x9e
  · rw [if_pos h1] at h
    obtain ⟨vx, -, h⟩ := bind_eq_ok _ _ _ h
    obtain ⟨k, -, h⟩ := bind_eq_ok _ _ _ h
    obtain rfl := Except.ok.inj h
    exact skip_effect c _
  · rw [if_neg h1] at h
    by_cases h2 : op.B1 = 0xa1
    · rw [if_pos h2] at h
      obtain ⟨vx, -, h⟩ := bind_eq_ok _ _ _ h
      obtain ⟨k, -, h⟩ := bind_eq_ok _ _ _ h
      obtain rfl := Except.ok.inj h
      exact skip_effect c _
    · rw [if_neg h2] at h
      obtain rfl := Except.ok.inj h
      exact ⟨rfl, rfl, Or.inr (Or.inl rfl)⟩

theorem opF_effect (c c' : State) (env : Env) (op : OpCode) (hX : op.B01 < 16)
    (h : c.opF env op = .ok c') :
    (op.B1 ≠ 0x15 → c'.delayTimer = c.delayTimer) ∧
    (op.B1 ≠ 0x18 → c'.soundTimer = c.soundTimer) ∧
    c'.PC = (c.PC + 2) % 65536 := by
  unfold State.opF at h
  dsimp only at h
  by_cases h07 : op.B1 = 0x07
  · rw [if_pos h07] at h
    simp only [setV_ok _ _ _ hX, bind, Except.bind, pure, Except.pure] at h
    obtain rfl := Except.ok.inj h
    exact ⟨fun _ => rfl, fun _ => rfl, rfl⟩
  rw [if_neg h07] at h
  by_cases h0a : op.B1 = 0x0a
  · rw [if_pos h0a] at h
    simp only [setV_ok _ _ _ hX, bind, Except.bind, pure, Except.pure] at h
    obtain rfl := Except.ok.inj h
    exact ⟨fun _ => rfl, fun _ => rfl, rfl⟩
  rw [if_neg h0a] at h
  by_cases h15 : op.B1 = 0x15
  · rw [if_pos h15] at h
    simp only [getV_ok _ _ hX, bind, Except.bind, pure, Except.pure] at h
    obtain rfl := Except.ok.inj h
    exact ⟨fun hne => absurd h15 hne, fun _ => rfl, rfl⟩
  rw [if_neg h15] at h
  by_cases h18 : op.B1 = 0x18
  · rw [if_pos h18] at h
    simp only [getV_ok _ _ hX, bind, Except.bind, pure, Except.pure] at h
    obtain rfl := Except.ok.inj h
    exact ⟨fun _ => rfl, fun hne => absurd h18 hne, rfl⟩
  rw [if_neg h18] at h
  by_cases h1e : op.B1 = 0x1e
  · rw [if_pos h1e] at h
    simp only [getV_ok _ _ hX, bind, Except.bind, pure, Except.pure] at h
    obtain rfl := Except.ok.inj h
    refine ⟨fun _ => ?_, fun _ => ?_, ?_⟩ <;>
      (dsimp only [State.next]; split_ifs <;> rfl)
  rw [if_neg h1e] at h
  by_cases h29 : op.B1 = 0x29
  · rw [if_pos h29] at h
    simp only [getV_ok _ _ hX, bind, Except.bind, pure, Except.pure] at h
    obtain rfl := Except.ok.inj h
    exact ⟨fun _ => rfl, fun _ => rfl, rfl⟩
  rw [if_neg h29] at h
  by_cases h33 : op.B1 = 0x33
  · rw [if_pos h33] at h
    obtain ⟨v, -, h⟩ := bind_eq_ok _ _ _ h
    obtain ⟨c1, hc1, h⟩ := bind_eq_ok _ _ _ h
    obtain ⟨c2, hc2, h⟩ := bind_eq_ok _ _ _ h
    obtain ⟨c3, hc3, h⟩ := bind_eq_ok _ _ _ h
    obtain ⟨-, rfl⟩ := writeMem_eq_ok _ _ _ _ hc1
    obtain ⟨-, rfl⟩ := writeMem_eq_ok _ _ _ _ hc2
    obtain ⟨-, rfl⟩ := writeMem_eq_ok _ _ _ _ hc3
    obtain rfl := Except.ok.inj h
    exact ⟨fun _ => rfl, fun _ => rfl, rfl⟩
  rw [if_neg h33] at h
  by_cases h55 : op.B1 = 0x55
  · rw [if_pos h55] at h
    have hle : (op.B01 + 1) % 256 ≤ 16 := by omega
    rw [if_pos hle] at h
    obtain ⟨c1, hc1, h⟩ := bind_eq_ok _ _ _ h
    obtain rfl := Except.ok.inj h
    have hk := opF_store_kept _ _ _ _ hc1
    exact ⟨fun _ => hk.delayTimer_eq, fun _ => hk.soundTimer_eq,
      by show (c1.PC + 2) % 65536 = _; rw [hk.PC_eq]⟩
  rw [if_neg h55] at h
  by_cases h65 : op.B1 = 0x65
  · rw [if_pos h65] at h
    have hle : (op.B01 + 1) % 256 ≤ 16 := by omega
    rw [if_pos hle] at h
    obtain ⟨c1, hc1, h⟩ := bind_eq_ok _ _ _ h
    obtain rfl := Except.ok.inj h
    have hk := opF_load_kept _ _ _ _ hc1
    exact ⟨fun _ => hk.delayTimer_eq, fun _ => hk.soundTimer_eq,
      by show (c1.PC + 2) % 65536 = _; rw [hk.PC_eq]⟩
  rw [if_neg h65] at h
  obtain rfl := Except.ok.inj h
  exact ⟨fun _ => rfl, fun _ => rfl, rfl⟩

/-- What one instruction does to the timers and to the program counter, whenever `RunOp`
returns. -/
theorem RunOp_effect (c c' : State) (env : Env) (op : OpCode) (hX : op.B01 < 16)
    (hY : op.B10 < 16) (hN : op.B11 < 16) (h : c.RunOp env op = .ok c') :
    (¬ (op.B00 = 0xF ∧ op.B1 = 0x15) → c'.delayTimer = c.delayTimer) ∧
    (¬ (op.B00 = 0xF ∧ op.B1 = 0x18) → c'.soundTimer = c.soundTimer) ∧
    ((op.B00 = 6 ∨ op.B00 = 7 ∨ op.B00 = 8 ∨ op.B00 = 0xA ∨ op.B00 = 0xC ∨ op.B00 = 0xD ∨
        op.B00 = 0xF ∨ (op.B00 = 0 ∧ op.B01 = 0 ∧ op.B1 ≠ 0xE0 ∧ op.B1 ≠ 0xEE)) →
      c'.PC = (c.PC + 2) % 65536) ∧
    (op.B00 ≠ 1 → op.B00 ≠ 2 → op.B00 ≠ 0xB →
      ¬ (op.B00 = 0 ∧ op.B01 = 0 ∧ op.B1 = 0xEE) → PCStep c c') := by
  unfold State.RunOp at h
  by_cases k0 : op.B00 = 0x00
  · rw [if_pos k0] at h
    obtain ⟨e1, e2, e3, e4, e5⟩ := op0_effect c c' op h
    refine ⟨fun _ => e1, fun _ => e2, fun hh => ?_, fun _ _ _ hr => ?_⟩
    · exact e5 (by omega) (by omega) (by omega)
    · by_cases hx : op.B01 = 0
      · by_cases he : op.B1 = 0xE0
        · exact Or.inr (Or.inr (e4 hx he))
        · exact Or.inr (Or.inl (e5 hx he (fun hee => hr ⟨k0, hx, hee⟩)))
      · exact Or.inl (e3 hx)
  rw [if_neg k0] at h
  by_cases k1 : op.B00 = 0x01
  · rw [if_pos k1] at h
    obtain ⟨e1, e2⟩ := op1_effect c c' op h
    exact ⟨fun _ => e1, fun _ => e2, fun hh => by omega, fun a b d _ => by omega⟩
  rw [if_neg k1] at h
  by_cases k2 : op.B00 = 0x02
  · rw [if_pos k2] at h
    obtain ⟨e1, e2⟩ := op2_effect c c' op h
    exact ⟨fun _ => e1, fun _ => e2, fun hh => by omega, fun a b d _ => by omega⟩
  rw [if_neg k2] at h
  by_cases k3 : op.B00 = 0x03
  · rw [if_pos k3] at h
    obtain ⟨e1, e2, e3⟩ := op3_effect c c' op hX h
    exact ⟨fun _ => e1, fun _ => e2, fun hh => by omega, fun _ _ _ _ => e3⟩
  rw [if_neg k3] at h
  by_cases k4 : op.B00 = 0x04
  · rw [if_pos k4] at h
    obtain ⟨e1, e2, e3⟩ := op4_effect c c' op hX h
    exact ⟨fun _ => e1, fun _ => e2, fun hh => by omega, fun _ _ _ _ => e3⟩
  rw [if_neg k4] at h
  by_cases k5 : op.B00 = 0x05
  · rw [if_pos k5] at h
    obtain ⟨e1, e2, e3⟩ := op5_effect c c' op hX hY h
    exact ⟨fun _ => e1, fun _ => e2, fun hh => by omega, fun _ _ _ _ => e3⟩
  rw [if_neg k5] at h
  by_cases k6 : op.B00 = 0x06
  · rw [if_pos k6] at h
    obtain ⟨e1, e2, e3⟩ := op6_effect c c' op hX h
    exact ⟨fun _ => e1, fun _ => e2, fun _ => e3, fun _ _ _ _ => Or.inr (Or.inl e3)⟩
  rw [if_neg k6] at h
  by_cases k7 : op.B00 = 0x07
  · rw [if_pos k7] at h
    obtain ⟨e1, e2, e3⟩ := op7_effect c c' op hX h
    exact ⟨fun _ => e1, fun _ => e2, fun _ => e3, fun _ _ _ _ => Or.inr (Or.inl e3)⟩
  rw [if_neg k7] at h
  by_cases k8 : op.B00 = 0x08
  · rw [if_pos k8] at h
    obtain ⟨e1, e2, e3⟩ := op8_effect c c' op hX hY hN h
    exact ⟨fun _ => e1, fun _ => e2, fun _ => e3, fun _ _ _ _ => Or.inr (Or.inl e3)⟩
  rw [if_neg k8] at h
  by_cases k9 : op.B00 = 0x09
  · rw [if_pos k9] at h
    obtain ⟨e1, e2, e3⟩ := op9_effect c c' op hX hY h
    exact ⟨fun _ => e1, fun _ => e2, fun hh => by omega, fun _ _ _ _ => e3⟩
  rw [if_neg k9] at h
  by_cases k10 : op.B00 = 0x0a
  · rw [if_pos k10] at h
    obtain ⟨e1, e2, e3⟩ := opA_effect c c' op h
    exact ⟨fun _ => e1, fun _ => e2, fun _ => e3, fun _ _ _ _ => Or.inr (Or.inl e3)⟩
  rw [if_neg k10] at h
  by_cases k11 : op.B00 = 0x0b
  · rw [if_pos k11] at h
    obtain ⟨e1, e2⟩ := opB_effect c c' op h
    exact ⟨fun _ => e1, fun _ => e2, fun hh => by omega, fun a b d _ => by omega⟩
  rw [if_neg k11] at h
  by_cases k12 : op.B00 = 0x0c
  · rw [if_pos k12] at h
    obtain ⟨e1, e2, e3⟩ := opC_effect c c' env op hX h
    exact ⟨fun _ => e1, fun _ => e2, fun _ => e3, fun _ _ _ _ => Or.inr (Or.inl e3)⟩
  rw [if_neg k12] at h
  by_cases k13 : op.B00 = 0x0d
  · rw [if_pos k13] at h
    obtain ⟨e1, e2, e3⟩ := opD_effect c c' op hX hY h
    exact ⟨fun _ => e1, fun _ => e2, fun _ => e3, fun _ _ _ _ => Or.inr (Or.inl e3)⟩
  rw [if_neg k13] at h
  by_cases k14 : op.B00 = 0x0e
  · rw [if_pos k14] at h
    obtain ⟨e1, e2, e3⟩ := opE_effect c c' op h
    exact ⟨fun _ => e1, fun _ => e2, fun hh => by omega, fun _ _ _ _ => e3⟩
  rw [if_neg k14] at h
  by_cases k15 : op.B00 = 0x0f
  · rw [if_pos k15] at h
    obtain ⟨e1, e2, e3⟩ := opF_effect c c' env op hX h
    exact ⟨fun hn => e1 (fun hb => hn ⟨k15, hb⟩), fun hn => e2 (fun hb => hn ⟨k15, hb⟩),
      fun _ => e3, fun _ _ _ _ => Or.inr (Or.inl e3)⟩
  rw [if_neg k15] at h
  obtain rfl := Except.ok.inj h
  exact ⟨fun _ => rfl, fun _ => rfl, fun hh => by omega, fun _ _ _ _ => Or.inl rfl⟩

/-! ## Block store and load, BCD, address add (FX55, FX65, FX33, FX1E) -/

/-- Claim C11. Block store/load round trip: for every `N` in `0..15` with `I + N ≤ 0xFFF`,
executing `FN55`, then replacing the registers by arbitrary values `V'`, then executing
`FN65` restores `V[i]` to its original value for every `i` in `0..N`, leaves every register
above `N` as it was just before the load, and leaves `I` unchanged throughout. -/
theorem block_store_load_round_trip (c : State) (env : Env) (N : Nat) (hN : N < 16)
    (hI : c.I + N ≤ 0xFFF) (V' : Nat → Nat) :
    ∃ c1 c3, c.RunOp env (NewOpCode (0xF0 + N) 0x55) = .ok c1 ∧
      State.RunOp { c1 with V := V' } env (NewOpCode (0xF0 + N) 0x65) = .ok c3 ∧
      (∀ i, i ≤ N → c3.V i = c.V i) ∧
      (∀ j, N < j → c3.V j = V' j) ∧
      c1.I = c.I ∧ c3.I = c.I := by
  obtain ⟨c1, hrun1, hV1, hI1, -, -, hmem1⟩ := RunOp_store c env N hN hI
  obtain ⟨c3, hrun3, -, hI3, -, -, hV3⟩ :=
    RunOp_load { c1 with V := V' } env N hN (by show c1.I + N ≤ _; rw [hI1]; exact hI)
  refine ⟨c1, c3, hrun1, hrun3, fun i hi => ?_, fun j hj => ?_, hI1, hI3.trans hI1⟩
  · rw [hV3 i, if_pos hi]
    show c1.memory (c1.I + i) = _
    rw [hI1, hmem1, if_pos (by omega), Nat.add_sub_cancel_left]
  · rw [hV3 j, if_neg (by omega)]

/-- On `demoState` (`I = 0x300`) the round trip `F255`, registers cleared, `F265`. -/
theorem block_store_load_round_trip_witness :
    (2 : Nat) < 16 ∧ demoState.I + 2 ≤ 0xFFF ∧
    ∃ c1 c3, demoState.RunOp ⟨0, 0⟩ (NewOpCode (0xF0 + 2) 0x55) = .ok c1 ∧
      State.RunOp { c1 with V := fun _ => 0 } ⟨0, 0⟩ (NewOpCode (0xF0 + 2) 0x65) = .ok c3 ∧
      (∀ i, i ≤ 2 → c3.V i = demoState.V i) ∧
      (∀ j, 2 < j → c3.V j = (fun _ => 0) j) ∧
      c1.I = demoState.I ∧ c3.I = demoState.I :=
  ⟨by decide, by decide,
    block_store_load_round_trip demoState ⟨0, 0⟩ 2 (by decide) (by decide) (fun _ => 0)⟩

/-- Claim C12. BCD `FX33`: for every state with `I + 2 ≤ 0xFFF` and every byte `v` in
`V[X]`, after `RunOp` `memory[I] = v div 100`, `memory[I+1] = (v div 10) mod 10` and
`memory[I+2] = v mod 10`, so each stored byte is a decimal digit and
`100*memory[I] + 10*memory[I+1] + memory[I+2] = v`; no other memory byte, no register and
not `I` changes. -/
theorem bcd_FX33 (c : State) (env : Env) (hwf : c.WF) (X : Nat) (hX : X < 16)
    (hI : c.I + 2 ≤ 0xFFF) :
    ∃ c', c.RunOp env (NewOpCode (0xF0 + X) 0x33) = .ok c' ∧
      c'.memory c.I = c.V X / 100 ∧
      c'.memory (c.I + 1) = (c.V X / 10) % 10 ∧
      c'.memory (c.I + 2) = c.V X % 10 ∧
      (c'.memory c.I ≤ 9 ∧ c'.memory (c.I + 1) ≤ 9 ∧ c'.memory (c.I + 2) ≤ 9) ∧
      100 * c'.memory c.I + 10 * c'.memory (c.I + 1) + c'.memory (c.I + 2) = c.V X ∧
      (∀ a, a ≠ c.I → a ≠ c.I + 1 → a ≠ c.I + 2 → c'.memory a = c.memory a) ∧
      c'.V = c.V ∧ c'.I = c.I := by
  have hv := hwf.V_lt X hX
  have h1 : (c.I + 1) % 65536 = c.I + 1 := by omega
  have h2 : (c.I + 2) % 65536 = c.I + 2 := by omega
  have hrun : c.RunOp env (NewOpCode (0xF0 + X) 0x33)
      = .ok ({ c with memory := upd (upd (upd c.memory c.I (c.V X / 10 / 10)) (c.I + 1)
          (c.V X / 10 % 10)) (c.I + 2) (c.V X % 10) }).next := by
    rw [NewOpCode_nibbles (0xF0 + X) 0x33 0xF X 3 3 hX (by decide) (by omega) rfl,
      RunOp_opF _ _ _ rfl]
    simp [State.opF, getV_ok _ _ hX, bind, Except.bind, pure, Except.pure, State.writeMem, h1, h2,
      show c.I < 4096 by omega, show c.I + 1 < 4096 by omega, show c.I + 2 < 4096 by omega]
  have e0 : (upd (upd (upd c.memory c.I (c.V X / 10 / 10)) (c.I + 1)
      (c.V X / 10 % 10)) (c.I + 2) (c.V X % 10)) c.I = c.V X / 100 := by
    simp [upd]; omega
  have e1 : (upd (upd (upd c.memory c.I (c.V X / 10 / 10)) (c.I + 1)
      (c.V X / 10 % 10)) (c.I + 2) (c.V X % 10)) (c.I + 1) = c.V X / 10 % 10 := by
    simp [upd]
  have e2 : (upd (upd (upd c.memory c.I (c.V X / 10 / 10)) (c.I + 1)
      (c.V X / 10 % 10)) (c.I + 2) (c.V X % 10)) (c.I + 2) = c.V X % 10 := by
    simp [upd]
  refine ⟨_, hrun, e0, e1, e2, ?_, ?_, ?_, rfl, rfl⟩
  · show upd _ _ _ _ ≤ 9 ∧ upd _ _ _ _ ≤ 9 ∧ upd _ _ _ _ ≤ 9
    rw [e0, e1, e2]; omega
  · show 100 * upd _ _ _ _ + 10 * upd _ _ _ _ + upd _ _ _ _ = _
    rw [e0, e1, e2]; omega
  · intro a ha0 ha1 ha2
    show upd _ _ _ _ = _
    simp [upd, ha0, ha1, ha2]

/-- On `demoState` (`V1 = 200`, `I = 0x300`) the conversion `F133`. -/
theorem bcd_FX33_witness :
    demoState.WF ∧ (1 : Nat) < 16 ∧ demoState.I + 2 ≤ 0xFFF ∧
    ∃ c', demoState.RunOp ⟨0, 0⟩ (NewOpCode (0xF0 + 1) 0x33) = .ok c' ∧
      c'.memory demoState.I = demoState.V 1 / 100 ∧
      c'.memory (demoState.I + 1) = (demoState.V 1 / 10) % 10 ∧
      c'.memory (demoState.I + 2) = demoState.V 1 % 10 :=
  ⟨demoState_WF, by decide, by decide,
    (bcd_FX33 demoState ⟨0, 0⟩ demoState_WF 1 (by decide) (by decide)).imp
      fun _ h => ⟨h.1, h.2.1, h.2.2.1, h.2.2.2.1⟩⟩

/-- Claim C13. Address add `FX1E`: for every state with `I ≤ 0xFFF` and every register
index `X` (also `X = 0xF`), with `v` the value of `V[X]` before the instruction, `RunOp`
leaves `I = (I_old + v) mod 4096`, so `I` stays within 12 bits, and `VF = 1` if
`I_old + v > 0xFFF`, else `VF = 0`. -/
theorem address_add_FX1E (c : State) (env : Env) (hwf : c.WF) (X : Nat) (hX : X < 16)
    (hI : c.I ≤ 0xFFF) :
    ∃ c', c.RunOp env (NewOpCode (0xF0 + X) 0x1E) = .ok c' ∧
      c'.I = (c.I + c.V X) % 4096 ∧ c'.I < 4096 ∧
      c'.V 0xF = (if c.I + c.V X > 0xFFF then 1 else 0) := by
  have hv := hwf.V_lt X hX
  have hs : (c.I + c.V X) % 65536 = c.I + c.V X := by omega
  rw [NewOpCode_nibbles (0xF0 + X) 0x1E 0xF X 1 0xE hX (by decide) (by omega) rfl,
    RunOp_opF _ _ _ rfl]
  by_cases h : c.I + c.V X > 0xFFF <;>
    simp [State.opF, getV_ok _ _ hX, bind, Except.bind, pure, Except.pure, hs, and_0x0fff, h,
      State.next, State.setVF, upd] <;> omega

/-- On `demoState` (`V1 = 200`, `I = 0x300`) the address add `F11E`. -/
theorem address_add_FX1E_witness :
    demoState.WF ∧ (1 : Nat) < 16 ∧ demoState.I ≤ 0xFFF ∧
    ∃ c', demoState.RunOp ⟨0, 0⟩ (NewOpCode (0xF0 + 1) 0x1E) = .ok c' ∧
      c'.I = (demoState.I + demoState.V 1) % 4096 ∧ c'.I < 4096 ∧
      c'.V 0xF = (if demoState.I + demoState.V 1 > 0xFFF then 1 else 0) :=
  ⟨demoState_WF, by decide, by decide,
    address_add_FX1E demoState ⟨0, 0⟩ demoState_WF 1 (by decide) (by decide)⟩

/-! ## Decoder and clear screen -/

/-- Claim C17. Instruction decoder: for every pair of bytes `(b0, b1)`, `NewOpCode` returns
`B0 = b0`, `B00 = b0 div 16`, `B01 = b0 mod 16`, `B1 = b1`, `B10 = b1 div 16`,
`B11 = b1 mod 16`, so the four nibble fields are below 16 and reconstruct the bytes; and
`Addr() = 256*B01 + b1`, which is below 4096 and equals the low 12 bits of the 16-bit word
`256*b0 + b1`. -/
theorem instruction_decoder (b0 b1 : Nat) (h0 : b0 < 256) (h1 : b1 < 256) :
    (NewOpCode b0 b1).B0 = b0 ∧ (NewOpCode b0 b1).B00 = b0 / 16 ∧
    (NewOpCode b0 b1).B01 = b0 % 16 ∧ (NewOpCode b0 b1).B1 = b1 ∧
    (NewOpCode b0 b1).B10 = b1 / 16 ∧ (NewOpCode b0 b1).B11 = b1 % 16 ∧
    ((NewOpCode b0 b1).B00 < 16 ∧ (NewOpCode b0 b1).B01 < 16 ∧
      (NewOpCode b0 b1).B10 < 16 ∧ (NewOpCode b0 b1).B11 < 16) ∧
    b0 = 16 * (NewOpCode b0 b1).B00 + (NewOpCode b0 b1).B01 ∧
    b1 = 16 * (NewOpCode b0 b1).B10 + (NewOpCode b0 b1).B11 ∧
    (NewOpCode b0 b1).Addr = 256 * (NewOpCode b0 b1).B01 + b1 ∧
    (NewOpCode b0 b1).Addr < 4096 ∧
    (NewOpCode b0 b1).Addr = (256 * b0 + b1) % 4096 := by
  have hd := NewOpCode_nibbles b0 b1 (b0 / 16) (b0 % 16) (b1 / 16) (b1 % 16) (by omega) (by omega)
    (by omega) (by omega)
  have hA := Addr_nibbles b0 b1 (b0 / 16) (b0 % 16) (b1 / 16) (b1 % 16) (by omega) h1
  rw [hd, hA]
  refine ⟨rfl, rfl, rfl, rfl, rfl, rfl, ⟨?_, ?_, ?_, ?_⟩, ?_, ?_, rfl, ?_, ?_⟩ <;>
    (try simp only) <;> omega

/-- The decoder on the word `0xD125`. -/
theorem instruction_decoder_witness :
    (0xD1 : Nat) < 256 ∧ (0x25 : Nat) < 256 ∧
    (NewOpCode 0xD1 0x25).B00 = 0xD1 / 16 ∧ (NewOpCode 0xD1 0x25).B01 = 0xD1 % 16 ∧
    (NewOpCode 0xD1 0x25).Addr = (256 * 0xD1 + 0x25) % 4096 :=
  ⟨by decide, by decide,
    (instruction_decoder 0xD1 0x25 (by decide) (by decide)).2.1,
    (instruction_decoder 0xD1 0x25 (by decide) (by decide)).2.2.1,
    (instruction_decoder 0xD1 0x25 (by decide) (by decide)).2.2.2.2.2.2.2.2.2.2.2⟩

/-- Claim C18. Clear screen `00E0`: for every state, after `RunOp` all 256 framebuffer
bytes `memory[0xF00..0xFFF]` are zero, and every memory byte below `0xF00`, every register
`V`, `I`, `SP`, both timers, the keyboard latch and the halt flag are unchanged. -/
theorem clear_screen_00E0 (c : State) (env : Env) :
    ∃ c', c.RunOp env (NewOpCode 0x00 0xE0) = .ok c' ∧
      (∀ a, 0xF00 ≤ a → a ≤ 0xFFF → c'.memory a = 0) ∧
      (∀ a, a < 0xF00 → c'.memory a = c.memory a) ∧
      c'.V = c.V ∧ c'.I = c.I ∧ c'.SP = c.SP ∧
      c'.delayTimer = c.delayTimer ∧ c'.soundTimer = c.soundTimer ∧
      c'.keyboard = c.keyboard ∧ c'.halt = c.halt := by
  rw [NewOpCode_nibbles 0x00 0xE0 0 0 0xE 0 (by decide) (by decide) rfl rfl,
    RunOp_op0 _ _ _ rfl]
  refine ⟨_, rfl, ?_, ?_, rfl, rfl, rfl, rfl, rfl, rfl, rfl⟩
  · intro a h1 h2
    show (if 0xF00 ≤ a ∧ a < 0xF00 + 256 then 0 else c.memory a) = 0
    rw [if_pos ⟨h1, by omega⟩]
  · intro a h1
    show (if 0xF00 ≤ a ∧ a < 0xF00 + 256 then 0 else c.memory a) = _
    rw [if_neg (by omega)]

/-! ## Totality of `RunOp` -/

theorem getKey_ok (c : State) (k : Nat) (hk : k < 16) : c.getKey k = .ok (c.keyboard k) := by
  simp [State.getKey, hk]

/-- The outer loop of `opD` returns whenever its sprite rows are inside memory. -/
theorem opD_rows_total (x y n : Nat) :
    ∀ (fuel i : Nat) (c : State), n - i < fuel → c.I + n ≤ 0x1000 →
      ∃ c', State.opD_rows x y n fuel i c = .ok c' := by
  intro fuel
  induction fuel with
  | zero => intro i c h; omega
  | succ fuel ih =>
    intro i c hfuel hI
    by_cases hi : i < n ∧ i + y < 32
    · have hf : n - (i + 1) < fuel := by omega
      obtain ⟨c1, hrun1, hfr1, -⟩ :=
        opD_cols_spec (c.memory (c.I + i)) x (i + y) hi.2 9 x c (le_refl _) (by omega)
      obtain ⟨c', hrun⟩ := ih (i + 1) c1 hf (by rw [hfr1.I_eq]; exact hI)
      refine ⟨c', ?_⟩
      rw [State.opD_rows]
      simp only [hi, and_self, if_true, readMem_ok c (c.I + i) (by omega), bind, Except.bind,
        hrun1]
      exact hrun
    · refine ⟨c, ?_⟩
      rw [State.opD_rows]; simp only [hi, if_false]

theorem op0_total (c : State) (op : OpCode) (hSP : c.SP + 1 < 4096) :
    ∃ c', c.op0 op = .ok c' := by
  unfold State.op0
  have h2 : (c.SP + 1) % 65536 = c.SP + 1 := by omega
  simp only [readMem_ok c c.SP (by omega), h2, readMem_ok c _ hSP, bind, Except.bind, pure,
    Except.pure]
  split_ifs <;> exact ⟨_, rfl⟩

theorem op2_total (c : State) (op : OpCode) (hSP : 2 ≤ c.SP) (hSP' : c.SP ≤ 0x1000) :
    ∃ c', c.op2 op = .ok c' := by
  have h1 : (c.SP + 65536 - 2) % 65536 = c.SP - 2 := by omega
  have h2 : (c.SP - 2 + 1) % 65536 = c.SP - 2 + 1 := by omega
  have h3 : c.SP - 2 < 4096 := by omega
  have h4 : c.SP - 2 + 1 < 4096 := by omega
  unfold State.op2
  simp only [bind, Except.bind, pure, Except.pure]
  rw [h1, writeMem_ok _ _ _ h3]
  simp only [h2]
  rw [writeMem_ok _ _ _ h4]
  exact ⟨_, rfl⟩

theorem op8_total (c : State) (op : OpCode) (hX : op.B01 < 16) (hY : op.B10 < 16)
    (hN : op.B11 < 16) : ∃ c', c.op8 op = .ok c' := by
  obtain ⟨B0, B00, B01, B1, B10, B11⟩ := op
  dsimp only at hX hY hN
  interval_cases B11 <;>
    simp [State.op8, State.getV, State.setV, hX, hY, bind, Except.bind, pure, Except.pure]

theorem opD_total (c : State) (op : OpCode) (hX : op.B01 < 16) (hY : op.B10 < 16)
    (hI : c.I + op.B11 ≤ 0x1000) : ∃ c', c.opD op = .ok c' := by
  obtain ⟨c', hrun⟩ := opD_rows_total (c.V op.B01) (c.V op.B10) op.B11 (op.B11 + 1) 0 (c.setVF 0)
    (by omega) hI
  refine ⟨c'.next, ?_⟩
  simp only [State.opD, getV_ok _ _ hX, getV_ok _ _ hY, bind, Except.bind, hrun, pure,
    Except.pure]

theorem opE_total (c : State) (op : OpCode) (hX : op.B01 < 16)
    (hE : op.B1 = 0x9E ∨ op.B1 = 0xA1 → c.V op.B01 ≤ 15) : ∃ c', c.opE op = .ok c' := by
  unfold State.opE
  dsimp only
  by_cases h1 : op.B1 = 0x9e
  · have hk : c.V op.B01 < 16 := by have := hE (Or.inl h1); omega
    rw [if_pos h1]
    simp only [getV_ok _ _ hX, getKey_ok _ _ hk, bind, Except.bind, pure, Except.pure]
    exact ⟨_, rfl⟩
  · rw [if_neg h1]
    by_cases h2 : op.B1 = 0xa1
    · have hk : c.V op.B01 < 16 := by have := hE (Or.inr h2); omega
      rw [if_pos h2]
      simp only [getV_ok _ _ hX, getKey_ok _ _ hk, bind, Except.bind, pure, Except.pure]
      exact ⟨_, rfl⟩
    · rw [if_neg h2]
      exact ⟨_, rfl⟩

theorem opF_total (c : State) (env : Env) (op : OpCode) (hX : op.B01 < 16)
    (h33 : op.B1 = 0x33 → c.I + 2 ≤ 0xFFF)
    (h55 : op.B1 = 0x55 ∨ op.B1 = 0x65 → c.I + op.B01 ≤ 0xFFF) :
    ∃ c', c.opF env op = .ok c' := by
  unfold State.opF
  dsimp only
  by_cases h07 : op.B1 = 0x07
  · rw [if_pos h07]
    simp only [setV_ok _ _ _ hX, bind, Except.bind, pure, Except.pure]
    exact ⟨_, rfl⟩
  rw [if_neg h07]
  by_cases h0a : op.B1 = 0x0a
  · rw [if_pos h0a]
    simp only [setV_ok _ _ _ hX, bind, Except.bind, pure, Except.pure]
    exact ⟨_, rfl⟩
  rw [if_neg h0a]
  by_cases h15 : op.B1 = 0x15
  · rw [if_pos h15]
    simp only [getV_ok _ _ hX, bind, Except.bind, pure, Except.pure]
    exact ⟨_, rfl⟩
  rw [if_neg h15]
  by_cases h18 : op.B1 = 0x18
  · rw [if_pos h18]
    simp only [getV_ok _ _ hX, bind, Except.bind, pure, Except.pure]
    exact ⟨_, rfl⟩
  rw [if_neg h18]
  by_cases h1e : op.B1 = 0x1e
  · rw [if_pos h1e]
    simp only [getV_ok _ _ hX, bind, Except.bind, pure, Except.pure]
    exact ⟨_, rfl⟩
  rw [if_neg h1e]
  by_cases h29 : op.B1 = 0x29
  · rw [if_pos h29]
    simp only [getV_ok _ _ hX, bind, Except.bind, pure, Except.pure]
    exact ⟨_, rfl⟩
  rw [if_neg h29]
  by_cases h33' : op.B1 = 0x33
  · rw [if_pos h33']
    have hI := h33 h33'
    have e1 : (c.I + 1) % 65536 = c.I + 1 := by omega
    have e2 : (c.I + 2) % 65536 = c.I + 2 := by omega
    simp [getV_ok _ _ hX, bind, Except.bind, pure, Except.pure, State.writeMem, e1, e2,
      show c.I < 4096 by omega, show c.I + 1 < 4096 by omega, show c.I + 2 < 4096 by omega]
  rw [if_neg h33']
  by_cases h55' : op.B1 = 0x55
  · rw [if_pos h55']
    have hI := h55 (Or.inl h55')
    have hk : (op.B01 + 1) % 256 = op.B01 + 1 := by omega
    obtain ⟨c', hrun, -⟩ := opF_store_spec (op.B01 + 1) 0 c (by omega)
    rw [hk, if_pos (by omega)]
    simp only [hrun, bind, Except.bind, pure, Except.pure]
    exact ⟨_, rfl⟩
  rw [if_neg h55']
  by_cases h65' : op.B1 = 0x65
  · rw [if_pos h65']
    have hI := h55 (Or.inr h65')
    have hk : (op.B01 + 1) % 256 = op.B01 + 1 := by omega
    obtain ⟨c', hrun, -⟩ := opF_load_spec (op.B01 + 1) 0 c (by omega)
    rw [hk, if_pos (by omega)]
    simp only [hrun, bind, Except.bind, pure, Except.pure]
    exact ⟨_, rfl⟩
  rw [if_neg h65']
  exact ⟨_, rfl⟩

/-- Nibble bounds of a decoded word. -/
theorem NewOpCode_bounds (b0 b1 : Nat) (h1 : b1 < 256) :
    (NewOpCode b0 b1).B01 < 16 ∧ (NewOpCode b0 b1).B10 < 16 ∧ (NewOpCode b0 b1).B11 < 16 := by
  simp only [NewOpCode, shiftRight_four, and_0x0f]
  omega

/-- `RunOp` returns whenever the stack bytes, the bytes addressed through `I` and the key
index it uses are in range. -/
theorem RunOp_total (c : State) (env : Env) (op : OpCode) (hX : op.B01 < 16)
    (hY : op.B10 < 16) (hN : op.B11 < 16) (hSP : 2 ≤ c.SP) (hSP' : c.SP ≤ 0xEFE)
    (h33 : op.B00 = 0xF → op.B1 = 0x33 → c.I + 2 ≤ 0xFFF)
    (h55 : op.B00 = 0xF → op.B1 = 0x55 ∨ op.B1 = 0x65 → c.I + op.B01 ≤ 0xFFF)
    (hD : op.B00 = 0xD → c.I + op.B11 ≤ 0x1000)
    (hE : op.B00 = 0xE → op.B1 = 0x9E ∨ op.B1 = 0xA1 → c.V op.B01 ≤ 15) :
    ∃ c', c.RunOp env op = .ok c' := by
  unfold State.RunOp
  by_cases k0 : op.B00 = 0x00
  · rw [if_pos k0]; exact op0_total c op (by omega)
  rw [if_neg k0]
  by_cases k1 : op.B00 = 0x01
  · rw [if_pos k1]; exact ⟨_, rfl⟩
  rw [if_neg k1]
  by_cases k2 : op.B00 = 0x02
  · rw [if_pos k2]; exact op2_total c op hSP (by omega)
  rw [if_neg k2]
  by_cases k3 : op.B00 = 0x03
  · rw [if_pos k3]
    simp only [State.op3, getV_ok _ _ hX, bind, Except.bind, pure, Except.pure]
    exact ⟨_, rfl⟩
  rw [if_neg k3]
  by_cases k4 : op.B00 = 0x04
  · rw [if_pos k4]
    simp only [State.op4, getV_ok _ _ hX, bind, Except.bind, pure, Except.pure]
    exact ⟨_, rfl⟩
  rw [if_neg k4]
  by_cases k5 : op.B00 = 0x05
  · rw [if_pos k5]
    simp only [State.op5, getV_ok _ _ hX, getV_ok _ _ hY, bind, Except.bind, pure, Except.pure]
    exact ⟨_, rfl⟩
  rw [if_neg k5]
  by_cases k6 : op.B00 = 0x06
  · rw [if_pos k6]
    simp only [State.op6, setV_ok _ _ _ hX, bind, Except.bind, pure, Except.pure]
    exact ⟨_, rfl⟩
  rw [if_neg k6]
  by_cases k7 : op.B00 = 0x07
  · rw [if_pos k7]
    simp only [State.op7, getV_ok _ _ hX, setV_ok _ _ _ hX, bind, Except.bind, pure,
      Except.pure]
    exact ⟨_, rfl⟩
  rw [if_neg k7]
  by_cases k8 : op.B00 = 0x08
  · rw [if_pos k8]; exact op8_total c op hX hY hN
  rw [if_neg k8]
  by_cases k9 : op.B00 = 0x09
  · rw [if_pos k9]
    simp only [State.op9, getV_ok _ _ hX, getV_ok _ _ hY, bind, Except.bind, pure, Except.pure]
    exact ⟨_, rfl⟩
  rw [if_neg k9]
  by_cases kA : op.B00 = 0x0a
  · rw [if_pos kA]; exact ⟨_, rfl⟩
  rw [if_neg kA]
  by_cases kB : op.B00 = 0x0b
  · rw [if_pos kB]; exact ⟨_, rfl⟩
  rw [if_neg kB]
  by_cases kC : op.B00 = 0x0c
  · rw [if_pos kC]
    simp only [State.opC, setV_ok _ _ _ hX, bind, Except.bind, pure, Except.pure]
    exact ⟨_, rfl⟩
  rw [if_neg kC]
  by_cases kD : op.B00 = 0x0d
  · rw [if_pos kD]; exact opD_total c op hX hY (hD kD)
  rw [if_neg kD]
  by_cases kE : op.B00 = 0x0e
  · rw [if_pos kE]; exact opE_total c op hX (hE kE)
  rw [if_neg kE]
  by_cases kF : op.B00 = 0x0f
  · rw [if_pos kF]; exact opF_total c env op hX (h33 kF) (h55 kF)
  rw [if_neg kF]
  exact ⟨_, rfl⟩

theorem stateIAtEnd_WF : stateIAtEnd.WF :=
  ⟨fun _ _ => Nat.zero_lt_succ _, fun _ _ => Nat.zero_lt_succ _, by decide, by decide,
    by decide, by decide, by decide⟩

/-! ## Program counter advance, unimplemented opcodes, bounds -/

/-- Claim C14 at its failing input: on `demoState` (`PC = 0x200 < 0xFFF`) the clear screen
`00E0` completes and leaves `PC = old PC + 4`, not `old PC + 2`: case `0xe0` of `op0` calls
`next` and the `next` shared by all cases after the `switch` runs as well. -/
theorem clear_screen_advances_by_four :
    demoState.PC < 0xFFF ∧
    ∃ c', demoState.RunOp ⟨0, 0⟩ (NewOpCode 0x00 0xE0) = .ok c' ∧
      c'.PC = demoState.PC + 4 ∧ c'.PC ≠ demoState.PC + 2 :=
  ⟨by decide, _, rfl, by decide, by decide⟩

/-- Claim C15, as the code has it. Unimplemented opcodes: for every state and every
instruction word that matches no handler (`00NN` with `NN` not in `{E0, EE}`; `8XY_` with
low nibble not in `{0..7, E}`; `EXNN` with `NN` not in `{9E, A1}`; `FXNN` with `NN` not in
`{07, 0A, 15, 18, 1E, 29, 33, 55, 65}`), `RunOp` sets the halt flag, advances `PC` by 2
(mod 65536) and leaves every other component of the state unchanged: the result is the old
state with only `halt` and `PC` replaced. -/
theorem unimplemented_halts_and_advances (c : State) (env : Env) :
    (∀ NN, NN < 256 → NN ≠ 0xE0 → NN ≠ 0xEE →
      c.RunOp env (NewOpCode 0x00 NN) = .ok { c with halt := true, PC := (c.PC + 2) % 65536 }) ∧
    (∀ X Y N, X < 16 → Y < 16 → N < 16 →
      N ≠ 0 → N ≠ 1 → N ≠ 2 → N ≠ 3 → N ≠ 4 → N ≠ 5 → N ≠ 6 → N ≠ 7 → N ≠ 0xE →
      c.RunOp env (NewOpCode (0x80 + X) (16 * Y + N))
        = .ok { c with halt := true, PC := (c.PC + 2) % 65536 }) ∧
    (∀ X NN, X < 16 → NN < 256 → NN ≠ 0x9E → NN ≠ 0xA1 →
      c.RunOp env (NewOpCode (0xE0 + X) NN)
        = .ok { c with halt := true, PC := (c.PC + 2) % 65536 }) ∧
    (∀ X NN, X < 16 → NN < 256 →
      NN ≠ 0x07 → NN ≠ 0x0A → NN ≠ 0x15 → NN ≠ 0x18 → NN ≠ 0x1E → NN ≠ 0x29 → NN ≠ 0x33 →
      NN ≠ 0x55 → NN ≠ 0x65 →
      c.RunOp env (NewOpCode (0xF0 + X) NN)
        = .ok { c with halt := true, PC := (c.PC + 2) % 65536 }) := by
  refine ⟨?_, ?_, ?_, ?_⟩
  · intro NN hNN h1 h2
    rw [NewOpCode_nibbles 0x00 NN 0 0 (NN / 16) (NN % 16) (by decide) (by omega) rfl (by omega)]
    simp [State.RunOp, State.op0, h1, h2, bind, Except.bind, pure, Except.pure,
      State.notImplemented, State.next]
  · intro X Y N hX hY hN n0 n1 n2 n3 n4 n5 n6 n7 nE
    rw [NewOpCode_nibbles (0x80 + X) (16 * Y + N) 8 X Y N hX hN (by omega) rfl]
    simp [State.RunOp, State.op8, n0, n1, n2, n3, n4, n5, n6, n7, nE, bind, Except.bind, pure,
      Except.pure, State.notImplemented, State.next]
  · intro X NN hX hNN h1 h2
    rw [NewOpCode_nibbles (0xE0 + X) NN 0xE X (NN / 16) (NN % 16) hX (by omega) (by omega)
      (by omega)]
    simp [State.RunOp, State.opE, h1, h2, bind, Except.bind, pure, Except.pure,
      State.notImplemented, State.next]
  · intro X NN hX hNN h1 h2 h3 h4 h5 h6 h7 h8 h9
    rw [NewOpCode_nibbles (0xF0 + X) NN 0xF X (NN / 16) (NN % 16) hX (by omega) (by omega)
      (by omega)]
    simp [State.RunOp, State.opF, h1, h2, h3, h4, h5, h6, h7, h8, h9, bind, Except.bind, pure,
      Except.pure, State.notImplemented, State.next]

/-- On `demoState` the unimplemented words `0001`, `8128`, `E100` and `F100`. -/
theorem unimplemented_halts_and_advances_witness :
    demoState.RunOp ⟨0, 0⟩ (NewOpCode 0x00 0x01)
      = .ok { demoState with halt := true, PC := (demoState.PC + 2) % 65536 } ∧
    demoState.RunOp ⟨0, 0⟩ (NewOpCode (0x80 + 1) (16 * 2 + 8))
      = .ok { demoState with halt := true, PC := (demoState.PC + 2) % 65536 } ∧
    demoState.RunOp ⟨0, 0⟩ (NewOpCode (0xE0 + 1) 0x00)
      = .ok { demoState with halt := true, PC := (demoState.PC + 2) % 65536 } ∧
    demoState.RunOp ⟨0, 0⟩ (NewOpCode (0xF0 + 1) 0x00)
      = .ok { demoState with halt := true, PC := (demoState.PC + 2) % 65536 } :=
  ⟨(unimplemented_halts_and_advances demoState ⟨0, 0⟩).1 0x01 (by decide) (by decide)
      (by decide),
    (unimplemented_halts_and_advances demoState ⟨0, 0⟩).2.1 1 2 8 (by decide) (by decide)
      (by decide) (by decide) (by decide) (by decide) (by decide) (by decide) (by decide)
      (by decide) (by decide) (by decide),
    (unimplemented_halts_and_advances demoState ⟨0, 0⟩).2.2.1 1 0x00 (by decide) (by decide)
      (by decide) (by decide),
    (unimplemented_halts_and_advances demoState ⟨0, 0⟩).2.2.2 1 0x00 (by decide) (by decide)
      (by decide) (by decide) (by decide) (by decide) (by decide) (by decide) (by decide)
      (by decide) (by decide)⟩

/-- Claim C15 as stated fails: on `demoState` the unimplemented word `0001` sets the halt
flag and also moves `PC` from `0x200` to `0x202`. -/
theorem unimplemented_moves_pc :
    (0x01 : Nat) ≠ 0xE0 ∧ (0x01 : Nat) ≠ 0xEE ∧
    ∃ c', demoState.RunOp ⟨0, 0⟩ (NewOpCode 0x00 0x01) = .ok c' ∧
      c'.halt = true ∧ c'.PC = 0x202 ∧ c'.PC ≠ demoState.PC :=
  ⟨by decide, by decide, _, rfl, rfl, by decide, by decide⟩

/-- Claim C16, as the code has it. No out-of-range access: for every state with
`I ≤ 0xFFF` and `2 ≤ SP ≤ 0xEFE` and every 2-byte instruction word other than the blocking
key read `FX0A`, `RunOp` returns a state (no index is out of range) provided the bytes the
instruction addresses through `I` lie inside memory (`I + 2 ≤ 0xFFF` for `FX33`,
`I + X ≤ 0xFFF` for `FX55` and `FX65`, `I + N ≤ 0x1000` for `DXYN`) and, for the key skips
`EX9E` and `EXA1`, `V[X] ≤ 15`. -/
theorem no_out_of_range_access (c : State) (env : Env) (b0 b1 : Nat)
    (h0 : b0 < 256) (h1 : b1 < 256) (hI : c.I ≤ 0xFFF) (hSP : 2 ≤ c.SP) (hSP' : c.SP ≤ 0xEFE)
    (hkey : ¬ (b0 / 16 = 0xF ∧ b1 = 0x0A))
    (h33 : b0 / 16 = 0xF → b1 = 0x33 → c.I + 2 ≤ 0xFFF)
    (h55 : b0 / 16 = 0xF → b1 = 0x55 ∨ b1 = 0x65 → c.I + b0 % 16 ≤ 0xFFF)
    (hD : b0 / 16 = 0xD → c.I + b1 % 16 ≤ 0x1000)
    (hE : b0 / 16 = 0xE → b1 = 0x9E ∨ b1 = 0xA1 → c.V (b0 % 16) ≤ 15) :
    ∃ c', c.RunOp env (NewOpCode b0 b1) = .ok c' := by
  have hb := h0
  have hi := hI
  have hk := hkey
  obtain ⟨hX, hY, hN⟩ := NewOpCode_bounds b0 b1 h1
  refine RunOp_total c env (NewOpCode b0 b1) hX hY hN hSP hSP' ?_ ?_ ?_ ?_ <;>
    simp only [NewOpCode, shiftRight_four, and_0x0f]
  · exact h33
  · exact h55
  · exact hD
  · exact hE

/-- On `demoState` (`I = 0x300`, `SP = 0xEFE`) the word `F133` returns. -/
theorem no_out_of_range_access_witness :
    (0xF1 : Nat) < 256 ∧ (0x33 : Nat) < 256 ∧ demoState.I ≤ 0xFFF ∧ 2 ≤ demoState.SP ∧
    demoState.SP ≤ 0xEFE ∧ demoState.I + 2 ≤ 0xFFF ∧
    ∃ c', demoState.RunOp ⟨0, 0⟩ (NewOpCode 0xF1 0x33) = .ok c' :=
  ⟨by decide, by decide, by decide, by decide, by decide, by decide,
    no_out_of_range_access demoState ⟨0, 0⟩ 0xF1 0x33 (by decide) (by decide) (by decide)
      (by decide) (by decide) (by decide) (by decide) (by decide) (by decide) (by decide)⟩

/-- Claim C16 as stated fails: in `stateIAtEnd` (`I = 0xFFF`, `SP = 0xEFE`) the BCD store
`F033` indexes `memory[0x1000]` and `RunOp` fails with an out-of-bounds access. -/
theorem bcd_at_last_byte_is_out_of_range :
    stateIAtEnd.WF ∧ stateIAtEnd.I ≤ 0xFFF ∧ 2 ≤ stateIAtEnd.SP ∧ stateIAtEnd.SP ≤ 0xEFE ∧
    stateIAtEnd.RunOp ⟨0, 0⟩ (NewOpCode 0xF0 0x33) = .error .outOfBounds :=
  ⟨stateIAtEnd_WF, by decide, by decide, by decide, rfl⟩

/-! ## Timers and program-counter parity -/

/-- Claim C19. Timers never increase outside `FX15`/`FX18`: the timer tick maps each timer
`t` to `t - 1` when `t > 0` and to 0 when `t = 0`; `FX15` sets the delay timer to `V[X]`
(sound timer unchanged) and `FX18` sets the sound timer to `V[X]` (delay timer unchanged);
and every other instruction, and every key event, leaves both timers unchanged whenever it
returns. -/
theorem timers_change_only_by_tick_FX15_FX18 (c : State) (env : Env) (hwf : c.WF) :
    (c.timerTick.delayTimer = (if c.delayTimer > 0 then c.delayTimer - 1 else 0) ∧
      c.timerTick.soundTimer = (if c.soundTimer > 0 then c.soundTimer - 1 else 0)) ∧
    (∀ X, X < 16 → ∃ c', c.RunOp env (NewOpCode (0xF0 + X) 0x15) = .ok c' ∧
      c'.delayTimer = c.V X ∧ c'.soundTimer = c.soundTimer) ∧
    (∀ X, X < 16 → ∃ c', c.RunOp env (NewOpCode (0xF0 + X) 0x18) = .ok c' ∧
      c'.soundTimer = c.V X ∧ c'.delayTimer = c.delayTimer) ∧
    (∀ b0 b1 c', b0 < 256 → b1 < 256 → ¬ (b0 / 16 = 0xF ∧ (b1 = 0x15 ∨ b1 = 0x18)) →
      c.RunOp env (NewOpCode b0 b1) = .ok c' →
      c'.delayTimer = c.delayTimer ∧ c'.soundTimer = c.soundTimer) ∧
    (∀ e c', c.recvKey e = .ok c' →
      c'.delayTimer = c.delayTimer ∧ c'.soundTimer = c.soundTimer) := by
  have hd := hwf.delayTimer_lt
  have hs := hwf.soundTimer_lt
  refine ⟨⟨?_, ?_⟩, ?_, ?_, ?_, ?_⟩
  · unfold State.timerTick
    by_cases h1 : c.delayTimer > 0 <;> by_cases h2 : c.soundTimer > 0 <;>
      simp [h1, h2] <;> omega
  · unfold State.timerTick
    by_cases h1 : c.delayTimer > 0 <;> by_cases h2 : c.soundTimer > 0 <;>
      simp [h1, h2] <;> omega
  · intro X hX
    rw [NewOpCode_nibbles (0xF0 + X) 0x15 0xF X 1 5 hX (by decide) (by omega) rfl,
      RunOp_opF _ _ _ rfl]
    simp [State.opF, getV_ok _ _ hX, bind, Except.bind, pure, Except.pure, State.next]
  · intro X hX
    rw [NewOpCode_nibbles (0xF0 + X) 0x18 0xF X 1 8 hX (by decide) (by omega) rfl,
      RunOp_opF _ _ _ rfl]
    simp [State.opF, getV_ok _ _ hX, bind, Except.bind, pure, Except.pure, State.next]
  · intro b0 b1 c' _ h1 hne h
    obtain ⟨hX, hY, hN⟩ := NewOpCode_bounds b0 b1 h1
    obtain ⟨e1, e2, -, -⟩ := RunOp_effect c c' env (NewOpCode b0 b1) hX hY hN h
    simp only [NewOpCode, shiftRight_four] at e1 e2
    exact ⟨e1 (fun hh => hne ⟨hh.1, Or.inl hh.2⟩), e2 (fun hh => hne ⟨hh.1, Or.inr hh.2⟩)⟩
  · intro e c' h
    unfold State.recvKey at h
    split_ifs at h
    obtain rfl := Except.ok.inj h
    exact ⟨rfl, rfl⟩

/-- On `demoState`: the tick, `F115`, and the word `6005`. -/
theorem timers_change_only_by_tick_FX15_FX18_witness :
    demoState.WF ∧
    demoState.timerTick.delayTimer
      = (if demoState.delayTimer > 0 then demoState.delayTimer - 1 else 0) ∧
    (∃ c', demoState.RunOp ⟨0, 0⟩ (NewOpCode (0xF0 + 1) 0x15) = .ok c' ∧
      c'.delayTimer = demoState.V 1 ∧ c'.soundTimer = demoState.soundTimer) :=
  ⟨demoState_WF,
    (timers_change_only_by_tick_FX15_FX18 demoState ⟨0, 0⟩ demoState_WF).1.1,
    (timers_change_only_by_tick_FX15_FX18 demoState ⟨0, 0⟩ demoState_WF).2.1 1 (by decide)⟩

theorem RunOp_op1 (c : State) (env : Env) (op : OpCode) (h : op.B00 = 0x1) :
    c.RunOp env op = c.op1 op := by
  simp [State.RunOp, h]

theorem RunOp_opB (c : State) (env : Env) (op : OpCode) (h : op.B00 = 0xB) :
    c.RunOp env op = c.opB op := by
  simp [State.RunOp, h]

/-- Where the jump, the call, the indexed jump and the return leave the program counter,
whenever they return. -/
theorem RunOp_target (c c' : State) (env : Env) (op : OpCode)
    (h : c.RunOp env op = .ok c') :
    (op.B00 = 0x1 ∨ op.B00 = 0x2 → c'.PC = op.Addr) ∧
    (op.B00 = 0xB → c'.PC = (c.V 0x00 + op.Addr) % 65536) ∧
    (op.B00 = 0x0 ∧ op.B01 = 0x0 ∧ op.B1 = 0xEE →
      c.SP < 4096 ∧ (c.SP + 1) % 65536 < 4096 ∧
      c'.PC = ((((c.memory c.SP) <<< 8) % 65536 ||| c.memory ((c.SP + 1) % 65536)) + 2)
        % 65536) := by
  refine ⟨?_, ?_, ?_⟩
  · rintro (k | k)
    · rw [RunOp_op1 _ _ _ k] at h
      unfold State.op1 at h
      obtain rfl := Except.ok.inj h
      rfl
    · rw [RunOp_op2 _ _ _ k] at h
      unfold State.op2 at h
      obtain ⟨c1, hc1, h⟩ := bind_eq_ok _ _ _ h
      obtain ⟨c2, hc2, h⟩ := bind_eq_ok _ _ _ h
      obtain rfl := Except.ok.inj h
      rfl
  · intro k
    rw [RunOp_opB _ _ _ k] at h
    unfold State.opB at h
    obtain rfl := Except.ok.inj h
    rfl
  · rintro ⟨k, kx, kb⟩
    rw [RunOp_op0 _ _ _ k] at h
    unfold State.op0 at h
    rw [if_neg (by simp [kx])] at h
    dsimp only at h
    rw [if_neg (by rw [kb]; decide), if_pos kb] at h
    obtain ⟨hi, hhi, h⟩ := bind_eq_ok _ _ _ h
    obtain ⟨lo, hlo, h⟩ := bind_eq_ok _ _ _ h
    obtain ⟨h1, rfl⟩ := readMem_eq_ok _ _ _ hhi
    obtain ⟨h2, rfl⟩ := readMem_eq_ok _ _ _ hlo
    obtain rfl := Except.ok.inj h
    exact ⟨h1, h2, rfl⟩

/-- Claim C20, as the code has it. PC stays even when the target is even: for every
well-formed state whose `PC` is even and every 2-byte instruction word, the `PC` after
`RunOp`, whenever it returns, is even, provided that `NNN` is even for a jump `1NNN` and a
call `2NNN`, that `V0 + NNN` is even for an indexed jump `BNNN`, and that the stacked low
byte `memory[SP + 1]` is even for the return `00EE`; the last holds after a call made at an
even `PC`: a call `2NNN` followed by `00EE` returns to an even `PC`. -/
theorem pc_stays_even_for_even_targets (c : State) (env : Env) (hwf : c.WF)
    (hpc : c.PC % 2 = 0) :
    (∀ b0 b1 c', b0 < 256 → b1 < 256 →
      (b0 / 16 = 0x1 ∨ b0 / 16 = 0x2 → (NewOpCode b0 b1).Addr % 2 = 0) →
      (b0 / 16 = 0xB → (c.V 0x0 + (NewOpCode b0 b1).Addr) % 2 = 0) →
      (b0 = 0x00 ∧ b1 = 0xEE → c.memory (c.SP + 1) % 2 = 0) →
      c.RunOp env (NewOpCode b0 b1) = .ok c' → c'.PC % 2 = 0) ∧
    (∀ NNN, NNN < 4096 → 2 ≤ c.SP → c.SP ≤ 0x1000 →
      ∃ c1 c2, c.RunOp env (NewOpCode (0x20 + NNN / 256) (NNN % 256)) = .ok c1 ∧
        c1.RunOp env (NewOpCode 0x00 0xEE) = .ok c2 ∧ c2.PC % 2 = 0) := by
  constructor
  · intro b0 b1 c' h0 h1 hJ hB hR h
    obtain ⟨hX, hY, hN⟩ := NewOpCode_bounds b0 b1 h1
    obtain ⟨t1, t2, t3⟩ := RunOp_target c c' env (NewOpCode b0 b1) h
    have e00 : (NewOpCode b0 b1).B00 = b0 / 16 := by simp only [NewOpCode, shiftRight_four]
    have e01 : (NewOpCode b0 b1).B01 = b0 % 16 := by simp only [NewOpCode, and_0x0f]
    have e1 : (NewOpCode b0 b1).B1 = b1 := rfl
    rw [e00] at t1 t2
    rw [e00, e01, e1] at t3
    by_cases kJ : b0 / 16 = 0x1 ∨ b0 / 16 = 0x2
    · rw [t1 kJ]; exact hJ kJ
    by_cases kB : b0 / 16 = 0xB
    · rw [t2 kB]
      have := hB kB
      omega
    by_cases kR : b0 = 0x00 ∧ b1 = 0xEE
    · obtain ⟨s1, s2, e⟩ := t3 ⟨by omega, by omega, kR.2⟩
      have hsp : (c.SP + 1) % 65536 = c.SP + 1 := by have := hwf.SP_lt; omega
      rw [hsp] at s2 e
      have hlo := hR kR
      rw [e, shl8_or _ _ (hwf.memory_lt _ s1) (hwf.memory_lt _ s2)]
      omega
    · obtain ⟨-, -, -, e⟩ := RunOp_effect c c' env (NewOpCode b0 b1) hX hY hN h
      rw [e00, e01, e1] at e
      have hstep := e (by omega) (by omega) kB (fun hh => kR ⟨by omega, hh.2.2⟩)
      rcases hstep with h | h | h <;> rw [h] <;> omega
  · intro NNN hN hSP hSP'
    have hpcl := hwf.PC_lt
    refine ⟨_, _, RunOp_call c env NNN hN hpcl hSP hSP', RunOp_return _ env ?_ ?_ ?_, ?_⟩
    · show c.SP - 2 + 1 < 4096
      omega
    · show upd _ _ _ _ < 256
      simp only [upd]; split_ifs <;> omega
    · show upd _ _ _ _ < 256
      simp only [upd]; split_ifs <;> omega
    · show (256 * upd _ _ _ _ + upd _ _ _ _ + 2) % 65536 % 2 = 0
      simp [upd]
      omega

/-- On `demoState` (`PC = 0x200`): the jump `1300` to an even address, and the call `2300`
followed by the return `00EE`. -/
theorem pc_stays_even_for_even_targets_witness :
    demoState.WF ∧ demoState.PC % 2 = 0 ∧
    (∃ c', demoState.RunOp ⟨0, 0⟩ (NewOpCode 0x13 0x00) = .ok c' ∧ c'.PC % 2 = 0) ∧
    (∃ c1 c2, demoState.RunOp ⟨0, 0⟩ (NewOpCode (0x20 + 0x300 / 256) (0x300 % 256)) = .ok c1 ∧
      c1.RunOp ⟨0, 0⟩ (NewOpCode 0x00 0xEE) = .ok c2 ∧ c2.PC % 2 = 0) :=
  ⟨demoState_WF, by decide,
    ⟨_, rfl, (pc_stays_even_for_even_targets demoState ⟨0, 0⟩ demoState_WF (by decide)).1
      0x13 0x00 _ (by decide) (by decide) (by decide) (by decide) (by decide) rfl⟩,
    (pc_stays_even_for_even_targets demoState ⟨0, 0⟩ demoState_WF (by decide)).2
      0x300 (by decide) (by decide) (by decide)⟩

/-- Claim C20 as stated fails: on `demoState` (`PC = 0x200`, even) the jump `1201` leaves
`PC = 0x201`, which is odd. -/
theorem jump_to_odd_address :
    demoState.PC % 2 = 0 ∧
    ∃ c', demoState.RunOp ⟨0, 0⟩ (NewOpCode 0x12 0x01) = .ok c' ∧
      c'.PC = 0x201 ∧ c'.PC % 2 = 1 :=
  ⟨by decide, _, rfl, by decide, by decide⟩

/-! ## Which memory an instruction writes, whenever it returns -/

/-- Whenever the inner loop of `opD` returns, it has written nothing below the
framebuffer. -/
theorem opD_cols_low (sprite x row : Nat) :
    ∀ (fuel j : Nat) (c c' : State), State.opD_cols sprite x row fuel j c = .ok c' →
      ∀ a, a < 0xF00 → c'.memory a = c.memory a := by
  intro fuel
  induction fuel with
  | zero => intro j c c' h; simp [State.opD_cols] at h
  | succ fuel ih =>
    intro j c c' h a ha
    rw [State.opD_cols] at h
    dsimp only at h
    by_cases h1 : j < x + 8 ∧ j < 64
    · rw [if_pos h1] at h
      by_cases h2 : sprite >>> (x + 7 - j) &&& 1 = 0
      · rw [if_pos h2] at h
        exact ih _ _ _ h a ha
      · rw [if_neg h2] at h
        obtain ⟨b, -, h⟩ := bind_eq_ok _ _ _ h
        obtain ⟨c1, hc1, h⟩ := bind_eq_ok _ _ _ h
        obtain ⟨-, rfl⟩ := writeMem_eq_ok _ _ _ _ hc1
        rw [ih _ _ _ h a ha]
        have hne : a ≠ screenAddress + (row * 8 + j / 8) := by
          simp only [screenAddress]; omega
        simp only [upd, if_neg hne]
        split_ifs <;> rfl
    · rw [if_neg h1] at h
      obtain rfl := Except.ok.inj h
      rfl

theorem opD_rows_low (x y n : Nat) :
    ∀ (fuel i : Nat) (c c' : State), State.opD_rows x y n fuel i c = .ok c' →
      ∀ a, a < 0xF00 → c'.memory a = c.memory a := by
  intro fuel
  induction fuel with
  | zero => intro j c c' h; simp [State.opD_rows] at h
  | succ fuel ih =>
    intro i c c' h a ha
    rw [State.opD_rows] at h
    split_ifs at h with h1
    · obtain ⟨b, hb, h⟩ := bind_eq_ok _ _ _ h
      obtain ⟨c1, hc1, h⟩ := bind_eq_ok _ _ _ h
      rw [ih _ _ _ h a ha]
      exact opD_cols_low _ _ _ _ _ _ _ hc1 a ha
    · obtain rfl := Except.ok.inj h
      rfl

/-- Whenever the store loop of `FX55` returns, it has written nothing below `I + i`. -/
theorem opF_store_low : ∀ (k i : Nat) (c c' : State), State.opF_store k i c = .ok c' →
    c.I < 65536 → c.I + i + k ≤ 65536 → ∀ a, a < c.I + i → c'.memory a = c.memory a := by
  intro k
  induction k with
  | zero => intro i c c' h _ _ a _; obtain rfl := Except.ok.inj h; rfl
  | succ k ih =>
    intro i c c' h hI hk a ha
    rw [State.opF_store] at h
    obtain ⟨c1, hc1, h⟩ := bind_eq_ok _ _ _ h
    obtain ⟨-, rfl⟩ := writeMem_eq_ok _ _ _ _ hc1
    have h3 := ih _ _ _ h hI (by show c.I + (i + 1) + k ≤ _; omega) a (by show a < c.I + (i + 1); omega)
    rw [h3]
    have hm : (c.I + i) % 65536 = c.I + i := by omega
    show upd c.memory _ _ a = _
    simp only [upd, hm, if_neg (show a ≠ c.I + i by omega)]

/-- A store loop that returns after at least one iteration made its first write inside
memory. -/
theorem opF_store_first (k i : Nat) (c c' : State)
    (h : State.opF_store (k + 1) i c = .ok c') : (c.I + i) % 65536 < 4096 := by
  rw [State.opF_store] at h
  obtain ⟨c1, hc1, -⟩ := bind_eq_ok _ _ _ h
  exact (writeMem_eq_ok _ _ _ _ hc1).1

theorem opF_load_memory : ∀ (k i : Nat) (c c' : State), State.opF_load k i c = .ok c' →
    c'.memory = c.memory := by
  intro k
  induction k with
  | zero => intro i c c' h; obtain rfl := Except.ok.inj h; rfl
  | succ k ih =>
    intro i c c' h
    rw [State.opF_load] at h
    obtain ⟨v, hv, h⟩ := bind_eq_ok _ _ _ h
    have h3 := ih _ _ _ h
    exact h3

theorem op0_low (c c' : State) (op : OpCode) (h : c.op0 op = .ok c') :
    ∀ a, a < 0xF00 → c'.memory a = c.memory a := by
  intro a ha
  unfold State.op0 at h
  by_cases h1 : op.B01 ≠ 0x0
  · rw [if_pos h1] at h
    obtain rfl := Except.ok.inj h
    rfl
  · rw [if_neg h1] at h
    dsimp only at h
    by_cases h2 : op.B1 = 0xe0
    · rw [if_pos h2] at h
      obtain rfl := Except.ok.inj h
      show (if 0xF00 ≤ a ∧ a < 0xF00 + 256 then 0 else c.memory a) = _
      rw [if_neg (by omega)]
    · rw [if_neg h2] at h
      by_cases h3 : op.B1 = 0xee
      · rw [if_pos h3] at h
        obtain ⟨hi, -, h⟩ := bind_eq_ok _ _ _ h
        obtain ⟨lo, -, h⟩ := bind_eq_ok _ _ _ h
        obtain rfl := Except.ok.inj h
        rfl
      · rw [if_neg h3] at h
        obtain rfl := Except.ok.inj h
        rfl

theorem op2_low (c c' : State) (op : OpCode) (hSP : c.SP < 65536) (h : c.op2 op = .ok c') :
    ∀ a, a + 2 < c.SP → c'.memory a = c.memory a := by
  intro a ha
  unfold State.op2 at h
  obtain ⟨c1, hc1, h⟩ := bind_eq_ok _ _ _ h
  obtain ⟨c2, hc2, h⟩ := bind_eq_ok _ _ _ h
  obtain ⟨-, rfl⟩ := writeMem_eq_ok _ _ _ _ hc1
  obtain ⟨-, rfl⟩ := writeMem_eq_ok _ _ _ _ hc2
  obtain rfl := Except.ok.inj h
  have h1 : (c.SP + 65536 - 2) % 65536 = c.SP - 2 := by omega
  have h2 : (c.SP - 2 + 1) % 65536 = c.SP - 2 + 1 := by omega
  show upd (upd c.memory _ _) _ _ a = _
  simp only [upd, h1, h2, if_neg (show a ≠ c.SP - 2 + 1 by omega),
    if_neg (show a ≠ c.SP - 2 by omega)]

theorem op8_memory (c c' : State) (op : OpCode) (hX : op.B01 < 16) (hY : op.B10 < 16)
    (hN : op.B11 < 16) (h : c.op8 op = .ok c') : c'.memory = c.memory := by
  obtain ⟨B0, B00, B01, B1, B10, B11⟩ := op
  dsimp only at hX hY hN
  interval_cases B11 <;>
    simp [State.op8, State.getV, State.setV, hX, hY, bind, Except.bind, pure, Except.pure] at h <;>
    subst h <;>
    (try dsimp only [State.next, State.notImplemented]) <;>
    (try split_ifs) <;> rfl

theorem opD_low (c c' : State) (op : OpCode) (hX : op.B01 < 16) (hY : op.B10 < 16)
    (h : c.opD op = .ok c') : ∀ a, a < 0xF00 → c'.memory a = c.memory a := by
  intro a ha
  simp only [State.opD, getV_ok _ _ hX, getV_ok _ _ hY, bind, Except.bind, pure,
    Except.pure] at h
  split at h
  · cases h
  · rename_i c1 hc1
    obtain rfl := Except.ok.inj h
    exact opD_rows_low _ _ _ _ _ _ _ hc1 a ha

theorem opE_memory (c c' : State) (op : OpCode) (h : c.opE op = .ok c') :
    c'.memory = c.memory := by
  unfold State.opE at h
  dsimp only at h
  by_cases h1 : op.B1 = 0x9e
  · rw [if_pos h1] at h
    obtain ⟨vx, -, h⟩ := bind_eq_ok _ _ _ h
    obtain ⟨k, -, h⟩ := bind_eq_ok _ _ _ h
    obtain rfl := Except.ok.inj h
    dsimp only [State.next]; split_ifs <;> rfl
  · rw [if_neg h1] at h
    by_cases h2 : op.B1 = 0xa1
    · rw [if_pos h2] at h
      obtain ⟨vx, -, h⟩ := bind_eq_ok _ _ _ h
      obtain ⟨k, -, h⟩ := bind_eq_ok _ _ _ h
      obtain rfl := Except.ok.inj h
      dsimp only [State.next]; split_ifs <;> rfl
    · rw [if_neg h2] at h
      obtain rfl := Except.ok.inj h
      rfl

theorem opF_low (c c' : State) (env : Env) (op : OpCode) (hX : op.B01 < 16)
    (hI : c.I < 65536) (h : c.opF env op = .ok c') :
    ∀ a, (op.B1 = 0x33 ∨ op.B1 = 0x55 → a < c.I) → c'.memory a = c.memory a := by
  intro a ha
  unfold State.opF at h
  dsimp only at h
  by_cases h07 : op.B1 = 0x07
  · rw [if_pos h07] at h
    simp only [setV_ok _ _ _ hX, bind, Except.bind, pure, Except.pure] at h
    obtain rfl := Except.ok.inj h
    rfl
  rw [if_neg h07] at h
  by_cases h0a : op.B1 = 0x0a
  · rw [if_pos h0a] at h
    simp only [setV_ok _ _ _ hX, bind, Except.bind, pure, Except.pure] at h
    obtain rfl := Except.ok.inj h
    rfl
  rw [if_neg h0a] at h
  by_cases h15 : op.B1 = 0x15
  · rw [if_pos h15] at h
    simp only [getV_ok _ _ hX, bind, Except.bind, pure, Except.pure] at h
    obtain rfl := Except.ok.inj h
    rfl
  rw [if_neg h15] at h
  by_cases h18 : op.B1 = 0x18
  · rw [if_pos h18] at h
    simp only [getV_ok _ _ hX, bind, Except.bind, pure, Except.pure] at h
    obtain rfl := Except.ok.inj h
    rfl
  rw [if_neg h18] at h
  by_cases h1e : op.B1 = 0x1e
  · rw [if_pos h1e] at h
    simp only [getV_ok _ _ hX, bind, Except.bind, pure, Except.pure] at h
    obtain rfl := Except.ok.inj h
    dsimp only [State.next]; split_ifs <;> rfl
  rw [if_neg h1e] at h
  by_cases h29 : op.B1 = 0x29
  · rw [if_pos h29] at h
    simp only [getV_ok _ _ hX, bind, Except.bind, pure, Except.pure] at h
    obtain rfl := Except.ok.inj h
    rfl
  rw [if_neg h29] at h
  by_cases h33 : op.B1 = 0x33
  · rw [if_pos h33] at h
    have hlt := ha (Or.inl h33)
    obtain ⟨v, -, h⟩ := bind_eq_ok _ _ _ h
    obtain ⟨c1, hc1, h⟩ := bind_eq_ok _ _ _ h
    obtain ⟨c2, hc2, h⟩ := bind_eq_ok _ _ _ h
    obtain ⟨c3, hc3, h⟩ := bind_eq_ok _ _ _ h
    obtain ⟨hr1, rfl⟩ := writeMem_eq_ok _ _ _ _ hc1
    obtain ⟨-, rfl⟩ := writeMem_eq_ok _ _ _ _ hc2
    obtain ⟨-, rfl⟩ := writeMem_eq_ok _ _ _ _ hc3
    obtain rfl := Except.ok.inj h
    have e1 : (c.I + 1) % 65536 = c.I + 1 := by omega
    have e2 : (c.I + 2) % 65536 = c.I + 2 := by omega
    show upd (upd (upd c.memory _ _) _ _) _ _ a = _
    simp only [upd, e1, e2, if_neg (show a ≠ c.I by omega),
      if_neg (show a ≠ c.I + 1 by omega), if_neg (show a ≠ c.I + 2 by omega)]
  rw [if_neg h33] at h
  by_cases h55 : op.B1 = 0x55
  · rw [if_pos h55] at h
    have hlt := ha (Or.inr h55)
    have hle : (op.B01 + 1) % 256 ≤ 16 := by omega
    rw [if_pos hle] at h
    obtain ⟨c1, hc1, h⟩ := bind_eq_ok _ _ _ h
    obtain rfl := Except.ok.inj h
    have hk : (op.B01 + 1) % 256 = op.B01 + 1 := by omega
    rw [hk] at hc1
    have hfirst := opF_store_first _ _ _ _ hc1
    exact opF_store_low _ _ _ _ hc1 hI (by omega) a (by omega)
  rw [if_neg h55] at h
  by_cases h65 : op.B1 = 0x65
  · rw [if_pos h65] at h
    have hle : (op.B01 + 1) % 256 ≤ 16 := by omega
    rw [if_pos hle] at h
    obtain ⟨c1, hc1, h⟩ := bind_eq_ok _ _ _ h
    obtain rfl := Except.ok.inj h
    show c1.memory a = _
    rw [opF_load_memory _ _ _ _ hc1]
  rw [if_neg h65] at h
  obtain rfl := Except.ok.inj h
  rfl

/-- Which bytes below the framebuffer an instruction leaves alone, whenever `RunOp`
returns: all of them, except that the call writes at `SP - 2` and `SP - 1`, and `FX33` and
`FX55` write from `I` upwards. -/
theorem RunOp_low (c c' : State) (env : Env) (op : OpCode) (hX : op.B01 < 16)
    (hY : op.B10 < 16) (hN : op.B11 < 16) (hI : c.I < 65536) (hSP : c.SP < 65536)
    (h : c.RunOp env op = .ok c') (a : Nat) (ha : a < 0xF00)
    (hF : op.B00 = 0xF → op.B1 = 0x33 ∨ op.B1 = 0x55 → a < c.I)
    (hC : op.B00 = 0x2 → a + 2 < c.SP) : c'.memory a = c.memory a := by
  unfold State.RunOp at h
  by_cases k0 : op.B00 = 0x00
  · rw [if_pos k0] at h
    exact op0_low c c' op h a ha
  rw [if_neg k0] at h
  by_cases k1 : op.B00 = 0x01
  · rw [if_pos k1] at h
    unfold State.op1 at h
    obtain rfl := Except.ok.inj h
    dsimp only; split_ifs <;> rfl
  rw [if_neg k1] at h
  by_cases k2 : op.B00 = 0x02
  · rw [if_pos k2] at h
    exact op2_low c c' op hSP h a (hC k2)
  rw [if_neg k2] at h
  by_cases k3 : op.B00 = 0x03
  · rw [if_pos k3] at h
    simp only [State.op3, getV_ok _ _ hX, bind, Except.bind, pure, Except.pure] at h
    obtain rfl := Except.ok.inj h
    dsimp only [State.next]; split_ifs <;> rfl
  rw [if_neg k3] at h
  by_cases k4 : op.B00 = 0x04
  · rw [if_pos k4] at h
    simp only [State.op4, getV_ok _ _ hX, bind, Except.bind, pure, Except.pure] at h
    obtain rfl := Except.ok.inj h
    dsimp only [State.next]; split_ifs <;> rfl
  rw [if_neg k4] at h
  by_cases k5 : op.B00 = 0x05
  · rw [if_pos k5] at h
    simp only [State.op5, getV_ok _ _ hX, getV_ok _ _ hY, bind, Except.bind, pure, Except.pure] at h
    obtain rfl := Except.ok.inj h
    dsimp only [State.next]; split_ifs <;> rfl
  rw [if_neg k5] at h
  by_cases k6 : op.B00 = 0x06
  · rw [if_pos k6] at h
    simp only [State.op6, setV_ok _ _ _ hX, bind, Except.bind, pure, Except.pure] at h
    obtain rfl := Except.ok.inj h
    rfl
  rw [if_neg k6] at h
  by_cases k7 : op.B00 = 0x07
  · rw [if_pos k7] at h
    simp only [State.op7, getV_ok _ _ hX, setV_ok _ _ _ hX, bind, Except.bind, pure, Except.pure] at h
    obtain rfl := Except.ok.inj h
    rfl
  rw [if_neg k7] at h
  by_cases k8 : op.B00 = 0x08
  · rw [if_pos k8] at h
    rw [op8_memory c c' op hX hY hN h]
  rw [if_neg k8] at h
  by_cases k9 : op.B00 = 0x09
  · rw [if_pos k9] at h
    simp only [State.op9, getV_ok _ _ hX, getV_ok _ _ hY, bind, Except.bind, pure, Except.pure] at h
    obtain rfl := Except.ok.inj h
    dsimp only [State.next]; split_ifs <;> rfl
  rw [if_neg k9] at h
  by_cases k10 : op.B00 = 0x0a
  · rw [if_pos k10] at h
    unfold State.opA at h
    obtain rfl := Except.ok.inj h
    rfl
  rw [if_neg k10] at h
  by_cases k11 : op.B00 = 0x0b
  · rw [if_pos k11] at h
    unfold State.opB at h
    obtain rfl := Except.ok.inj h
    rfl
  rw [if_neg k11] at h
  by_cases k12 : op.B00 = 0x0c
  · rw [if_pos k12] at h
    simp only [State.opC, setV_ok _ _ _ hX, bind, Except.bind, pure, Except.pure] at h
    obtain rfl := Except.ok.inj h
    rfl
  rw [if_neg k12] at h
  by_cases k13 : op.B00 = 0x0d
  · rw [if_pos k13] at h
    exact opD_low c c' op hX hY h a ha
  rw [if_neg k13] at h
  by_cases k14 : op.B00 = 0x0e
  · rw [if_pos k14] at h
    rw [opE_memory c c' op h]
  rw [if_neg k14] at h
  by_cases k15 : op.B00 = 0x0f
  · rw [if_pos k15] at h
    exact opF_low c c' env op hX hI h a (hF k15)
  rw [if_neg k15] at h
  obtain rfl := Except.ok.inj h
  rfl

theorem stateIAtFont_WF : stateIAtFont.WF := by
  refine ⟨fun a _ => ?_, fun i _ => ?_, ?_, ?_, ?_, ?_, ?_⟩ <;>
    first
      | decide
      | (simp only [stateIAtFont]; first | decide | (split_ifs <;> decide))

/-! ## Helpers for the random instruction and the repeated draw -/

theorem RunOp_opC (c : State) (env : Env) (op : OpCode) (h : op.B00 = 0xC) :
    c.RunOp env op = c.opC env op := by
  simp [State.RunOp, h]

/-- The state left by `CXNN`. -/
theorem RunOp_random (c : State) (env : Env) (X NN : Nat) (hX : X < 16) (hNN : NN < 256) :
    c.RunOp env (NewOpCode (0xC0 + X) NN)
      = .ok ({ c with V := upd c.V X ((randIntn 0xff env.draw % 256) &&& NN) }).next := by
  have hb := hNN
  rw [NewOpCode_nibbles (0xC0 + X) NN 0xC X (NN / 16) (NN % 16) hX (by omega) (by omega)
    (by omega), RunOp_opC _ _ _ rfl]
  simp only [State.opC, setV_ok _ _ _ hX, bind, Except.bind, pure, Except.pure]

/-- `DXYN` with the sprite below the framebuffer keeps `I` and every register but `VF`. -/
theorem RunOp_draw_regs (c c' : State) (env : Env) (X Y N : Nat)
    (hX : X < 16) (hY : Y < 16) (hN : N < 16) (hI : c.I + N ≤ 0xF00)
    (h : c.RunOp env (NewOpCode (0xD0 + X) (16 * Y + N)) = .ok c') :
    c'.I = c.I ∧ ∀ i, i ≠ 0xF → c'.V i = c.V i := by
  rw [NewOpCode_nibbles (0xD0 + X) (16 * Y + N) 0xD X Y N hX hN (by omega) rfl,
    RunOp_opD _ _ _ rfl] at h
  obtain ⟨c1, hrun, hfr, -⟩ :=
    opD_rows_spec (c.V X) (c.V Y) N (N + 1) 0 (c.setVF 0) (by omega) hI
  simp only [State.opD, getV_ok _ _ hX, getV_ok _ _ hY, bind, Except.bind, hrun, pure,
    Except.pure] at h
  obtain rfl := Except.ok.inj h
  refine ⟨hfr.I_eq, fun i hi => ?_⟩
  show c1.V i = c.V i
  rw [hfr.V_eq i hi]
  simp [State.setVF, upd, hi]

/-- The sprite bits of a draw depend only on `I` and on the bytes below the framebuffer. -/
theorem spriteBit_congr (c c' : State) (x y n col row : Nat) (hI : c.I + n ≤ 0xF00)
    (hI' : c'.I = c.I) (hm : ∀ a, ¬ (0xF00 ≤ a ∧ a < 0x1000) → c'.memory a = c.memory a) :
    spriteBit c' x y n col row = spriteBit c x y n col row := by
  unfold spriteBit
  by_cases h : x ≤ col ∧ col < x + 8 ∧ y ≤ row ∧ row < y + n
  · rw [hI', hm _ (by omega)]
  · rw [decide_eq_false h]; rfl

/-! ## Font region, halt, flag operand, random byte, repeated draw -/

/-- Claim C21, as the code has it. Font region: for every state and every 2-byte
instruction word, `RunOp`, whenever it returns, leaves the 80 font bytes
`memory[0x000..0x04F]` unchanged provided the instruction does not address them: `I ≥ 0x50`
for `FX33` and `FX55`, `SP ≥ 0x52` for the call `2NNN`; and `LoadProgram` leaves them
unchanged for every program it accepts. -/
theorem font_kept_where_not_addressed (c : State) (hwf : c.WF) :
    (∀ env b0 b1 c', b0 < 256 → b1 < 256 →
      (b0 / 16 = 0xF → b1 = 0x33 ∨ b1 = 0x55 → 0x50 ≤ c.I) →
      (b0 / 16 = 0x2 → 0x52 ≤ c.SP) →
      c.RunOp env (NewOpCode b0 b1) = .ok c' →
      ∀ a, a < 0x50 → c'.memory a = c.memory a) ∧
    (∀ program c', c.LoadProgram program = .ok c' →
      ∀ a, a < 0x50 → c'.memory a = c.memory a) := by
  constructor
  · intro env b0 b1 c' _ h1 hF hC h a ha
    obtain ⟨hX, hY, hN⟩ := NewOpCode_bounds b0 b1 h1
    refine RunOp_low c c' env (NewOpCode b0 b1) hX hY hN hwf.I_lt hwf.SP_lt h a (by omega) ?_ ?_
    · intro hk hb
      simp only [NewOpCode, shiftRight_four] at hk hb
      have := hF hk hb
      omega
    · intro hk
      simp only [NewOpCode, shiftRight_four] at hk
      have := hC hk
      omega
  · intro program c' h a ha
    unfold State.LoadProgram at h
    split_ifs at h
    obtain rfl := Except.ok.inj h
    show (if 0x200 ≤ a ∧ a < 0x200 + program.length then _ else c.memory a) = _
    rw [if_neg (by omega)]

/-- On `demoState` (`I = 0x300`) the BCD store `F133` and the load of a two-byte program
keep the font bytes. -/
theorem font_kept_where_not_addressed_witness :
    demoState.WF ∧
    (∃ c', demoState.RunOp ⟨0, 0⟩ (NewOpCode 0xF1 0x33) = .ok c' ∧
      ∀ a, a < 0x50 → c'.memory a = demoState.memory a) ∧
    (∃ c', demoState.LoadProgram [0x60, 0x05] = .ok c' ∧
      ∀ a, a < 0x50 → c'.memory a = demoState.memory a) :=
  ⟨demoState_WF,
    ⟨_, rfl, (font_kept_where_not_addressed demoState demoState_WF).1 ⟨0, 0⟩ 0xF1 0x33 _
      (by decide) (by decide) (by decide) (by decide) rfl⟩,
    ⟨_, rfl, (font_kept_where_not_addressed demoState demoState_WF).2 [0x60, 0x05] _ rfl⟩⟩

/-- Claim C21 as stated fails: in `stateIAtFont` (`I = 0`, `V1 = 200`) the BCD store `F133`
writes the digit 2 into font byte `memory[0]`. -/
theorem bcd_overwrites_font :
    stateIAtFont.WF ∧ stateIAtFont.I + 2 ≤ 0x4F ∧
    ∃ c', stateIAtFont.RunOp ⟨0, 0⟩ (NewOpCode 0xF1 0x33) = .ok c' ∧
      c'.memory 0 = 2 ∧ c'.memory 0 ≠ stateIAtFont.memory 0 :=
  ⟨stateIAtFont_WF, by decide, _, rfl, rfl, by decide⟩

theorem stateHalted_WF : stateHalted.WF :=
  ⟨fun _ _ => Nat.zero_lt_succ _, fun _ _ => Nat.zero_lt_succ _, by decide, by decide,
    by decide, by decide, by decide⟩

/-- The timer tick on byte-valued timers: each nonzero timer goes down by one, and no other
field changes. -/
theorem timerTick_spec (c : State) (hd : c.delayTimer < 256) (hs : c.soundTimer < 256) :
    c.timerTick.delayTimer = (if c.delayTimer > 0 then c.delayTimer - 1 else 0) ∧
    c.timerTick.soundTimer = (if c.soundTimer > 0 then c.soundTimer - 1 else 0) ∧
    c.timerTick.halt = c.halt ∧ c.timerTick.memory = c.memory ∧ c.timerTick.V = c.V ∧
    c.timerTick.I = c.I ∧ c.timerTick.SP = c.SP ∧ c.timerTick.PC = c.PC ∧
    c.timerTick.keyboard = c.keyboard := by
  unfold State.timerTick
  by_cases h1 : c.delayTimer > 0 <;> by_cases h2 : c.soundTimer > 0 <;>
    simp [h1, h2] <;> omega

/-- Once the halt flag is set, no sequence of events served by the loop executes an
instruction or raises a timer, and the flag stays set. -/
theorem runEvents_halted : ∀ (es : List Event) (c c' : State), c.halt = true →
    c.delayTimer < 256 → c.soundTimer < 256 → c.runEvents es = .ok c' →
    c'.halt = true ∧ c'.memory = c.memory ∧ c'.V = c.V ∧ c'.I = c.I ∧ c'.SP = c.SP ∧
    c'.PC = c.PC ∧ c'.delayTimer ≤ c.delayTimer ∧ c'.soundTimer ≤ c.soundTimer := by
  intro es
  induction es with
  | nil =>
    intro c c' hh _ _ h
    obtain rfl := Except.ok.inj h
    exact ⟨hh, rfl, rfl, rfl, rfl, rfl, le_refl _, le_refl _⟩
  | cons e es ih =>
    intro c c' hh hd hs h
    rw [State.runEvents] at h
    obtain ⟨r, hr, h⟩ := bind_eq_ok _ _ _ h
    cases e with
    | clock env =>
      have hc : ({ c with halt := true } : State) = c := by
        cases c; simp only at hh; subst hh; rfl
      simp only [State.serve, hh, or_true, if_true, hc] at hr
      obtain rfl := Except.ok.inj hr
      simp only [if_true] at h
      obtain rfl := Except.ok.inj h
      exact ⟨hh, rfl, rfl, rfl, rfl, rfl, le_refl _, le_refl _⟩
    | timer =>
      simp only [State.serve] at hr
      obtain rfl := Except.ok.inj hr
      obtain ⟨t1, t2, t3, t4, t5, t6, t7, t8, -⟩ := timerTick_spec c hd hs
      have hd' : c.timerTick.delayTimer ≤ c.delayTimer := by rw [t1]; split_ifs <;> omega
      have hs' : c.timerTick.soundTimer ≤ c.soundTimer := by rw [t2]; split_ifs <;> omega
      simp only [Bool.false_eq_true, if_false] at h
      obtain ⟨i1, i2, i3, i4, i5, i6, i7, i8⟩ :=
        ih c.timerTick c' (t3.trans hh) (by omega) (by omega) h
      exact ⟨i1, i2.trans t4, i3.trans t5, i4.trans t6, i5.trans t7, i6.trans t8,
        le_trans i7 hd', le_trans i8 hs'⟩
    | key k =>
      simp only [State.serve] at hr
      obtain ⟨c1, hc1, hr⟩ := bind_eq_ok _ _ _ hr
      unfold State.recvKey at hc1
      split_ifs at hc1
      obtain rfl := Except.ok.inj hc1
      obtain rfl := Except.ok.inj hr
      simp only [Bool.false_eq_true, if_false] at h
      exact ih { c with keyboard := upd c.keyboard k.key k.pressed } c' hh hd hs h

/-- Claim C22, as the code has it. Halt is absorbing at the CPU tick: from every
well-formed state with the halt flag set, a CPU tick fetches and executes nothing, changes
nothing and ends the run loop, so that no later event is served; a key event keeps the halt
flag set and changes none of memory, `V`, `I`, `SP`, `PC` and the two timers; a timer tick
served before that CPU tick keeps the halt flag set, changes none of memory, `V`, `I`, `SP`,
`PC`, and still lowers each nonzero timer by one; hence after any sequence of events the
halt flag is set, memory, `V`, `I`, `SP` and `PC` are as before, and no timer has gone up. -/
theorem halt_is_absorbing_at_clock_tick (c : State) (hwf : c.WF) (hh : c.halt = true) :
    (∀ env, c.serve (.clock env) = .ok (c, true)) ∧
    (∀ env es, c.runEvents (.clock env :: es) = .ok c) ∧
    (∀ e c' r, c.serve (.key e) = .ok (c', r) →
      c'.halt = true ∧
      c'.memory = c.memory ∧ c'.V = c.V ∧ c'.I = c.I ∧ c'.SP = c.SP ∧ c'.PC = c.PC ∧
      c'.delayTimer = c.delayTimer ∧ c'.soundTimer = c.soundTimer) ∧
    (∃ c', c.serve .timer = .ok (c', false) ∧
      c'.halt = true ∧
      c'.memory = c.memory ∧ c'.V = c.V ∧ c'.I = c.I ∧ c'.SP = c.SP ∧ c'.PC = c.PC ∧
      c'.delayTimer = (if c.delayTimer > 0 then c.delayTimer - 1 else 0) ∧
      c'.soundTimer = (if c.soundTimer > 0 then c.soundTimer - 1 else 0)) ∧
    (∀ es c', c.runEvents es = .ok c' →
      c'.halt = true ∧
      c'.memory = c.memory ∧ c'.V = c.V ∧ c'.I = c.I ∧ c'.SP = c.SP ∧ c'.PC = c.PC ∧
      c'.delayTimer ≤ c.delayTimer ∧ c'.soundTimer ≤ c.soundTimer) := by
  have hc : ({ c with halt := true } : State) = c := by
    cases c; simp only at hh; subst hh; rfl
  have h1 : ∀ env, c.serve (.clock env) = .ok (c, true) := by
    intro env
    simp only [State.serve, hh, or_true, if_true, hc]
  refine ⟨h1, ?_, ?_, ?_, ?_⟩
  · intro env es
    simp only [State.runEvents, h1, bind, Except.bind, pure, Except.pure, if_true]
  · intro e c' r h
    simp only [State.serve] at h
    obtain ⟨c1, hc1, h⟩ := bind_eq_ok _ _ _ h
    unfold State.recvKey at hc1
    split_ifs at hc1
    obtain rfl := Except.ok.inj hc1
    obtain ⟨rfl, -⟩ := Prod.mk.inj (Except.ok.inj h)
    exact ⟨hh, rfl, rfl, rfl, rfl, rfl, rfl, rfl⟩
  · obtain ⟨t1, t2, t3, t4, t5, t6, t7, t8, -⟩ :=
      timerTick_spec c hwf.delayTimer_lt hwf.soundTimer_lt
    exact ⟨c.timerTick, rfl, t3.trans hh, t4, t5, t6, t7, t8, t1, t2⟩
  · intro es c' h
    exact runEvents_halted es c c' hh hwf.delayTimer_lt hwf.soundTimer_lt h

/-- On `stateHalted`: a CPU tick serves nothing and ends the loop, and a timer tick, a key
event and a second timer tick leave the halt flag set and the registers as they were. -/
theorem halt_is_absorbing_at_clock_tick_witness :
    stateHalted.WF ∧ stateHalted.halt = true ∧
    stateHalted.serve (.clock ⟨0, 0⟩) = .ok (stateHalted, true) ∧
    stateHalted.runEvents [.clock ⟨0, 0⟩, .timer] = .ok stateHalted ∧
    (∃ c', stateHalted.runEvents [.timer, .key ⟨3, true⟩, .timer] = .ok c' ∧
      c'.halt = true ∧ c'.memory = stateHalted.memory ∧ c'.V = stateHalted.V ∧
      c'.I = stateHalted.I ∧ c'.SP = stateHalted.SP ∧ c'.PC = stateHalted.PC ∧
      c'.delayTimer ≤ stateHalted.delayTimer ∧ c'.soundTimer ≤ stateHalted.soundTimer) :=
  ⟨stateHalted_WF, rfl,
    (halt_is_absorbing_at_clock_tick stateHalted stateHalted_WF rfl).1 ⟨0, 0⟩,
    (halt_is_absorbing_at_clock_tick stateHalted stateHalted_WF rfl).2.1 ⟨0, 0⟩ [.timer],
    ⟨_, rfl, (halt_is_absorbing_at_clock_tick stateHalted stateHalted_WF rfl).2.2.2.2
      [.timer, .key ⟨3, true⟩, .timer] _ rfl⟩⟩

/-- Claim C22 as stated fails: in `stateHalted` (halt set, delay timer 5) a timer tick is
still served and decrements the delay timer to 4: the halt flag is inspected on the CPU
tick only. -/
theorem timer_still_runs_after_halt :
    stateHalted.halt = true ∧ stateHalted.delayTimer = 5 ∧
    ∃ c', stateHalted.serve .timer = .ok (c', false) ∧ c'.delayTimer = 4 ∧
      c'.delayTimer ≠ stateHalted.delayTimer :=
  ⟨rfl, rfl, _, rfl, by decide, by decide⟩

/-- Claim C23 at its failing input: in `stateFlagOperand` (`V1 = 5`, `VF = 3`) `81F5`
leaves `V1 = 4`, not `(5 - 3) mod 256 = 2`, and `81F7` leaves `V1 = 251`, not
`(3 - 5) mod 256 = 254`: cases 5 and 7 of `op8` write the flag first and then read the
operands again, so the flag operand is the new flag. -/
theorem flag_operand_is_overwritten_first :
    (1 : Nat) ≠ 0xF ∧ stateFlagOperand.V 1 = 5 ∧ stateFlagOperand.V 0xF = 3 ∧
    (∃ c', stateFlagOperand.RunOp ⟨0, 0⟩ (NewOpCode 0x81 0xF5) = .ok c' ∧ c'.V 1 = 4 ∧
      (c'.V 1 : Int) ≠ ((stateFlagOperand.V 1 : Int) - (stateFlagOperand.V 0xF : Int)) % 256) ∧
    (∃ c', stateFlagOperand.RunOp ⟨0, 0⟩ (NewOpCode 0x81 0xF7) = .ok c' ∧ c'.V 1 = 251 ∧
      (c'.V 1 : Int) ≠ ((stateFlagOperand.V 0xF : Int) - (stateFlagOperand.V 1 : Int)) % 256) :=
  ⟨by decide, rfl, rfl, ⟨_, rfl, rfl, by decide⟩, ⟨_, rfl, rfl, by decide⟩⟩

/-- Claim C24 at its failing input: whatever the random source draws, `C0FF` leaves
`V0 = Intn(0xff) AND 0xFF`, and that is never 255: `rand.Intn(0xff)` is below `0xff`. -/
theorem random_byte_is_never_255 :
    ∀ draw, ∃ c', demoState.RunOp ⟨draw, 0⟩ (NewOpCode 0xC0 0xFF) = .ok c' ∧
      c'.V 0 = (randIntn 0xff draw % 256) &&& 0xFF ∧ c'.V 0 ≠ 255 := by
  intro draw
  refine ⟨_, RunOp_random demoState ⟨draw, 0⟩ 0 0xFF (by decide) (by decide), ?_, ?_⟩
  · simp [State.next, upd]
  · simp only [State.next, upd, if_pos, randIntn, and_0xff]
    omega

/-- Claim C25, as the code has it. Drawing twice erases: for every state with
`I + N ≤ 0xF00` and register indices `X`, `Y` both different from `0xF`, executing the same
`DXYN` twice in succession restores every framebuffer byte `memory[0xF00..0xFFF]` to its
value before the first draw, and after the second draw `VF = 1` if and only if at least one
set bit of the sprite inside the clipped rectangle (columns `V[X]..min(V[X]+7, 63)`, rows
`V[Y]..min(V[Y]+N-1, 31)`) lies on a pixel that was clear before the first draw. -/
theorem draw_twice_restores (c : State) (env : Env) (hwf : c.WF) (X Y N : Nat)
    (hX : X < 16) (hXF : X ≠ 0xF) (hY : Y < 16) (hYF : Y ≠ 0xF) (hN : N < 16)
    (hI : c.I + N ≤ 0xF00) :
    ∃ c1 c2, c.RunOp env (NewOpCode (0xD0 + X) (16 * Y + N)) = .ok c1 ∧
      c1.RunOp env (NewOpCode (0xD0 + X) (16 * Y + N)) = .ok c2 ∧
      (∀ a, 0xF00 ≤ a → a ≤ 0xFFF → c2.memory a = c.memory a) ∧
      (c2.V 0xF = 1 ↔ ∃ col row,
        c.V X ≤ col ∧ col ≤ min (c.V X + 7) 63 ∧ c.V Y ≤ row ∧ row + 1 ≤ min (c.V Y + N) 32 ∧
        spriteBit c (c.V X) (c.V Y) N col row = true ∧ pixel c.memory col row = false) := by
  obtain ⟨c1, hrun1, -, hmem1, hlt1, hpix1, -, -⟩ := RunOp_draw c env X Y N hX hY hN hI
  obtain ⟨hI1, hV1⟩ := RunOp_draw_regs c c1 env X Y N hX hY hN hI hrun1
  have hI1' : c1.I + N ≤ 0xF00 := by rw [hI1]; exact hI
  obtain ⟨c2, hrun2, -, hmem2, hlt2, hpix2, hflag2, -⟩ := RunOp_draw c1 env X Y N hX hY hN hI1'
  rw [hV1 X hXF, hV1 Y hYF] at hpix2 hflag2
  have hs : ∀ col row, spriteBit c1 (c.V X) (c.V Y) N col row
      = spriteBit c (c.V X) (c.V Y) N col row :=
    fun col row => spriteBit_congr c c1 _ _ _ col row hI hI1 hmem1
  refine ⟨c1, c2, hrun1, hrun2, ?_, ?_⟩
  · intro a ha1 ha2
    have hb2 : c2.memory a < 256 := hlt2 (hlt1 hwf.memory_lt) a (by omega)
    have hb : c.memory a < 256 := hwf.memory_lt a (by omega)
    apply byte_ext _ _ hb2 hb
    intro i hi
    have e0 : a = 0xF00 + 8 * ((a - 0xF00) / 8) + (8 * ((a - 0xF00) % 8) + (7 - i)) / 8 := by
      omega
    have e1 : 7 - (8 * ((a - 0xF00) % 8) + (7 - i)) % 8 = i := by omega
    have h2 := hpix2 (8 * ((a - 0xF00) % 8) + (7 - i)) ((a - 0xF00) / 8) (by omega) (by omega)
    have h1 := hpix1 (8 * ((a - 0xF00) % 8) + (7 - i)) ((a - 0xF00) / 8) (by omega) (by omega)
    rw [h1, hs, Bool.xor_assoc, Bool.xor_self, Bool.xor_false] at h2
    simp only [pixel, ← e0, e1] at h2
    exact h2
  · rw [hflag2]
    constructor
    · rintro ⟨col, row, h1, h2, h3, h4, h5, h6, h7, h8⟩
      refine ⟨col, row, h1, by omega, h4, by omega, ?_, ?_⟩
      · rw [← hs]; exact h7
      · rw [hpix1 col row h3 h6, ← hs, h7] at h8
        simpa using h8
    · rintro ⟨col, row, h1, h2, h3, h4, h5, h6⟩
      refine ⟨col, row, h1, by omega, by omega, h3, by omega, by omega, ?_, ?_⟩
      · rw [hs]; exact h5
      · rw [hpix1 col row (by omega) (by omega), h5, h6]
        rfl

/-- On `demoState` the draw `D001` executed twice. -/
theorem draw_twice_restores_witness :
    demoState.WF ∧ (0 : Nat) < 16 ∧ (0 : Nat) ≠ 0xF ∧ (1 : Nat) < 16 ∧
    demoState.I + 1 ≤ 0xF00 ∧
    ∃ c1 c2, demoState.RunOp ⟨0, 0⟩ (NewOpCode (0xD0 + 0) (16 * 0 + 1)) = .ok c1 ∧
      c1.RunOp ⟨0, 0⟩ (NewOpCode (0xD0 + 0) (16 * 0 + 1)) = .ok c2 ∧
      (∀ a, 0xF00 ≤ a → a ≤ 0xFFF → c2.memory a = demoState.memory a) ∧
      (c2.V 0xF = 1 ↔ ∃ col row,
        demoState.V 0 ≤ col ∧ col ≤ min (demoState.V 0 + 7) 63 ∧
        demoState.V 0 ≤ row ∧ row + 1 ≤ min (demoState.V 0 + 1) 32 ∧
        spriteBit demoState (demoState.V 0) (demoState.V 0) 1 col row = true ∧
        pixel demoState.memory col row = false) :=
  ⟨demoState_WF, by decide, by decide, by decide, by decide,
    draw_twice_restores demoState ⟨0, 0⟩ demoState_WF 0 0 1 (by decide) (by decide)
      (by decide) (by decide) (by decide) (by decide)⟩

/-- Claim C25 as stated fails: in `stateSpriteOnScreen` the sprite row `0xFF` is already on
the screen where `D001` draws it; the first draw erases it, the second draws it on clear
pixels and leaves `VF = 0`, although the sprite has set bits inside the rectangle. -/
theorem second_draw_on_own_sprite_has_no_collision :
    stateSpriteOnScreen.I + 1 ≤ 0xF00 ∧
    (∃ col row, stateSpriteOnScreen.V 0 ≤ col ∧ col ≤ min (stateSpriteOnScreen.V 0 + 7) 63 ∧
      stateSpriteOnScreen.V 0 ≤ row ∧ row + 1 ≤ min (stateSpriteOnScreen.V 0 + 1) 32 ∧
      spriteBit stateSpriteOnScreen (stateSpriteOnScreen.V 0) (stateSpriteOnScreen.V 0) 1
        col row = true) ∧
    ∃ c1 c2, stateSpriteOnScreen.RunOp ⟨0, 0⟩ (NewOpCode 0xD0 0x01) = .ok c1 ∧
      c1.RunOp ⟨0, 0⟩ (NewOpCode 0xD0 0x01) = .ok c2 ∧ c2.V 0xF = 0 ∧ c2.V 0xF ≠ 1 :=
  ⟨by decide, ⟨8, 8, by decide, by decide, by decide, by decide, by decide⟩,
    _, _, rfl, rfl, by decide, by decide⟩

end Chip8
